import Mathlib

/-! # Esca Movie Bot: movie resolution and the request workflow

A shallow embedding of `src/utils/dbManager.js` and of the command handlers that
call it (`/requestmovie`, `/getmovie`, `/savemovie`, `/updatemovie`, `/searchmovie`,
`/cleanup` and the buttons of `interactionCreate`).  The JSON files are the state:
every operation takes the collection it reads as an argument and returns the
collection it writes.

JavaScript strings are sequences of UTF-16 code units.  The case mapping
`String.prototype.toLowerCase` belongs to the runtime, not to the repository, so
the development is parametric in it (argument `toLowerCase`); concrete
evaluations use `asciiToLowerCase`, which agrees with it on ASCII text.
-/

namespace MovieBot

/-! ## Strings of the runtime -/

/-- A JavaScript string, as the list of its UTF-16 code units. -/
abbrev JsString := List Nat

/-- UTF-16 code units of one character. -/
def codeUnits (c : Char) : List Nat :=
  if c.toNat < 65536 then [c.toNat]
  else [55296 + (c.toNat - 65536) / 1024, 56320 + (c.toNat - 65536) % 1024]

/-- The JavaScript string written by a literal. -/
def js (s : String) : JsString :=
  (s.toList.map codeUnits).flatten

/-- Truthiness of a string value: every string but the empty one. -/
def truthy (s : JsString) : Bool :=
  !s.isEmpty

/-- White space and line terminators, the code units `String.prototype.trim` strips. -/
def isWhiteSpace (c : Nat) : Bool :=
  c == 9 || c == 10 || c == 11 || c == 12 || c == 13 || c == 32 || c == 160 ||
  c == 5760 || (8192 ≤ c && c ≤ 8202) || c == 8232 || c == 8233 || c == 8239 ||
  c == 8287 || c == 12288 || c == 65279

/-- `String.prototype.trim`. -/
def trim (s : JsString) : JsString :=
  ((s.dropWhile isWhiteSpace).reverse.dropWhile isWhiteSpace).reverse

/-- `String.prototype.startsWith`. -/
def startsWith (s t : JsString) : Bool :=
  t.isPrefixOf s

/-- `String.prototype.includes`: `t` occurs in `s` as a contiguous run. -/
def includes : JsString → JsString → Bool
  | [], t => t.isPrefixOf []
  | c :: s, t => t.isPrefixOf (c :: s) || includes s t

/-- Index of the first occurrence of `t` in `s`, counted from `i`; `-1` when there is none. -/
def indexOfFrom (t : JsString) : JsString → Nat → Int
  | [], i => if t.isPrefixOf [] then (i : Int) else -1
  | c :: s, i => if t.isPrefixOf (c :: s) then (i : Int) else indexOfFrom t s (i + 1)

/-- `String.prototype.indexOf`. -/
def indexOf (s t : JsString) : Int :=
  indexOfFrom t s 0

/-- The ASCII part of `toLowerCase`: `A`..`Z` go to `a`..`z`, every other code unit stays. -/
def asciiToLowerCase (s : JsString) : JsString :=
  s.map fun c => if 65 ≤ c ∧ c ≤ 90 then c + 32 else c

/-- Decimal digit code units `0`..`9`. -/
def isDigit (c : Nat) : Bool :=
  48 ≤ c && c ≤ 57

/-- Value of a digit of the given radix (at most 36), `none` for any other code unit:
`0`..`9` count 0 to 9, letters of either case count from 10. -/
def digitValue (radix : Nat) (c : Nat) : Option Nat :=
  let v : Option Nat :=
    if isDigit c then some (c - 48)
    else if 97 ≤ c ∧ c ≤ 122 then some (c - 87)
    else if 65 ≤ c ∧ c ≤ 90 then some (c - 55)
    else none
  v.filter (fun d => d < radix)

/-- The leading run of digits of the radix, as values. -/
def leadingDigits (radix : Nat) : JsString → List Nat
  | [] => []
  | c :: s =>
    match digitValue radix c with
    | some d => d :: leadingDigits radix s
    | none => []

/-- `parseInt(s)` without a radix argument; `none` is `NaN`.  Leading white space is
skipped, then a sign, then a `0x`/`0X` prefix selects radix 16, then the longest run of
digits is read and whatever follows is ignored.  The value is exact as long as it is a
safe integer (below `2^53` in magnitude). -/
def parseInt (s : JsString) : Option Int :=
  let s1 := s.dropWhile isWhiteSpace
  let signed : Bool × JsString :=
    match s1 with
    | 45 :: r => (true, r)
    | 43 :: r => (false, r)
    | _ => (false, s1)
  let based : Nat × JsString :=
    match signed.2 with
    | 48 :: 120 :: r => (16, r)
    | 48 :: 88 :: r => (16, r)
    | _ => (10, signed.2)
  let ds := leadingDigits based.1 based.2
  if ds.isEmpty then none
  else
    let v : Nat := ds.foldl (fun acc d => acc * based.1 + d) 0
    some (if signed.1 then -(v : Int) else (v : Int))

/-- Decimal digits of a natural number, most significant first; `fuel` bounds the count. -/
def decimalDigits : Nat → Nat → List Nat → List Nat
  | 0, _, acc => acc
  | fuel + 1, n, acc =>
    if n < 10 then (48 + n) :: acc
    else decimalDigits fuel (n / 10) ((48 + n % 10) :: acc)

/-- `Number.prototype.toString()` of an integer (below `10^21` in magnitude). -/
def numberToString (n : Int) : JsString :=
  match n with
  | Int.ofNat k => decimalDigits (k + 1) k []
  | Int.negSucc k => 45 :: decimalDigits (k + 2) (k + 1) []

/-- The number written by the digits `s` in the given radix; `none` (`NaN`) when `s`
is empty or holds anything but digits of that radix. -/
def digitsToNumber (radix : Nat) (s : JsString) : Option Int :=
  if !s.isEmpty && s.all (fun c => (digitValue radix c).isSome) then
    some (((leadingDigits radix s).foldl (fun acc d => acc * radix + d) 0 : Nat) : Int)
  else none

/-- `Number(s)` of a string, on integer literals; `none` is `NaN`.  Surrounding white
space is dropped; the empty string is `0`; `0x`, `0o` and `0b` (either case) introduce
hexadecimal, octal and binary digits; otherwise an optional sign is followed by decimal
digits.  Literals written with a fraction or an exponent, and `Infinity`, are outside
this model, which reads them as `NaN`. -/
def stringToNumber (s : JsString) : Option Int :=
  let t := trim s
  if t.isEmpty then some 0
  else
    match t with
    | 48 :: 120 :: r => digitsToNumber 16 r
    | 48 :: 88 :: r => digitsToNumber 16 r
    | 48 :: 111 :: r => digitsToNumber 8 r
    | 48 :: 79 :: r => digitsToNumber 8 r
    | 48 :: 98 :: r => digitsToNumber 2 r
    | 48 :: 66 :: r => digitsToNumber 2 r
    | 45 :: r => (digitsToNumber 10 r).map fun v => -v
    | 43 :: r => digitsToNumber 10 r
    | _ => digitsToNumber 10 t

/-- `Math.max(a, b)` on numbers, `none` being `NaN`, which it propagates. -/
def mathMax (a b : Option Int) : Option Int :=
  match a, b with
  | some x, some y => some (max x y)
  | _, _ => none

/-- `Array.prototype.sort` with a comparator.  The sort is stable, and for a consistent
comparator the result is the one stable ordering, which insertion computes: `a` stays
before `b` when `cmp a b ≤ 0`. -/
def jsSort {α : Type} (cmp : α → α → Int) (l : List α) : List α :=
  l.insertionSort (fun a b => cmp a b ≤ 0)

/-- A `TypeError` raised by reading a property of `undefined` or `null`. -/
inductive JsError where
  | typeError
deriving DecidableEq, Repr

deriving instance DecidableEq for Except

/-- `Array.prototype.find` with a callback that may throw: the first element the
callback accepts, `none` for `undefined`; the callback runs on no element after it. -/
def jsFind {α : Type} (p : α → Except JsError Bool) : List α → Except JsError (Option α)
  | [] => .ok none
  | x :: xs =>
    match p x with
    | .error e => .error e
    | .ok true => .ok (some x)
    | .ok false => jsFind p xs

/-- `Array.prototype.findIndex`: the index of the first element the callback accepts;
`none` is `-1`. -/
def findIndex {α : Type} (p : α → Bool) : List α → Option Nat
  | [] => none
  | x :: xs => if p x then some 0 else (findIndex p xs).map (fun i => i + 1)

/-- The assignment `xs[index] = f(xs[index])` for an index within the array. -/
def modifyAt {α : Type} (f : α → α) : List α → Nat → List α
  | [], _ => []
  | x :: xs, 0 => f x :: xs
  | x :: xs, index + 1 => x :: modifyAt f xs index

/-- `String.prototype.split` with a separator of one code unit. -/
def split (sep : Nat) : JsString → List JsString
  | [] => [[]]
  | c :: s =>
    if c = sep then [] :: split sep s
    else
      match split sep s with
      | [] => [[c]]
      | piece :: pieces => (c :: piece) :: pieces

/-- The number written by exactly `n` decimal digits at the head of `s`, and the rest. -/
def readDigits : Nat → JsString → Option (Nat × JsString)
  | 0, s => some (0, s)
  | n + 1, s =>
    match readDigits n s with
    | some (v, c :: rest) => if isDigit c then some (v * 10 + (c - 48), rest) else none
    | _ => none

/-- Days of a month in a year of the Gregorian calendar. -/
def daysInMonth (year month : Nat) : Nat :=
  if month = 2 then
    if year % 4 = 0 ∧ (year % 100 ≠ 0 ∨ year % 400 = 0) then 29 else 28
  else if month = 4 ∨ month = 6 ∨ month = 9 ∨ month = 11 then 30
  else 31

/-- Days from 1970-01-01 to the given date of the Gregorian calendar. -/
def daysFromCivil (year month day : Nat) : Int :=
  let y : Int := if month ≤ 2 then (year : Int) - 1 else (year : Int)
  let era : Int := y / 400
  let yoe : Int := y - era * 400
  let mp : Int := ((month : Int) + 9) % 12
  let doy : Int := (153 * mp + 2) / 5 + (day : Int) - 1
  let doe : Int := yoe * 365 + yoe / 4 - yoe / 100 + doy
  era * 146097 + doe - 719468

/-- The time value, in milliseconds since the epoch, of a date-time string in the format
`toISOString` writes (`YYYY-MM-DDTHH:mm:ss.sssZ`); `none` for any other text and for a
field out of range.  It is the instance of `Date` parsing used in concrete
evaluations. -/
def isoToMillis (s : JsString) : Option Int :=
  match readDigits 4 s with
  | some (year, 45 :: s1) =>
    match readDigits 2 s1 with
    | some (month, 45 :: s2) =>
      match readDigits 2 s2 with
      | some (day, 84 :: s3) =>
        match readDigits 2 s3 with
        | some (hour, 58 :: s4) =>
          match readDigits 2 s4 with
          | some (minute, 58 :: s5) =>
            match readDigits 2 s5 with
            | some (second, 46 :: s6) =>
              match readDigits 3 s6 with
              | some (ms, [90]) =>
                if 1 ≤ month ∧ month ≤ 12 ∧ 1 ≤ day ∧ day ≤ daysInMonth year month ∧
                    hour ≤ 23 ∧ minute ≤ 59 ∧ second ≤ 59 then
                  some (daysFromCivil year month day * 86400000 +
                    ((hour * 3600000 + minute * 60000 + second * 1000 + ms : Nat) : Int))
                else none
              | _ => none
            | _ => none
          | _ => none
        | _ => none
      | _ => none
    | _ => none
  | _ => none

/-- `Array.prototype.join` with a separator of one code unit. -/
def joinWith (sep : Nat) : List JsString → JsString
  | [] => []
  | [s] => s
  | s :: t :: rest => s ++ sep :: joinWith sep (t :: rest)

/-- The values `[...new Set(xs)]` adds to a set that holds `seen` already, in the order
in which they enter it. -/
def newSetFrom (seen : List JsString) : List JsString → List JsString
  | [] => []
  | x :: xs =>
    if seen.contains x then newSetFrom seen xs else x :: newSetFrom (x :: seen) xs

/-- `[...new Set(xs)]`: the values of `xs`, each once, in the order of their first
occurrence. -/
def newSet (xs : List JsString) : List JsString :=
  newSetFrom [] xs

/-- Line terminators, the code units the `.` of a regular expression does not match. -/
def isLineTerminator (c : Nat) : Bool :=
  c == 10 || c == 13 || c == 8232 || c == 8233

/-- Whether `(.+)` matches right after a colon: the text that follows starts with a code
unit that `.` matches. -/
def dotMatchesHead : JsString → Bool
  | [] => false
  | d :: _ => !isLineTerminator d

/-- The scan of `s.split(/:(.+)/)` over the rest of the string.  `acc` is the piece read
so far; with `inCapture` it is the text the group `(.+)` has matched so far, which ends
at a line terminator or at the end.  A match starts at a colon that a code unit other
than a line terminator follows; the piece before it and the captured text are both
added to the result, and the scan goes on after the captured text. -/
def splitColonRestFrom (inCapture : Bool) (acc : JsString) : JsString → List JsString
  | [] => if inCapture then [acc, []] else [acc]
  | c :: rest =>
    if inCapture then
      if isLineTerminator c then acc :: splitColonRestFrom false [c] rest
      else splitColonRestFrom true (acc ++ [c]) rest
    else if c == 58 && dotMatchesHead rest then acc :: splitColonRestFrom true [] rest
    else splitColonRestFrom false (acc ++ [c]) rest

/-- `s.split(/:(.+)/)`: `String.prototype.split` with the regular expression `/:(.+)/`,
whose captured text is spliced into the result. -/
def splitColonRest (s : JsString) : List JsString :=
  splitColonRestFrom false [] s

/-- The assignment `o[key] = value` on an object with string keys, kept as its entries
in the order the keys were first assigned.  (The runtime lists keys that are array
indices first; nothing here depends on the order.) -/
def objSet (o : List (JsString × JsString)) (key value : JsString) :
    List (JsString × JsString) :=
  if o.any (fun e => e.1 == key) then
    o.map fun e => if e.1 == key then (e.1, value) else e
  else o ++ [(key, value)]

/-- Value of `a || b` for an optional string `a`: `a` when it is a non-empty string. -/
def orElseString (a : Option JsString) (b : JsString) : JsString :=
  match a with
  | some s => if truthy s then s else b
  | none => b

/-- An optional string as a condition: the text when it is a non-empty string. -/
def truthyText (a : Option JsString) : Option JsString :=
  a.filter truthy

/-! ## Records -/

/-- An `id` as stored in JSON: a string or a number (an integer). -/
inductive JsId where
  | str (s : JsString)
  | num (n : Int)
deriving DecidableEq, Repr

/-- An entry of `tmdbDetails.genres`. -/
structure Genre where
  name : JsString
deriving DecidableEq, Repr

/-- The `tmdbDetails` block of a movie, with the keys the searches read.  Numbers
written in JSON with a fraction (`vote_average`) are rationals. -/
structure TmdbDetails where
  title : Option JsString := none
  tmdb_id : Option Int := none
  release_date : Option JsString := none
  genres : Option (List Genre) := none
  vote_average : Option ℚ := none
deriving DecidableEq, Repr

/-- A record of `movies.json`.  `none` is an absent (or `null`) property;
`aliases` and `languages` are `none` also when the property is not an array.
`watchLinks` is an object from quality labels to links, kept as its entries in the
order the keys were first assigned. -/
structure Movie where
  id : Option JsId := none
  name : Option JsString := none
  aliases : Option (List JsString) := none
  tmdbDetails : Option TmdbDetails := none
  addedAt : Option JsString := none
  languages : Option (List JsString) := none
  language : Option JsString := none
  watchLinks : Option (List (JsString × JsString)) := none
  screenshotLinks : Option (List JsString) := none
  customPosterUrl : Option JsString := none
  updatedAt : Option JsString := none
deriving DecidableEq, Repr

/-- A record of `requests.json`.  `id`, `requestedAt` and `status` may be absent on a
record handed to `addRequest`, which fills them in. -/
structure Request where
  id : Option JsId := none
  movieName : JsString
  requestedBy : JsString
  requestedAt : Option JsString := none
  guildId : JsString
  guildName : JsString
  status : Option JsString := none
  fulfilledAt : Option JsString := none
  fulfilledWith : Option JsString := none
  updatedAt : Option JsString := none
deriving DecidableEq, Repr

/-- The `additionalFields` argument of `updateRequestStatus`, an object whose keys
overwrite those of the record; `none` is a key the object does not have. -/
structure AdditionalFields where
  fulfilledAt : Option JsString := none
  fulfilledWith : Option JsString := none
deriving DecidableEq, Repr

/-- The `updatedFields` argument of `updateMovie`, an object whose keys overwrite those
of the record; `none` is a key the object does not have.  The keys are those
`/updatemovie` sets, and `id`, which it never sets.  `customPosterUrl` can be set to
`null` (`some none`). -/
structure UpdatedFields where
  id : Option (Option JsId) := none
  name : Option JsString := none
  aliases : Option (List JsString) := none
  languages : Option (List JsString) := none
  watchLinks : Option (List (JsString × JsString)) := none
  screenshotLinks : Option (List JsString) := none
  customPosterUrl : Option (Option JsString) := none
deriving DecidableEq, Repr

/-- The details `tmdbApi.searchAndGetDetails` answers with, with the keys the handler
of `/savemovie` copies into the record's name, id and `tmdbDetails`. -/
structure TmdbResult where
  id : Int
  title : Option JsString := none
  name : Option JsString := none
  release_date : Option JsString := none
  first_air_date : Option JsString := none
  genres : Option (List Genre) := none
  vote_average : Option ℚ := none
deriving DecidableEq, Repr

/-- The status literal `'pending'`. -/
def pending : JsString := js "pending"

/-- The status literal `'fulfilled'`. -/
def fulfilled : JsString := js "fulfilled"

/-- The status literal `'rejected'`. -/
def rejected : JsString := js "rejected"

/-- The value of `(m.name || '')`. -/
def Movie.nameOrEmpty (m : Movie) : JsString :=
  m.name.getD []

namespace dbManager

/-! ## searchMovies -/

/-- The callback of `movies.filter` in `searchMovies`. -/
def isCandidate (toLowerCase : JsString → JsString) (normalizedSearch : JsString)
    (m : Movie) : Bool :=
  let nameMatch :=
    match m.name with
    | some n => truthy n && includes (toLowerCase n) normalizedSearch
    | none => false
  let aliasMatch :=
    match m.aliases with
    | some as => as.any fun a => includes (toLowerCase a) normalizedSearch
    | none => false
  let tmdbTitle : JsString :=
    match m.tmdbDetails with
    | some d =>
      match d.title with
      | some t => if truthy t then toLowerCase t else []
      | none => []
    | none => []
  let tmdbMatch :=
    truthy tmdbTitle && includes tmdbTitle normalizedSearch &&
      tmdbTitle != toLowerCase m.nameOrEmpty
  nameMatch || aliasMatch || tmdbMatch

/-- The comparator of `candidates.sort` in `searchMovies`. -/
def compareRelevance (toLowerCase : JsString → JsString) (normalizedSearch : JsString)
    (a b : Movie) : Int :=
  let aName := toLowerCase a.nameOrEmpty
  let bName := toLowerCase b.nameOrEmpty
  let aExact := aName == normalizedSearch
  let bExact := bName == normalizedSearch
  if aExact && !bExact then -1
  else if !aExact && bExact then 1
  else
    let aStarts := startsWith aName normalizedSearch
    let bStarts := startsWith bName normalizedSearch
    if aStarts && !bStarts then -1
    else if !aStarts && bStarts then 1
    else
      let aIdx := indexOf aName normalizedSearch
      let bIdx := indexOf bName normalizedSearch
      if aIdx != bIdx then aIdx - bIdx
      else (aName.length : Int) - (bName.length : Int)

/-- `searchMovies(searchTerm)` over the collection `movies` read from `movies.json`. -/
def searchMovies (toLowerCase : JsString → JsString) (movies : List Movie)
    (searchTerm : JsString) : List Movie :=
  if !truthy searchTerm then []
  else
    let normalizedSearch := trim (toLowerCase searchTerm)
    let candidates := movies.filter (isCandidate toLowerCase normalizedSearch)
    jsSort (compareRelevance toLowerCase normalizedSearch) candidates

/-! ## getMovie -/

/-- First callback of `getMovie`: `movie.name.toLowerCase() === nameOrId.toLowerCase()`.
Reading `toLowerCase` of an absent name throws. -/
def nameEquals (toLowerCase : JsString → JsString) (nameOrId : JsString)
    (movie : Movie) : Except JsError Bool :=
  match movie.name with
  | none => .error JsError.typeError
  | some n => .ok (toLowerCase n == toLowerCase nameOrId)

/-- Second callback of `getMovie`: some alias equals the query, ignoring case. -/
def aliasEquals (toLowerCase : JsString → JsString) (nameOrId : JsString)
    (movie : Movie) : Except JsError Bool :=
  match movie.aliases with
  | none => .ok false
  | some as => .ok (as.any fun a => toLowerCase a == toLowerCase nameOrId)

/-- Third callback of `getMovie`: `movie.id === nameOrId || movie.id === parseInt(nameOrId)
|| movie.id.toString() === nameOrId.toString()`.  With an absent id the first two
comparisons are false and `movie.id.toString()` throws. -/
def idEquals (nameOrId : JsString) (movie : Movie) : Except JsError Bool :=
  match movie.id with
  | none => .error JsError.typeError
  | some (JsId.str s) => .ok (s == nameOrId || s == nameOrId)
  | some (JsId.num n) => .ok (parseInt nameOrId == some n || numberToString n == nameOrId)

/-- `getMovie(nameOrId)` over the collection `movies`; `.ok none` is the returned `null`. -/
def getMovie (toLowerCase : JsString → JsString) (movies : List Movie)
    (nameOrId : JsString) : Except JsError (Option Movie) :=
  match jsFind (nameEquals toLowerCase nameOrId) movies with
  | .error e => .error e
  | .ok (some movieByName) => .ok (some movieByName)
  | .ok none =>
    match jsFind (aliasEquals toLowerCase nameOrId) movies with
    | .error e => .error e
    | .ok (some movieByAlias) => .ok (some movieByAlias)
    | .ok none =>
      match jsFind (idEquals nameOrId) movies with
      | .error e => .error e
      | .ok movieById => .ok movieById

/-! ## Requests -/

/-- The number `Math.max` sees for `r.id || 0`: a falsy id (absent, `''`, `0`) counts
as `0`, a string id is converted to a number. -/
def idOrZero : Option JsId → Option Int
  | none => some 0
  | some (JsId.num n) => some n
  | some (JsId.str s) => if truthy s then stringToNumber s else some 0

/-- The value `maxId + 1` as it is written to the JSON file: `NaN` is written as `null`. -/
def nextId (ids : List (Option JsId)) : Option JsId :=
  match ids.foldl (fun max i => mathMax max (idOrZero i)) (some 0) with
  | some maxId => some (JsId.num (maxId + 1))
  | none => none

/-- Whether `!id` holds: the id is absent, the empty string or `0`. -/
def idMissing : Option JsId → Bool
  | none => true
  | some (JsId.num n) => n == 0
  | some (JsId.str s) => !truthy s

/-- Whether `!s` holds for an optional string property. -/
def stringMissing : Option JsString → Bool
  | none => true
  | some s => !truthy s

/-- `addRequest(request)`: the collection written to `requests.json`, `requests` being
the collection read and `now` the value of `new Date().toISOString()`. -/
def addRequest (now : JsString) (requests : List Request) (request : Request) :
    List Request :=
  let request1 : Request :=
    if idMissing request.id then
      { request with id := nextId (requests.map fun r => r.id) }
    else request
  let request2 : Request :=
    if stringMissing request1.requestedAt then { request1 with requestedAt := some now }
    else request1
  let request3 : Request :=
    if stringMissing request2.status then { request2 with status := some pending }
    else request2
  requests ++ [request3]

/-- The object `{ ...request, status, ...additionalFields, updatedAt }` that
`updateRequestStatus` stores: the status, then the additional fields, then `updatedAt`
(`now`, the value of `new Date().toISOString()`) overwrite the record's. -/
def statusUpdate (now status : JsString) (additionalFields : AdditionalFields)
    (req : Request) : Request :=
  { req with
    status := some status
    fulfilledAt := additionalFields.fulfilledAt.orElse fun _ => req.fulfilledAt
    fulfilledWith := additionalFields.fulfilledWith.orElse fun _ => req.fulfilledWith
    updatedAt := some now }

/-- `updateRequestStatus(requestId, status, additionalFields)`: the returned boolean and
the collection `requests.json` holds afterwards.  The first record whose id is
`requestId` is replaced; `requests` is the collection read. -/
def updateRequestStatus (now : JsString) (requests : List Request) (requestId : Option JsId)
    (status : JsString) (additionalFields : AdditionalFields) : Bool × List Request :=
  match findIndex (fun req => req.id == requestId) requests with
  | none => (false, requests)
  | some index => (true, modifyAt (statusUpdate now status additionalFields) requests index)

/-- `removeRequest(requestId)`: the returned boolean and the collection `requests.json`
holds afterwards; nothing is written when no record is dropped. -/
def removeRequest (requests : List Request) (requestId : Option JsId) :
    Bool × List Request :=
  let filteredRequests := requests.filter fun req => req.id != requestId
  if filteredRequests.length == requests.length then (false, requests)
  else (true, filteredRequests)

/-! ## Movies -/

/-- `getMovies()`: the parsed content of `movies.json`, `[]` when the file is missing
or does not parse (`none`). -/
def getMovies (file : Option (List Movie)) : List Movie :=
  file.getD []

/-- `addMovie(movie)`: the collection written to `movies.json`, `movies` being the
collection read and `now` the value of `new Date().toISOString()`. -/
def addMovie (now : JsString) (movies : List Movie) (movie : Movie) : List Movie :=
  let movie1 : Movie :=
    if idMissing movie.id then { movie with id := nextId (movies.map fun m => m.id) }
    else movie
  let movie2 : Movie :=
    if stringMissing movie1.addedAt then { movie1 with addedAt := some now }
    else movie1
  movies ++ [movie2]

/-- `String(id)` of the id of a record; an absent id reads `undefined`. -/
def idToString : Option JsId → JsString
  | none => js "undefined"
  | some (JsId.str s) => s
  | some (JsId.num n) => numberToString n

/-- The object `{ ...movie, ...updatedFields }` with `updatedAt` set to `now`, the value
of `new Date().toISOString()`. -/
def mergeFields (now : JsString) (updatedFields : UpdatedFields) (movie : Movie) : Movie :=
  { movie with
    id := match updatedFields.id with
      | some i => i
      | none => movie.id
    name := updatedFields.name.orElse fun _ => movie.name
    aliases := updatedFields.aliases.orElse fun _ => movie.aliases
    languages := updatedFields.languages.orElse fun _ => movie.languages
    watchLinks := updatedFields.watchLinks.orElse fun _ => movie.watchLinks
    screenshotLinks := updatedFields.screenshotLinks.orElse fun _ => movie.screenshotLinks
    customPosterUrl := match updatedFields.customPosterUrl with
      | some url => url
      | none => movie.customPosterUrl
    updatedAt := some now }

/-- `updateMovie(id, updatedFields)`: the returned boolean and the collection
`movies.json` holds afterwards.  The first record whose id reads like `id` as a string
is replaced; `movies` is the collection read. -/
def updateMovie (now : JsString) (movies : List Movie) (id : Option JsId)
    (updatedFields : UpdatedFields) : Bool × List Movie :=
  let idString := idToString id
  match findIndex (fun movie => idToString movie.id == idString) movies with
  | none => (false, movies)
  | some index => (true, modifyAt (mergeFields now updatedFields) movies index)

end dbManager

namespace requestmovie

/-- What `/requestmovie` answers. -/
inductive Reply where
  | movieAlreadyExists
  | duplicateRequest (existing : Request)
  | requestSubmitted
deriving DecidableEq, Repr

/-- The callback of `existingRequests.find` in `/requestmovie`. -/
def isDuplicate (toLowerCase : JsString → JsString) (movieName : JsString)
    (req : Request) : Bool :=
  toLowerCase req.movieName == toLowerCase movieName && req.status == some pending

/-- The handler of `/requestmovie`, up to the write of the request: the reply and the
collection `requests.json` holds afterwards.  `uuid` is the value of `uuidv4()`, `now`
the value of `new Date().toISOString()`, `userId`, `guildId` and `guildName` come from
the interaction. -/
def execute (toLowerCase : JsString → JsString) (movies : List Movie)
    (requests : List Request) (movieName uuid userId now guildId guildName : JsString) :
    Except JsError (Reply × List Request) :=
  match dbManager.getMovie toLowerCase movies movieName with
  | .error e => .error e
  | .ok (some _) => .ok (Reply.movieAlreadyExists, requests)
  | .ok none =>
    match requests.find? (isDuplicate toLowerCase movieName) with
    | some duplicateRequest => .ok (Reply.duplicateRequest duplicateRequest, requests)
    | none =>
      let newRequest : Request :=
        { id := some (JsId.str uuid)
          movieName := movieName
          requestedBy := userId
          requestedAt := some now
          guildId := guildId
          guildName := guildName
          status := some pending }
      .ok (Reply.requestSubmitted, dbManager.addRequest now requests newRequest)

end requestmovie

namespace getmovie

/-- What `/getmovie` answers. -/
inductive Reply where
  | movieFound (movie : Movie)
  | requestCreated
deriving DecidableEq, Repr

/-- The callback of `movies.filter` written out in the handler of `/getmovie`. -/
def matchesTerm (toLowerCase : JsString → JsString) (normalizedSearch : JsString)
    (m : Movie) : Bool :=
  let nameMatch :=
    match m.name with
    | some n => truthy n && includes (toLowerCase n) normalizedSearch
    | none => false
  let aliasMatch :=
    match m.aliases with
    | some as => as.any fun a => includes (toLowerCase a) normalizedSearch
    | none => false
  let tmdbTitle : JsString :=
    match m.tmdbDetails with
    | some d =>
      match d.title with
      | some t => if truthy t then toLowerCase t else []
      | none => []
    | none => []
  let tmdbMatch :=
    truthy tmdbTitle && includes tmdbTitle normalizedSearch &&
      tmdbTitle != toLowerCase m.nameOrEmpty
  nameMatch || aliasMatch || tmdbMatch

/-- The comparator of `candidates.sort` written out in the handler of `/getmovie`. -/
def compareCandidates (toLowerCase : JsString → JsString) (normalizedSearch : JsString)
    (a b : Movie) : Int :=
  let aName := toLowerCase a.nameOrEmpty
  let bName := toLowerCase b.nameOrEmpty
  let aExact := aName == normalizedSearch
  let bExact := bName == normalizedSearch
  if aExact && !bExact then -1
  else if !aExact && bExact then 1
  else
    let aStarts := startsWith aName normalizedSearch
    let bStarts := startsWith bName normalizedSearch
    if aStarts && !bStarts then -1
    else if !aStarts && bStarts then 1
    else
      let aIdx := indexOf aName normalizedSearch
      let bIdx := indexOf bName normalizedSearch
      if aIdx != bIdx then aIdx - bIdx
      else (aName.length : Int) - (bName.length : Int)

/-- The array `candidates` of the handler of `/getmovie` after its sort, for the
lower-cased term `searchTermLower` and the collection `movies` read. -/
def candidates (toLowerCase : JsString → JsString) (movies : List Movie)
    (searchTermLower : JsString) : List Movie :=
  let normalizedSearch := trim searchTermLower
  jsSort (compareCandidates toLowerCase normalizedSearch)
    (movies.filter (matchesTerm toLowerCase normalizedSearch))

/-- The handler of `/getmovie`, up to the write of the automatic request: the reply and
the collection `requests.json` holds afterwards.  The exact lookup is made on the
lower-cased term; when it finds nothing the candidates are filtered and sorted in
place, and when there is none either a request for the term as typed is added. -/
def execute (toLowerCase : JsString → JsString) (movies : List Movie)
    (requests : List Request) (searchTerm uuid userId now guildId guildName : JsString) :
    Except JsError (Reply × List Request) :=
  let searchTermLower := toLowerCase searchTerm
  match dbManager.getMovie toLowerCase movies searchTermLower with
  | .error e => .error e
  | .ok (some movie) => .ok (Reply.movieFound movie, requests)
  | .ok none =>
    match candidates toLowerCase movies searchTermLower with
    | movie :: _ => .ok (Reply.movieFound movie, requests)
    | [] =>
      let newRequest : Request :=
        { id := some (JsId.str uuid)
          movieName := searchTerm
          requestedBy := userId
          requestedAt := some now
          guildId := guildId
          guildName := guildName
          status := some pending }
      .ok (Reply.requestCreated, dbManager.addRequest now requests newRequest)

end getmovie

namespace interactionCreate

/-- What a button press answers. -/
inductive Reply where
  | other
  | noPermission
  | requestNotFound
  | alreadyProcessed
  | removeFailed
  | requestRejected (request : Request)
  | noMovieName
  | movieAlreadyExists
  | duplicateRequest
  | requestSubmitted
deriving DecidableEq, Repr

/-- The button part of the `interactionCreate` handler: the reply and the collection
`requests.json` holds afterwards.  The branches are tried in the order of the source:
the setup guide, download and support buttons (which touch no collection), then
`reject_<id>`, then `request_movie:<name>`.  `isAdmin` is the value of
`adminCheck.isAdminUser(interaction.user.id)`. -/
def execute (toLowerCase : JsString → JsString) (isAdmin : Bool) (movies : List Movie)
    (requests : List Request) (customId uuid userId now guildId guildName : JsString) :
    Except JsError (Reply × List Request) :=
  if customId == js "setup_guide" then .ok (Reply.other, requests)
  else if startsWith customId (js "download_") then .ok (Reply.other, requests)
  else if customId == js "support_server" then .ok (Reply.other, requests)
  else if startsWith customId (js "reject_") then
    if !isAdmin then .ok (Reply.noPermission, requests)
    else
      let requestId : Option JsId := ((split 95 customId).get? 1).map JsId.str
      match requests.find? (fun req => req.id == requestId) with
      | none => .ok (Reply.requestNotFound, requests)
      | some request =>
        if request.status != some pending then .ok (Reply.alreadyProcessed, requests)
        else
          match dbManager.removeRequest requests requestId with
          | (false, after) => .ok (Reply.removeFailed, after)
          | (true, after) => .ok (Reply.requestRejected request, after)
  else if startsWith customId (js "request_movie:") then
    let movieName := trim (customId.drop 14)
    if !truthy movieName then .ok (Reply.noMovieName, requests)
    else
      match dbManager.getMovie toLowerCase movies (toLowerCase movieName) with
      | .error e => .error e
      | .ok found =>
        let existingMovie : Option Movie :=
          match found with
          | some movie => some movie
          | none => (dbManager.searchMovies toLowerCase movies (toLowerCase movieName)).head?
        match existingMovie with
        | some _ => .ok (Reply.movieAlreadyExists, requests)
        | none =>
          match requests.find? (requestmovie.isDuplicate toLowerCase movieName) with
          | some _ => .ok (Reply.duplicateRequest, requests)
          | none =>
            let newRequest : Request :=
              { id := some (JsId.str uuid)
                movieName := movieName
                requestedBy := userId
                requestedAt := some now
                guildId := guildId
                guildName := guildName
                status := some pending }
            .ok (Reply.requestSubmitted, dbManager.addRequest now requests newRequest)
  else .ok (Reply.other, requests)

end interactionCreate

namespace savemovie

/-- The callback of `requests.filter` in `findAndNotifyRequesters`: the request is
pending and its lower-cased `movieName` includes the lower-cased name of the movie. -/
def isRequestFor (toLowerCase : JsString → JsString) (name : JsString)
    (request : Request) : Bool :=
  request.status == some pending &&
    includes (toLowerCase request.movieName) (toLowerCase name)

/-- One turn of the loop of `findAndNotifyRequesters`: when the requester is reached,
the request is marked fulfilled; a failure is caught and the loop goes on. -/
def notifyOne (notify : Request → Bool) (now name : JsString) (requests : List Request)
    (request : Request) : List Request :=
  if notify request then
    (dbManager.updateRequestStatus now requests request.id fulfilled
      { fulfilledAt := some now, fulfilledWith := some name }).2
  else requests

/-- `findAndNotifyRequesters(client, movie)`: the collection `requests.json` holds
afterwards.  `notify request` tells whether the requester was fetched and the message
sent without an error.  With an absent `movie.name` the filter throws on the first
pending request, the error is caught, and nothing is written. -/
def findAndNotifyRequesters (toLowerCase : JsString → JsString) (notify : Request → Bool)
    (now : JsString) (requests : List Request) (movie : Movie) : List Request :=
  match movie.name with
  | none => requests
  | some name =>
    let movieRequests := requests.filter (isRequestFor toLowerCase name)
    if movieRequests.length == 0 then requests
    else movieRequests.foldl (notifyOne notify now name) requests

/-- What `/savemovie` answers. -/
inductive Reply where
  | noPermission
  | noLanguage
  | noWatchLink
  | invalidFormat (part : JsString)
  | alreadyExists
  | tmdbError
  | saved
  | unexpectedError
deriving DecidableEq, Repr

/-- The array `languages` of the handler of `/savemovie`: the pieces of the text
between commas, each trimmed and lower-cased, without the empty ones, each once. -/
def parseLanguages (toLowerCase : JsString → JsString) (rawLanguages : JsString) :
    List JsString :=
  newSet (((split 44 rawLanguages).map fun lang => toLowerCase (trim lang)).filter truthy)

/-- The quality and the link the loop over `linkParts` reads from one part; `none` when
the split has fewer than two pieces and the handler answers `Invalid format`. -/
def parsePart (part : JsString) : Option (JsString × JsString) :=
  match splitColonRest part with
  | first :: second :: _ => some (trim first, trim second)
  | _ => none

/-- The loop over `linkParts`, from the object `watchLinks` built so far: the object it
ends with, or the answer it returns with at the first part in the wrong format. -/
def parseLinkParts (watchLinks : List (JsString × JsString)) :
    List JsString → Except Reply (List (JsString × JsString))
  | [] => .ok watchLinks
  | part :: parts =>
    match parsePart part with
    | none => .error (Reply.invalidFormat part)
    | some (quality, link) => parseLinkParts (objSet watchLinks quality link) parts

/-- Whether the link of a quality is sent to the shortening service: the label mentions
`1080p` and not `4k`. -/
def isEligibleForShortening (toLowerCase : JsString → JsString) (quality : JsString) :
    Bool :=
  includes (toLowerCase quality) (js "1080p") && !includes (toLowerCase quality) (js "4k")

/-- The loop over the keys of `watchLinks` that shortens the eligible links;
`shortenUrl url` is what the shortening service answers for `url`, the same `url` when
it fails. -/
def shortenLinks (toLowerCase : JsString → JsString) (shortenUrl : JsString → JsString)
    (watchLinks : List (JsString × JsString)) : List (JsString × JsString) :=
  watchLinks.map fun e =>
    if isEligibleForShortening toLowerCase e.1 then (e.1, shortenUrl e.2) else e

/-- The object `formattedTmdbDetails`. -/
def formatTmdbDetails (tmdbDetails : Option TmdbResult) : TmdbDetails :=
  match tmdbDetails with
  | some d =>
    { tmdb_id := some d.id
      release_date := (truthyText d.release_date).orElse fun _ => truthyText d.first_air_date
      genres := some (d.genres.getD [])
      vote_average := d.vote_average }
  | none => { genres := some [] }

/-- The handler of `/savemovie`, up to the write of `movies.json`: the reply and the
collection the file holds afterwards, `movies` being the collection read.
`searchAndGetDetails i` is the answer of the TMDB lookup at attempt `i` (for the typed
name and media type), `retryAttempts` the option of that name or 3, `nowMillis` the
value of `Date.now()` and `now` that of `new Date().toISOString()`.  What follows the
write (the reply, the notifications) does not touch `movies.json`; the store of
unshortened links and `saveMetadata` are left out. -/
def execute (toLowerCase : JsString → JsString) (shortenUrl : JsString → JsString)
    (searchAndGetDetails : Nat → Option TmdbResult) (isAdmin : Bool) (movies : List Movie)
    (name rawWatchLinks rawLanguages : JsString)
    (rawScreenshotLinks posterUrl : Option JsString) (forceSave : Bool)
    (retryAttempts : Nat) (nowMillis : Int) (now : JsString) : Reply × List Movie :=
  if !isAdmin then (Reply.noPermission, movies)
  else
    let screenshotLinks : List JsString :=
      match rawScreenshotLinks with
      | some text => ((split 44 text).map trim).filter truthy
      | none => []
    let languages := parseLanguages toLowerCase rawLanguages
    if languages.length == 0 then (Reply.noLanguage, movies)
    else
      let linkParts := (split 44 rawWatchLinks).filter fun p => trim p != []
      if linkParts.length == 0 then (Reply.noWatchLink, movies)
      else
        match parseLinkParts [] linkParts with
        | .error reply => (reply, movies)
        | .ok parsed =>
          let watchLinks := shortenLinks toLowerCase shortenUrl parsed
          match dbManager.getMovie toLowerCase movies name with
          | .error _ => (Reply.unexpectedError, movies)
          | .ok (some _) => (Reply.alreadyExists, movies)
          | .ok none =>
            let tmdbDetails := (List.range retryAttempts).findSome? searchAndGetDetails
            if tmdbDetails.isNone && !forceSave then (Reply.tmdbError, movies)
            else
              let movieId : JsString :=
                match tmdbDetails with
                | some d => numberToString d.id
                | none => js "custom_" ++ numberToString nowMillis
              let movieName : JsString :=
                orElseString (tmdbDetails.bind fun d => d.title)
                  (orElseString (tmdbDetails.bind fun d => d.name) name)
              let newMovie : Movie :=
                { id := some (JsId.str movieId)
                  name := some movieName
                  aliases := some []
                  languages := some languages
                  watchLinks := some watchLinks
                  screenshotLinks := some screenshotLinks
                  customPosterUrl := posterUrl
                  tmdbDetails := some (formatTmdbDetails tmdbDetails) }
              (Reply.saved, dbManager.addMovie now movies newMovie)

end savemovie

namespace cleanup

/-- The `type` option of `/cleanup`. -/
inductive CleanupType where
  | oldRequests
  | duplicateMovies
  | full
deriving DecidableEq, Repr

/-- What `/cleanup` answers: the counts it reports. -/
inductive Reply where
  | noPermission
  | oldRequests (found : Nat)
  | duplicateMovies (found : Nat)
  | full (oldRequests duplicates : Nat)
  | error
deriving DecidableEq, Repr

/-- The callback selecting old requests: `requestDate < thirtyDaysAgo &&
request.status !== 'pending'`.  `parseDate` is the time value `new Date(text)` has,
`none` for an invalid date; an absent `requestedAt` gives an invalid date, and a
comparison with an invalid date is false. -/
def isOld (parseDate : JsString → Option Int) (thirtyDaysAgo : Int) (request : Request) :
    Bool :=
  let requestDate : Option Int :=
    match request.requestedAt with
    | some text => parseDate text
    | none => none
  (match requestDate with
    | some t => decide (t < thirtyDaysAgo)
    | none => false) && request.status != some pending

/-- The `forEach` over the movies: the set `seenNames` and the list `duplicates` it
leaves; `none` when a movie has no name and `movie.name.toLowerCase()` throws. -/
def scanDuplicates (toLowerCase : JsString → JsString) :
    List Movie → List JsString → Option (List JsString × List Movie)
  | [], seenNames => some (seenNames, [])
  | movie :: movies, seenNames =>
    match movie.name with
    | none => none
    | some n =>
      if seenNames.contains (toLowerCase n) then
        (scanDuplicates toLowerCase movies seenNames).map
          fun r => (r.1, movie :: r.2)
      else scanDuplicates toLowerCase movies (toLowerCase n :: seenNames)

/-- The filter computing `uniqueMovies`: a movie is kept when its lower-cased name is
still in `seenNames`, from which it is then deleted. -/
def uniqueMovies (toLowerCase : JsString → JsString) :
    List Movie → List JsString → List Movie
  | [], _ => []
  | movie :: movies, seenNames =>
    if seenNames.contains (toLowerCase movie.nameOrEmpty) then
      movie :: uniqueMovies toLowerCase movies (seenNames.erase (toLowerCase movie.nameOrEmpty))
    else uniqueMovies toLowerCase movies seenNames

/-- The handler of `/cleanup`: the reply and the collections `movies.json` and
`requests.json` hold afterwards.  `thirtyDaysAgo` is the time value of the date
obtained by `setDate(getDate() - 30)` on the current date.  An error thrown while the
movies are scanned is caught before anything is written. -/
def execute (toLowerCase : JsString → JsString) (parseDate : JsString → Option Int)
    (thirtyDaysAgo : Int) (isAdmin : Bool) (type : CleanupType) (dryRun : Bool)
    (movies : List Movie) (requests : List Request) :
    Reply × List Movie × List Request :=
  if !isAdmin then (Reply.noPermission, movies, requests)
  else
    match type with
    | CleanupType.oldRequests =>
      let oldRequests := requests.filter (isOld parseDate thirtyDaysAgo)
      let updatedRequests := requests.filter fun request => !isOld parseDate thirtyDaysAgo request
      if !dryRun && decide (oldRequests.length > 0) then
        (Reply.oldRequests oldRequests.length, movies, updatedRequests)
      else (Reply.oldRequests oldRequests.length, movies, requests)
    | CleanupType.duplicateMovies =>
      match scanDuplicates toLowerCase movies [] with
      | none => (Reply.error, movies, requests)
      | some (seenNames, duplicates) =>
        if !dryRun && decide (duplicates.length > 0) then
          (Reply.duplicateMovies duplicates.length,
            uniqueMovies toLowerCase movies seenNames, requests)
        else (Reply.duplicateMovies duplicates.length, movies, requests)
    | CleanupType.full =>
      let oldRequests2 := requests.filter (isOld parseDate thirtyDaysAgo)
      match scanDuplicates toLowerCase movies [] with
      | none => (Reply.error, movies, requests)
      | some (seenNames2, duplicates2) =>
        if !dryRun then
          (Reply.full oldRequests2.length duplicates2.length,
            uniqueMovies toLowerCase movies seenNames2,
            requests.filter fun request => !isOld parseDate thirtyDaysAgo request)
        else (Reply.full oldRequests2.length duplicates2.length, movies, requests)

end cleanup

namespace update_movie

/-- What `/updatemovie` answers; `uncaught` is an error the handler does not catch, so
that no answer is sent. -/
inductive Reply where
  | noPermission
  | notFound
  | noLanguage
  | invalidLanguage
  | cannotRemoveAll
  | invalidPosterUrl
  | noWatchLink
  | invalidFormat (part : JsString)
  | missingQuality (part : JsString)
  | missingUrl (quality : JsString)
  | invalidUrl (quality : JsString)
  | invalidScreenshotUrl
  | duplicateName
  | noChanges
  | updated
  | updateFailed
  | uncaught (e : JsError)
deriving DecidableEq, Repr

/-- The array `availableLanguages`. -/
def availableLanguages : List JsString :=
  [js "hindi", js "english", js "tamil", js "telugu"]

/-- Whether `validateLanguages` returns without throwing: no language is outside
`availableLanguages`. -/
def validateLanguages (languages : List JsString) : Bool :=
  (languages.filter fun lang => !availableLanguages.contains lang).length == 0

/-- The pieces of a text between commas, each trimmed and lower-cased, without the
empty ones. -/
def parseList (toLowerCase : JsString → JsString) (raw : JsString) : List JsString :=
  ((split 44 raw).map fun lang => toLowerCase (trim lang)).filter fun lang => lang != []

/-- The block of the option `languages`, which replaces the languages. -/
def replaceLanguages (toLowerCase : JsString → JsString) (rawLanguages : Option JsString)
    (updatedFields : UpdatedFields) : Except Reply UpdatedFields :=
  match truthyText rawLanguages with
  | none => .ok updatedFields
  | some raw =>
    let languages := parseList toLowerCase raw
    if !validateLanguages languages then .error Reply.invalidLanguage
    else if languages.length == 0 then .error Reply.noLanguage
    else .ok { updatedFields with languages := some (newSet languages) }

/-- The array `currentLanguages` the block of `add_languages` and `remove_languages`
starts from. -/
def currentLanguages (movieToUpdate : Movie) : List JsString :=
  match movieToUpdate.languages with
  | some languages => languages
  | none =>
    match truthyText movieToUpdate.language with
    | some language => [language]
    | none => []

/-- The block of the options `add_languages` and `remove_languages`. -/
def changeLanguages (toLowerCase : JsString → JsString) (movieToUpdate : Movie)
    (rawAddLanguages rawRemoveLanguages : Option JsString) (updatedFields : UpdatedFields) :
    Except Reply UpdatedFields :=
  if (truthyText rawAddLanguages).isNone && (truthyText rawRemoveLanguages).isNone then
    .ok updatedFields
  else
    let added : Except Reply (List JsString) :=
      match truthyText rawAddLanguages with
      | none => .ok (currentLanguages movieToUpdate)
      | some raw =>
        let addLanguages := parseList toLowerCase raw
        if !validateLanguages addLanguages then .error Reply.invalidLanguage
        else .ok (newSet (currentLanguages movieToUpdate ++ addLanguages))
    match added with
    | .error reply => .error reply
    | .ok afterAdd =>
      let removed : Except Reply (List JsString) :=
        match truthyText rawRemoveLanguages with
        | none => .ok afterAdd
        | some raw =>
          let removeLanguages := parseList toLowerCase raw
          if !validateLanguages removeLanguages then .error Reply.invalidLanguage
          else .ok (afterAdd.filter fun lang => !removeLanguages.contains lang)
      match removed with
      | .error reply => .error reply
      | .ok afterRemove =>
        if afterRemove.length == 0 then .error Reply.cannotRemoveAll
        else .ok { updatedFields with languages := some afterRemove }

/-- The block of the option `poster_url`; `validUrl text` tells whether `new URL(text)`
returns without throwing. -/
def setPoster (validUrl : JsString → Bool) (posterUrl : Option JsString)
    (updatedFields : UpdatedFields) : Except Reply UpdatedFields :=
  match posterUrl with
  | none => .ok updatedFields
  | some url =>
    if url == [] then .ok { updatedFields with customPosterUrl := some none }
    else if validUrl url then .ok { updatedFields with customPosterUrl := some (some url) }
    else .error Reply.invalidPosterUrl

/-- The link with `https://` in front when it starts with neither `http://` nor
`https://`. -/
def withScheme (link : JsString) : JsString :=
  if !startsWith link (js "http://") && !startsWith link (js "https://") then
    js "https://" ++ link
  else link

/-- One turn of the loop over `linkParts`: the quality and the link stored for a part,
or the answer the handler returns with. -/
def parsePart (validUrl : JsString → Bool) (part : JsString) :
    Except Reply (JsString × JsString) :=
  let pieces := split 58 part
  if pieces.length < 2 then .error (Reply.invalidFormat part)
  else
    let quality := trim (pieces.headD [])
    let link := trim (joinWith 58 (pieces.drop 1))
    if !truthy quality then .error (Reply.missingQuality part)
    else if !truthy link then .error (Reply.missingUrl quality)
    else
      let validatedLink := withScheme link
      if validUrl validatedLink then .ok (quality, validatedLink)
      else .error (Reply.invalidUrl quality)

/-- The loop over `linkParts`, from the object `newParsedWatchLinks` built so far. -/
def parseLinkParts (validUrl : JsString → Bool) (watchLinks : List (JsString × JsString)) :
    List JsString → Except Reply (List (JsString × JsString))
  | [] => .ok watchLinks
  | part :: parts =>
    match parsePart validUrl part with
    | .error reply => .error reply
    | .ok (quality, link) => parseLinkParts validUrl (objSet watchLinks quality link) parts

/-- The block of the option `set_watch_links`, which replaces the watch links. -/
def setLinks (validUrl : JsString → Bool) (setWatchLinks : Option JsString)
    (updatedFields : UpdatedFields) : Except Reply UpdatedFields :=
  match setWatchLinks with
  | none => .ok updatedFields
  | some raw =>
    let linkParts := (split 44 raw).filter fun part => trim part != []
    if linkParts.length == 0 then .error Reply.noWatchLink
    else
      match parseLinkParts validUrl [] linkParts with
      | .error reply => .error reply
      | .ok watchLinks => .ok { updatedFields with watchLinks := some watchLinks }

/-- The arrays `addScreenshotLinks` and `removeScreenshotLinks`: the pieces of the
option between commas, trimmed, without the empty ones; `[]` without the option. -/
def parseLinks (raw : Option JsString) : List JsString :=
  match raw with
  | some text => ((split 44 text).map trim).filter fun link => link != []
  | none => []

/-- The block of the options `add_screenshotlinks` and `remove_screenshotlinks`. -/
def setScreenshots (validUrl : JsString → Bool) (movieToUpdate : Movie)
    (addScreenshotLinks removeScreenshotLinks : List JsString)
    (updatedFields : UpdatedFields) : Except Reply UpdatedFields :=
  if decide (addScreenshotLinks.length > 0) || decide (removeScreenshotLinks.length > 0) then
    let merged := newSet (movieToUpdate.screenshotLinks.getD [] ++ addScreenshotLinks)
    let kept := merged.filter fun link => !removeScreenshotLinks.contains link
    if addScreenshotLinks.all validUrl then
      .ok { updatedFields with screenshotLinks := some kept }
    else .error Reply.invalidScreenshotUrl
  else .ok updatedFields

/-- The block of the option `new_name`.  Reading the name of a record without one
throws, as a lookup of the new name can. -/
def setName (toLowerCase : JsString → JsString) (movies : List Movie) (movieToUpdate : Movie)
    (newName : Option JsString) (updatedFields : UpdatedFields) :
    Except Reply UpdatedFields :=
  match truthyText newName with
  | none => .ok updatedFields
  | some newName =>
    match movieToUpdate.name with
    | none => .error (Reply.uncaught JsError.typeError)
    | some name =>
      if toLowerCase newName != toLowerCase name then
        match dbManager.getMovie toLowerCase movies newName with
        | .error e => .error (Reply.uncaught e)
        | .ok (some existingWithName) =>
          if existingWithName.id != movieToUpdate.id then .error Reply.duplicateName
          else .ok { updatedFields with name := some newName }
        | .ok none => .ok { updatedFields with name := some newName }
      else .ok updatedFields

/-- The arrays `addAliases` and `removeAliases`; `[]` without the option. -/
def parseAliases (toLowerCase : JsString → JsString) (raw : Option JsString) :
    List JsString :=
  match raw with
  | some text => parseList toLowerCase text
  | none => []

/-- The block of the options `add_aliases` and `remove_aliases`. -/
def setAliases (movieToUpdate : Movie) (addAliases removeAliases : List JsString)
    (updatedFields : UpdatedFields) : UpdatedFields :=
  if decide (addAliases.length > 0) || decide (removeAliases.length > 0) then
    let merged := newSet (movieToUpdate.aliases.getD [] ++ addAliases)
    { updatedFields with
      aliases := some (merged.filter fun a => !removeAliases.contains a) }
  else updatedFields

/-- Whether `Object.keys(updatedFields).length === 0`. -/
def hasNoKeys (updatedFields : UpdatedFields) : Bool :=
  updatedFields.id.isNone && updatedFields.name.isNone && updatedFields.aliases.isNone &&
    updatedFields.languages.isNone && updatedFields.watchLinks.isNone &&
    updatedFields.screenshotLinks.isNone && updatedFields.customPosterUrl.isNone

/-- The object `updatedFields` the handler builds block after block, or the answer it
returns with before any write. -/
def collectFields (toLowerCase : JsString → JsString) (validUrl : JsString → Bool)
    (movies : List Movie) (movieToUpdate : Movie)
    (setWatchLinks rawLanguages rawAddLanguages rawRemoveLanguages posterUrl
      rawAddScreenshotLinks rawRemoveScreenshotLinks newName rawAddAliases
      rawRemoveAliases : Option JsString) : Except Reply UpdatedFields :=
  (replaceLanguages toLowerCase rawLanguages {}).bind fun f1 =>
  (changeLanguages toLowerCase movieToUpdate rawAddLanguages rawRemoveLanguages f1).bind
    fun f2 =>
  (setPoster validUrl posterUrl f2).bind fun f3 =>
  (setLinks validUrl setWatchLinks f3).bind fun f4 =>
  (setScreenshots validUrl movieToUpdate (parseLinks rawAddScreenshotLinks)
    (parseLinks rawRemoveScreenshotLinks) f4).bind fun f5 =>
  (setName toLowerCase movies movieToUpdate newName f5).bind fun f6 =>
  .ok (setAliases movieToUpdate (parseAliases toLowerCase rawAddAliases)
    (parseAliases toLowerCase rawRemoveAliases) f6)

/-- The handler of `/updatemovie`: the reply and the collection `movies.json` holds
afterwards, `movies` being the collection read and `now` the value of
`new Date().toISOString()`. -/
def execute (toLowerCase : JsString → JsString) (validUrl : JsString → Bool)
    (isAdmin : Bool) (movies : List Movie) (searchName : JsString)
    (setWatchLinks rawLanguages rawAddLanguages rawRemoveLanguages posterUrl
      rawAddScreenshotLinks rawRemoveScreenshotLinks newName rawAddAliases
      rawRemoveAliases : Option JsString) (now : JsString) : Reply × List Movie :=
  if !isAdmin then (Reply.noPermission, movies)
  else
    match dbManager.getMovie toLowerCase movies (toLowerCase searchName) with
    | .error e => (Reply.uncaught e, movies)
    | .ok none => (Reply.notFound, movies)
    | .ok (some movieToUpdate) =>
      match collectFields toLowerCase validUrl movies movieToUpdate setWatchLinks
          rawLanguages rawAddLanguages rawRemoveLanguages posterUrl rawAddScreenshotLinks
          rawRemoveScreenshotLinks newName rawAddAliases rawRemoveAliases with
      | .error reply => (reply, movies)
      | .ok updatedFields =>
        if hasNoKeys updatedFields then (Reply.noChanges, movies)
        else
          let result := dbManager.updateMovie now movies movieToUpdate.id updatedFields
          (if result.1 then Reply.updated else Reply.updateFailed, result.2)

end update_movie

namespace searchmovie

/-- The object `searchOptions`; `none` is an option the user did not supply. -/
structure SearchOptions where
  title : Option JsString := none
  genre : Option JsString := none
  year : Option Int := none
  minRating : Option ℚ := none
  language : Option JsString := none
deriving DecidableEq, Repr

/-- The callback of the genre filter of `advancedSearch`. -/
def genreMatches (toLowerCase : JsString → JsString) (genre : JsString) (movie : Movie) :
    Bool :=
  match movie.tmdbDetails with
  | some d =>
    match d.genres with
    | some genres => genres.any fun g => includes (toLowerCase g.name) (toLowerCase genre)
    | none => false
  | none => false

/-- The callback of the year filter of `advancedSearch`; `getFullYear text` is
`new Date(text).getFullYear()`, `none` being `NaN`. -/
def yearMatches (getFullYear : JsString → Option Int) (year : Int) (movie : Movie) : Bool :=
  match movie.tmdbDetails with
  | some d =>
    match truthyText d.release_date with
    | some releaseDate => getFullYear releaseDate == some year
    | none => false
  | none => false

/-- The callback of the rating filter of `advancedSearch`.  A record without
`vote_average` does not pass for a rating the option admits (1 to 10). -/
def ratingMatches (minRating : ℚ) (movie : Movie) : Bool :=
  match movie.tmdbDetails with
  | some d =>
    match d.vote_average with
    | some voteAverage => decide (minRating ≤ voteAverage)
    | none => false
  | none => false

/-- The callback of the language filter of `advancedSearch`. -/
def languageMatches (toLowerCase : JsString → JsString) (language : JsString)
    (movie : Movie) : Bool :=
  match movie.languages with
  | some languages =>
    languages.any fun lang => includes (toLowerCase lang) (toLowerCase language)
  | none => false

/-- A number option as a condition: the number when it is not `0`. -/
def truthyNumber {α : Type} [Zero α] [DecidableEq α] (a : Option α) : Option α :=
  a.filter fun x => decide (x ≠ 0)

/-- `advancedSearch(searchOptions, movies)`, `movies` being the collection
`movies.json` holds, which `searchMovies` reads as well. -/
def advancedSearch (toLowerCase : JsString → JsString) (getFullYear : JsString → Option Int)
    (searchOptions : SearchOptions) (movies : List Movie) : List Movie :=
  let byTitle : List Movie :=
    match truthyText searchOptions.title with
    | some title => dbManager.searchMovies toLowerCase movies title
    | none => movies
  let byGenre : List Movie :=
    match truthyText searchOptions.genre with
    | some genre => byTitle.filter (genreMatches toLowerCase genre)
    | none => byTitle
  let byYear : List Movie :=
    match truthyNumber searchOptions.year with
    | some year => byGenre.filter (yearMatches getFullYear year)
    | none => byGenre
  let byRating : List Movie :=
    match truthyNumber searchOptions.minRating with
    | some minRating => byYear.filter (ratingMatches minRating)
    | none => byYear
  match truthyText searchOptions.language with
  | some language => byRating.filter (languageMatches toLowerCase language)
  | none => byRating

/-- What `/searchmovie` answers: the help text, or the list of results it shows page by
page. -/
inductive Reply where
  | help
  | results (searchResults : List Movie)
deriving DecidableEq, Repr

/-- The handler of `/searchmovie`, up to the list of results. -/
def execute (toLowerCase : JsString → JsString) (getFullYear : JsString → Option Int)
    (movies : List Movie) (title genre : Option JsString) (year : Option Int)
    (minRating : Option ℚ) (language : Option JsString) : Reply :=
  if (truthyText title).isNone && (truthyText genre).isNone && (truthyNumber year).isNone &&
      (truthyNumber minRating).isNone && (truthyText language).isNone then Reply.help
  else
    let searchOptions : SearchOptions :=
      { title := title, genre := genre, year := year, minRating := minRating,
        language := language }
    match truthyText title with
    | some title => Reply.results (dbManager.searchMovies toLowerCase movies title)
    | none => Reply.results (advancedSearch toLowerCase getFullYear searchOptions movies)

end searchmovie

open dbManager

/-! ## Sample records -/

/-- A movie with a numeric id and a name. -/
def mkMovie (i : Int) (n : String) : Movie :=
  { id := some (JsId.num i), name := some (js n) }

/-- The record `{ id: 1, name: 'Alienated' }`. -/
def alienated : Movie := mkMovie 1 "Alienated"

/-- The record `{ id: 2, name: 'Alien' }`. -/
def alien : Movie := mkMovie 2 "Alien"

/-- The record `{ id: 1, name: 'Dune Part Two' }`. -/
def dunePartTwo : Movie := mkMovie 1 "Dune Part Two"

/-- The record `{ id: 2, name: 'Dune' }`. -/
def dune : Movie := mkMovie 2 "Dune"

/-- The record `{ id: 3, name: 'dune' }`, a second record named like `dune`. -/
def duneRemake : Movie := mkMovie 3 "dune"

/-- The record `{ id: 4, name: 'Aliens', aliases: ['Alien'] }`. -/
def aliens : Movie :=
  { id := some (JsId.num 4), name := some (js "Aliens"), aliases := some [js "Alien"] }

/-- The record `{ id: 5, name: 'Xenomorph', aliases: ['Alien'] }`. -/
def xenomorph : Movie :=
  { id := some (JsId.num 5), name := some (js "Xenomorph"), aliases := some [js "Alien"] }

/-- The record `{ id: 'custom_17', name: 'Alpha' }`. -/
def alpha : Movie :=
  { id := some (JsId.str (js "custom_17")), name := some (js "Alpha") }

/-- The record `{ id: 17, name: 'Beta' }`, with a numeric id. -/
def beta : Movie :=
  { id := some (JsId.num 17), name := some (js "Beta") }

/-- The record `{ id: '17', name: 'Gamma' }`, with a string id. -/
def gamma : Movie :=
  { id := some (JsId.str (js "17")), name := some (js "Gamma") }

/-- A request record with the given id, title and status. -/
def mkRequest (i : String) (title : String) (status : JsString) : Request :=
  { id := some (JsId.str (js i))
    movieName := js title
    requestedBy := js "user1"
    requestedAt := some (js "2024-01-01T00:00:00.000Z")
    guildId := js "guild1"
    guildName := js "Guild"
    status := some status }

/-- A request record with the given id, title, status and `requestedAt`. -/
def mkRequestAt (i : String) (title : String) (status : JsString) (requestedAt : String) :
    Request :=
  { mkRequest i title status with requestedAt := some (js requestedAt) }

/-- The record `{ id: '693134', name: 'Dune' }` as `/savemovie` hands it to `addMovie`,
without `addedAt`. -/
def duneSaved : Movie :=
  { id := some (JsId.str (js "693134")), name := some (js "Dune") }

/-- The record `{ id: 6, name: 'The Alien Files' }`. -/
def theAlienFiles : Movie := mkMovie 6 "The Alien Files"

/-- The record `{ id: 'custom_1700000000000', name: 'Alpha' }`, saved without TMDB
details. -/
def customAlpha : Movie :=
  { id := some (JsId.str (js "custom_1700000000000")), name := some (js "Alpha") }

/-- The record `{ name: 'Beta' }`, which has no id yet. -/
def betaNoId : Movie :=
  { name := some (js "Beta") }

/-- The record of "Dune" as `/savemovie` stores it, with its genre and language. -/
def duneSciFi : Movie :=
  { id := some (JsId.str (js "438631"))
    name := some (js "Dune")
    aliases := some []
    languages := some [js "english"]
    tmdbDetails := some
      { tmdb_id := some 438631
        release_date := some (js "2021-09-15")
        genres := some [{ name := js "Science Fiction" }, { name := js "Adventure" }]
        vote_average := some 8 } }

/-- The answer of the TMDB lookup for "Dune". -/
def duneLookup : TmdbResult :=
  { id := 438631, title := some (js "Dune"), release_date := some (js "2021-09-15") }

/-! ## Properties the results are stated with -/

/-- The tie-break chain places `a` no later than `b`: read in order, exact name, name
starting with the query, index of the query in the name, length of the name; the first
that differs decides. -/
def ChainLe (toLowerCase : JsString → JsString) (query : JsString) (a b : Movie) : Prop :=
  let aName := toLowerCase a.nameOrEmpty
  let bName := toLowerCase b.nameOrEmpty
  (aName = query ∧ bName ≠ query) ∨
  ((aName = query ↔ bName = query) ∧
    ((startsWith aName query = true ∧ startsWith bName query = false) ∨
     (startsWith aName query = startsWith bName query ∧
       (indexOf aName query < indexOf bName query ∨
        (indexOf aName query = indexOf bName query ∧ aName.length ≤ bName.length)))))

/-- The tie-break chain does not distinguish `a` and `b`: all four values agree. -/
def ChainTie (toLowerCase : JsString → JsString) (query : JsString) (a b : Movie) : Prop :=
  let aName := toLowerCase a.nameOrEmpty
  let bName := toLowerCase b.nameOrEmpty
  (aName = query ↔ bName = query) ∧ startsWith aName query = startsWith bName query ∧
    indexOf aName query = indexOf bName query ∧ aName.length = bName.length

instance (toLowerCase : JsString → JsString) (query : JsString) (a b : Movie) :
    Decidable (ChainTie toLowerCase query a b) := by
  unfold ChainTie; infer_instance

/-- A record matches the query: its lower-cased name contains it, or some lower-cased
alias contains it, or its lower-cased `tmdbDetails.title` contains it and differs from
the lower-cased name. -/
def MatchesQuery (toLowerCase : JsString → JsString) (query : JsString) (m : Movie) : Prop :=
  (∃ n, m.name = some n ∧ includes (toLowerCase n) query = true) ∨
  (∃ as a, m.aliases = some as ∧ a ∈ as ∧ includes (toLowerCase a) query = true) ∨
  (∃ d t, m.tmdbDetails = some d ∧ d.title = some t ∧
    includes (toLowerCase t) query = true ∧ ∀ n, m.name = some n → toLowerCase t ≠ toLowerCase n)

/-- The record's name equals the query, ignoring case. -/
def NameEq (toLowerCase : JsString → JsString) (query : JsString) (m : Movie) : Prop :=
  ∃ n, m.name = some n ∧ toLowerCase n = toLowerCase query

/-- The record has an alias equal to the query, ignoring case. -/
def AliasEq (toLowerCase : JsString → JsString) (query : JsString) (m : Movie) : Prop :=
  ∃ as a, m.aliases = some as ∧ a ∈ as ∧ toLowerCase a = toLowerCase query

/-- The record's id equals the query: a string id is the query itself; a numeric id is
the number `parseInt` reads from the query, or its decimal form is the query. -/
def IdEq (query : JsString) (m : Movie) : Prop :=
  m.id = some (JsId.str query) ∨
  ∃ n, m.id = some (JsId.num n) ∧ (parseInt query = some n ∨ numberToString n = query)

/-- `m` is the first record of `movies`, in collection order, with property `P`. -/
def FirstWith (P : Movie → Prop) (movies : List Movie) (m : Movie) : Prop :=
  ∃ before after, movies = before ++ m :: after ∧ P m ∧ ∀ x ∈ before, ¬ P x

/-- The record is a pending request whose `movieName` equals the title, ignoring case. -/
def PendingFor (toLowerCase : JsString → JsString) (title : JsString) (r : Request) : Prop :=
  r.status = some pending ∧ toLowerCase r.movieName = toLowerCase title

/-- No two pending requests of the collection have the same `movieName`, ignoring case. -/
def NoDuplicatePending (toLowerCase : JsString → JsString) (requests : List Request) : Prop :=
  requests.Pairwise fun a b =>
    ¬ (a.status = some pending ∧ b.status = some pending ∧
      toLowerCase a.movieName = toLowerCase b.movieName)

instance (toLowerCase : JsString → JsString) (requests : List Request) :
    Decidable (NoDuplicatePending toLowerCase requests) := by
  unfold NoDuplicatePending; infer_instance

/-- The ids of the records of the collection are pairwise distinct. -/
def DistinctIds (requests : List Request) : Prop :=
  (requests.map fun r => r.id).Nodup

instance (requests : List Request) : Decidable (DistinctIds requests) := by
  unfold DistinctIds; infer_instance

/-- The record a fulfilled request becomes: the update `findAndNotifyRequesters` asks
`updateRequestStatus` to store. -/
def fulfilledBy (now name : JsString) (r : Request) : Request :=
  dbManager.statusUpdate now fulfilled { fulfilledAt := some now, fulfilledWith := some name } r

/-- One operation of the program on `requests.json` takes the collection `before` to
the collection `after`: a request made by `/requestmovie`, by `/getmovie` or by a
button, a rejection by a button, the fulfilment that follows a save, or a cleanup. -/
inductive LifecycleStep (toLowerCase : JsString → JsString) :
    List Request → List Request → Prop where
  | requestmovie (movies : List Movie) (before : List Request)
      (title uuid userId now guildId guildName : JsString) (reply : requestmovie.Reply)
      (after : List Request) :
      requestmovie.execute toLowerCase movies before title uuid userId now guildId guildName
        = .ok (reply, after) → LifecycleStep toLowerCase before after
  | getmovie (movies : List Movie) (before : List Request)
      (term uuid userId now guildId guildName : JsString) (reply : getmovie.Reply)
      (after : List Request) :
      getmovie.execute toLowerCase movies before term uuid userId now guildId guildName
        = .ok (reply, after) → LifecycleStep toLowerCase before after
  | button (isAdmin : Bool) (movies : List Movie) (before : List Request)
      (customId uuid userId now guildId guildName : JsString)
      (reply : interactionCreate.Reply) (after : List Request) :
      interactionCreate.execute toLowerCase isAdmin movies before customId uuid userId now
        guildId guildName = .ok (reply, after) → LifecycleStep toLowerCase before after
  | fulfil (notify : Request → Bool) (now : JsString) (before : List Request)
      (movie : Movie) :
      LifecycleStep toLowerCase before
        (savemovie.findAndNotifyRequesters toLowerCase notify now before movie)
  | cleanup (parseDate : JsString → Option Int) (thirtyDaysAgo : Int) (isAdmin : Bool)
      (type : cleanup.CleanupType) (dryRun : Bool) (movies : List Movie)
      (before : List Request) :
      LifecycleStep toLowerCase before
        (cleanup.execute toLowerCase parseDate thirtyDaysAgo isAdmin type dryRun movies
          before).2.2

/-- What an operation may do to the collection, one of three things.  It appends one
record, which is pending, and leaves every record of `before` in place.  Or it drops
records and leaves the others as they were, in their order.  Or it changes records in
place: then a record that was not pending is exactly as it was, and a record that was
pending keeps its status or becomes fulfilled. -/
def TerminalPreserved (before after : List Request) : Prop :=
  (∃ new : Request, after = before ++ [new] ∧ new.status = some pending) ∨
  (∃ keep : Request → Bool, after = before.filter keep) ∨
  (∃ F : Request → Request, after = before.map F ∧
    (∀ r, r.status ≠ some pending → F r = r) ∧
    (∀ r, (F r).status = r.status ∨
      (r.status = some pending ∧ (F r).status = some fulfilled)))

/-- The request is older than the date `thirtyDaysAgo`: its `requestedAt` is a valid
date before it. -/
def OlderThan (parseDate : JsString → Option Int) (thirtyDaysAgo : Int) (r : Request) : Prop :=
  match r.requestedAt with
  | some text =>
    match parseDate text with
    | some t => t < thirtyDaysAgo
    | none => False
  | none => False

instance (parseDate : JsString → Option Int) (thirtyDaysAgo : Int) (r : Request) :
    Decidable (OlderThan parseDate thirtyDaysAgo r) := by
  unfold OlderThan
  split
  · split <;> infer_instance
  · infer_instance

/-- The name of the record does not contain the query: the record can be a candidate
through an alias or its TMDB title only. -/
def MatchedOffName (toLowerCase : JsString → JsString) (query : JsString) (m : Movie) :
    Prop :=
  includes (toLowerCase m.nameOrEmpty) query = false

/-- The name of the record contains the query, first at position 1 or later. -/
def NameContainsLater (toLowerCase : JsString → JsString) (query : JsString) (m : Movie) :
    Prop :=
  1 ≤ indexOf (toLowerCase m.nameOrEmpty) query

/-- The name of the record starts with the query. -/
def NameStarts (toLowerCase : JsString → JsString) (query : JsString) (m : Movie) : Prop :=
  startsWith (toLowerCase m.nameOrEmpty) query = true

/-- The facts about the case mapping of the runtime that the normalisation of a list of
languages relies on: it maps the empty string to itself and a lower-cased string to
itself, it leaves a string without surrounding white space without it, and it does
not produce a comma. -/
structure LowerCaseLaws (toLowerCase : JsString → JsString) : Prop where
  empty : toLowerCase [] = []
  idem : ∀ s, toLowerCase (toLowerCase s) = toLowerCase s
  trimmed : ∀ s, trim s = s → trim (toLowerCase s) = toLowerCase s
  comma : ∀ s, 44 ∉ s → 44 ∉ toLowerCase s

/-- The languages of a record after an operation are those it had, or a list that is
not empty. -/
def LanguagesKept (before after : Movie) : Prop :=
  after.languages = before.languages ∨ ∃ ls, after.languages = some ls ∧ ls ≠ []

/-- A block of the handler of `/updatemovie` leaves the key `id` as it was and does not
set `languages` to the empty list. -/
def KeepsFields (f g : UpdatedFields) : Prop :=
  g.id = f.id ∧ (f.languages ≠ some [] → g.languages ≠ some [])

/-- No two records of the collection have the same name, ignoring case. -/
def NamesDistinct (toLowerCase : JsString → JsString) (movies : List Movie) : Prop :=
  movies.Pairwise fun a b => toLowerCase a.nameOrEmpty ≠ toLowerCase b.nameOrEmpty

instance (toLowerCase : JsString → JsString) (movies : List Movie) :
    Decidable (NamesDistinct toLowerCase movies) := by
  unfold NamesDistinct
  infer_instance

/-! ## The callbacks of getMovie as total functions -/

/-- Value of the first callback of `getMovie` on a record that has a name. -/
def nameEqualsB (toLowerCase : JsString → JsString) (nameOrId : JsString) (m : Movie) : Bool :=
  match m.name with
  | some n => toLowerCase n == toLowerCase nameOrId
  | none => false

/-- Value of the second callback of `getMovie`. -/
def aliasEqualsB (toLowerCase : JsString → JsString) (nameOrId : JsString) (m : Movie) : Bool :=
  match m.aliases with
  | some as => as.any fun a => toLowerCase a == toLowerCase nameOrId
  | none => false

/-- Value of the third callback of `getMovie` on a record that has an id. -/
def idEqualsB (nameOrId : JsString) (m : Movie) : Bool :=
  match m.id with
  | none => false
  | some (JsId.str s) => s == nameOrId || s == nameOrId
  | some (JsId.num n) => parseInt nameOrId == some n || numberToString n == nameOrId

/-! ## The comparator is a consistent ordering -/

/-- The comparator of `searchMovies` on the four values it reads of each record. -/
def chainCompare (e1 s1 : Bool) (i1 : Int) (n1 : Nat) (e2 s2 : Bool) (i2 : Int) (n2 : Nat) :
    Int :=
  if e1 && !e2 then -1
  else if !e1 && e2 then 1
  else if s1 && !s2 then -1
  else if !s1 && s2 then 1
  else if i1 != i2 then i1 - i2
  else (n1 : Int) - (n2 : Int)

theorem compareRelevance_eq_chainCompare (toLowerCase : JsString → JsString)
    (q : JsString) (a b : Movie) :
    compareRelevance toLowerCase q a b =
      chainCompare (toLowerCase a.nameOrEmpty == q) (startsWith (toLowerCase a.nameOrEmpty) q)
        (indexOf (toLowerCase a.nameOrEmpty) q) (toLowerCase a.nameOrEmpty).length
        (toLowerCase b.nameOrEmpty == q) (startsWith (toLowerCase b.nameOrEmpty) q)
        (indexOf (toLowerCase b.nameOrEmpty) q) (toLowerCase b.nameOrEmpty).length := rfl

theorem chainCompare_total (e1 s1 : Bool) (i1 : Int) (n1 : Nat) (e2 s2 : Bool) (i2 : Int)
    (n2 : Nat) :
    chainCompare e1 s1 i1 n1 e2 s2 i2 n2 ≤ 0 ∨ chainCompare e2 s2 i2 n2 e1 s1 i1 n1 ≤ 0 := by
  cases e1 <;> cases e2 <;> cases s1 <;> cases s2 <;> simp [chainCompare] <;>
    split_ifs <;> omega

theorem chainCompare_trans (e1 s1 : Bool) (i1 : Int) (n1 : Nat) (e2 s2 : Bool) (i2 : Int)
    (n2 : Nat) (e3 s3 : Bool) (i3 : Int) (n3 : Nat)
    (h12 : chainCompare e1 s1 i1 n1 e2 s2 i2 n2 ≤ 0)
    (h23 : chainCompare e2 s2 i2 n2 e3 s3 i3 n3 ≤ 0) :
    chainCompare e1 s1 i1 n1 e3 s3 i3 n3 ≤ 0 := by
  revert h12 h23
  cases e1 <;> cases e2 <;> cases e3 <;> cases s1 <;> cases s2 <;> cases s3 <;>
    simp [chainCompare] <;> split_ifs <;> omega

theorem chainCompare_le_iff (e1 s1 : Bool) (i1 : Int) (n1 : Nat) (e2 s2 : Bool) (i2 : Int)
    (n2 : Nat) :
    chainCompare e1 s1 i1 n1 e2 s2 i2 n2 ≤ 0 ↔
      (e1 = true ∧ e2 = false) ∨ (e1 = e2 ∧ ((s1 = true ∧ s2 = false) ∨
        (s1 = s2 ∧ (i1 < i2 ∨ (i1 = i2 ∧ n1 ≤ n2))))) := by
  cases e1 <;> cases e2 <;> cases s1 <;> cases s2 <;> simp [chainCompare] <;>
    split_ifs <;> omega

theorem chainCompare_eq_zero_iff (e1 s1 : Bool) (i1 : Int) (n1 : Nat) (e2 s2 : Bool)
    (i2 : Int) (n2 : Nat) :
    chainCompare e1 s1 i1 n1 e2 s2 i2 n2 = 0 ↔ e1 = e2 ∧ s1 = s2 ∧ i1 = i2 ∧ n1 = n2 := by
  cases e1 <;> cases e2 <;> cases s1 <;> cases s2 <;> simp [chainCompare] <;>
    split_ifs <;> omega

theorem compareRelevance_le_iff (toLowerCase : JsString → JsString) (q : JsString)
    (a b : Movie) :
    compareRelevance toLowerCase q a b ≤ 0 ↔ ChainLe toLowerCase q a b := by
  rw [compareRelevance_eq_chainCompare, chainCompare_le_iff]
  unfold ChainLe
  have hb : ∀ x y : JsString, ((x == q) = (y == q)) ↔ (x = q ↔ y = q) := by
    intro x y
    rw [Bool.eq_iff_iff]
    simp only [beq_iff_eq]
  simp only [beq_iff_eq, beq_eq_false_iff_ne, hb, ne_eq]

theorem compareRelevance_eq_zero_iff (toLowerCase : JsString → JsString) (q : JsString)
    (a b : Movie) :
    compareRelevance toLowerCase q a b = 0 ↔ ChainTie toLowerCase q a b := by
  rw [compareRelevance_eq_chainCompare, chainCompare_eq_zero_iff]
  unfold ChainTie
  have hb : ∀ x y : JsString, ((x == q) = (y == q)) ↔ (x = q ↔ y = q) := by
    intro x y
    rw [Bool.eq_iff_iff]
    simp only [beq_iff_eq]
  simp only [hb]

theorem compareRelevance_total (toLowerCase : JsString → JsString) (q : JsString)
    (a b : Movie) :
    compareRelevance toLowerCase q a b ≤ 0 ∨ compareRelevance toLowerCase q b a ≤ 0 := by
  simp only [compareRelevance_eq_chainCompare]
  exact chainCompare_total _ _ _ _ _ _ _ _

theorem compareRelevance_trans (toLowerCase : JsString → JsString) (q : JsString)
    (a b c : Movie) (hab : compareRelevance toLowerCase q a b ≤ 0)
    (hbc : compareRelevance toLowerCase q b c ≤ 0) :
    compareRelevance toLowerCase q a c ≤ 0 := by
  simp only [compareRelevance_eq_chainCompare] at *
  exact chainCompare_trans _ _ _ _ _ _ _ _ _ _ _ _ hab hbc

theorem chainTie_le (toLowerCase : JsString → JsString) (q : JsString) (a b c : Movie)
    (hab : ChainTie toLowerCase q a b) (hac : ChainTie toLowerCase q a c) :
    compareRelevance toLowerCase q b c ≤ 0 := by
  rw [← compareRelevance_eq_zero_iff, compareRelevance_eq_chainCompare,
    chainCompare_eq_zero_iff] at hab hac
  have h : compareRelevance toLowerCase q b c = 0 := by
    rw [compareRelevance_eq_chainCompare, chainCompare_eq_zero_iff]
    obtain ⟨h1, h2, h3, h4⟩ := hab
    obtain ⟨k1, k2, k3, k4⟩ := hac
    exact ⟨h1.symm.trans k1, h2.symm.trans k2, h3.symm.trans k3, h4.symm.trans k4⟩
  omega

/-! ## The sort of the runtime -/

theorem jsSort_perm {α : Type} (cmp : α → α → Int) (l : List α) : (jsSort cmp l).Perm l :=
  List.perm_insertionSort _ l

theorem mem_jsSort {α : Type} (cmp : α → α → Int) (l : List α) (x : α) :
    x ∈ jsSort cmp l ↔ x ∈ l :=
  (jsSort_perm cmp l).mem_iff

theorem jsSort_sorted {α : Type} (cmp : α → α → Int)
    (htotal : ∀ a b, cmp a b ≤ 0 ∨ cmp b a ≤ 0)
    (htrans : ∀ a b c, cmp a b ≤ 0 → cmp b c ≤ 0 → cmp a c ≤ 0) (l : List α) :
    (jsSort cmp l).Pairwise (fun a b => cmp a b ≤ 0) := by
  haveI : IsTotal α (fun a b => cmp a b ≤ 0) := ⟨htotal⟩
  haveI : IsTrans α (fun a b => cmp a b ≤ 0) := ⟨htrans⟩
  exact List.sorted_insertionSort (fun a b => cmp a b ≤ 0) l

/-- Stability: the elements of a class whose members the comparator puts in either
order keep the order they had. -/
theorem jsSort_filter_stable {α : Type} (cmp : α → α → Int) (p : α → Bool)
    (hp : ∀ a b, p a = true → p b = true → cmp a b ≤ 0) (l : List α) :
    (jsSort cmp l).filter p = l.filter p := by
  have hsub : List.Sublist (l.filter p) (jsSort cmp l) := by
    apply List.sublist_insertionSort
    · rw [List.pairwise_iff_forall_sublist]
      intro a b hab
      have ha : a ∈ l.filter p := hab.subset (by simp)
      have hb : b ∈ l.filter p := hab.subset (by simp)
      exact hp a b (List.mem_filter.mp ha).2 (List.mem_filter.mp hb).2
    · exact List.filter_sublist l
  have hsub2 : List.Sublist (l.filter p) ((jsSort cmp l).filter p) := by
    have := hsub.filter p
    simpa [List.filter_filter] using this
  have hlen : ((jsSort cmp l).filter p).length = (l.filter p).length :=
    ((jsSort_perm cmp l).filter p).length_eq
  exact (hsub2.eq_of_length hlen.symm).symm

/-! ## searchMovies: results -/

theorem searchMovies_of_empty (toLowerCase : JsString → JsString) (movies : List Movie) :
    searchMovies toLowerCase movies [] = [] := rfl

theorem searchMovies_of_ne_nil (toLowerCase : JsString → JsString) (movies : List Movie)
    (searchTerm : JsString) (h : searchTerm ≠ []) :
    searchMovies toLowerCase movies searchTerm =
      jsSort (compareRelevance toLowerCase (trim (toLowerCase searchTerm)))
        (movies.filter (isCandidate toLowerCase (trim (toLowerCase searchTerm)))) := by
  cases searchTerm with
  | nil => exact absurd rfl h
  | cons c s => rfl

theorem mem_searchMovies (toLowerCase : JsString → JsString) (movies : List Movie)
    (searchTerm : JsString) (h : searchTerm ≠ []) (m : Movie) :
    m ∈ searchMovies toLowerCase movies searchTerm ↔
      m ∈ movies ∧ isCandidate toLowerCase (trim (toLowerCase searchTerm)) m = true := by
  rw [searchMovies_of_ne_nil _ _ _ h, mem_jsSort, List.mem_filter]

/-- C1: the list `searchMovies` returns is ordered by the tie-break chain (exact name,
then name starting with the query, then smaller index of the query in the name, then
shorter name), the query being the trimmed, lower-cased search term; and the records
the chain does not distinguish from a given one stand in the result in the order they
have in the collection.  With movies "Alienated" and "Alien", the search for "alien"
ranks "Alien" first. -/
theorem searchMovies_ordered_by_chain (toLowerCase : JsString → JsString)
    (movies : List Movie) (searchTerm : JsString) :
    (searchMovies toLowerCase movies searchTerm).Pairwise
        (ChainLe toLowerCase (trim (toLowerCase searchTerm))) ∧
    (∀ a : Movie,
      (searchMovies toLowerCase movies searchTerm).filter
          (fun b => decide (ChainTie toLowerCase (trim (toLowerCase searchTerm)) a b)) =
        movies.filter (fun b => decide (b ∈ searchMovies toLowerCase movies searchTerm) &&
          decide (ChainTie toLowerCase (trim (toLowerCase searchTerm)) a b))) ∧
    searchMovies asciiToLowerCase [alienated, alien] (js "alien") = [alien, alienated] := by
  refine ⟨?_, ?_, by decide⟩
  · by_cases h : searchTerm = []
    · subst h
      simp [searchMovies_of_empty]
    · rw [searchMovies_of_ne_nil _ _ _ h]
      have hs := jsSort_sorted (compareRelevance toLowerCase (trim (toLowerCase searchTerm)))
        (compareRelevance_total toLowerCase _) (compareRelevance_trans toLowerCase _)
        (movies.filter (isCandidate toLowerCase (trim (toLowerCase searchTerm))))
      exact hs.imp (fun hab => (compareRelevance_le_iff toLowerCase _ _ _).mp hab)
  · intro a
    by_cases h : searchTerm = []
    · subst h
      simp [searchMovies_of_empty]
    · have hmem := mem_searchMovies toLowerCase movies searchTerm h
      have hrhs : movies.filter
            (fun b => decide (b ∈ searchMovies toLowerCase movies searchTerm) &&
              decide (ChainTie toLowerCase (trim (toLowerCase searchTerm)) a b)) =
          movies.filter (fun b => isCandidate toLowerCase (trim (toLowerCase searchTerm)) b &&
              decide (ChainTie toLowerCase (trim (toLowerCase searchTerm)) a b)) := by
        apply List.filter_congr
        intro b hb
        have : decide (b ∈ searchMovies toLowerCase movies searchTerm) =
            isCandidate toLowerCase (trim (toLowerCase searchTerm)) b := by
          rw [Bool.eq_iff_iff, decide_eq_true_iff, hmem]
          exact ⟨fun h => h.2, fun h => ⟨hb, h⟩⟩
        rw [this]
      rw [hrhs, searchMovies_of_ne_nil _ _ _ h, jsSort_filter_stable, List.filter_filter]
      · apply List.filter_congr
        intro b _
        exact Bool.and_comm _ _
      · intro x y hx hy
        exact chainTie_le toLowerCase _ a x y (of_decide_eq_true hx) (of_decide_eq_true hy)

theorem includes_nil_right (s : JsString) : includes s [] = true := by
  cases s <;> simp [includes]

theorem includes_nil_left (t : JsString) : includes [] t = true ↔ t = [] := by
  cases t <;> simp [includes, List.isPrefixOf]

theorem isCandidate_iff_matchesQuery (toLowerCase : JsString → JsString)
    (hlow : toLowerCase [] = []) (query : JsString) (m : Movie)
    (hname : ∃ n, m.name = some n ∧ n ≠ []) :
    isCandidate toLowerCase query m = true ↔ MatchesQuery toLowerCase query m := by
  obtain ⟨n, hn, hne⟩ := hname
  have htruthy : truthy n = true := by
    cases n with
    | nil => exact absurd rfl hne
    | cons c r => rfl
  by_cases hq : query = []
  · subst hq
    constructor
    · intro _
      exact Or.inl ⟨n, hn, includes_nil_right _⟩
    · intro _
      simp [isCandidate, hn, htruthy, includes_nil_right]
  · have hnil : includes [] query = false := by
      cases h : includes [] query with
      | false => rfl
      | true => exact absurd ((includes_nil_left query).mp h) hq
    obtain ⟨mid, mname, maliases, mtmdb, madded, mlangs, mlang, mlinks, mshots, mposter,
      mupdated⟩ := m
    simp only at hn
    subst hn
    unfold MatchesQuery isCandidate
    simp only [Movie.nameOrEmpty, Option.getD_some, htruthy, Bool.true_and, Bool.or_eq_true,
      Bool.and_eq_true, Option.some.injEq, exists_eq_left']
    rw [or_assoc]
    apply or_congr Iff.rfl
    apply or_congr
    · cases maliases with
      | none => simp
      | some as =>
        simp only [List.any_eq_true, Option.some.injEq]
        constructor
        · rintro ⟨a, ha, hi⟩
          exact ⟨as, a, rfl, ha, hi⟩
        · rintro ⟨as1, a, h1, ha, hi⟩
          subst h1
          exact ⟨a, ha, hi⟩
    · cases mtmdb with
      | none => simp [truthy]
      | some d =>
        obtain ⟨title, tid, trelease, tgenres, tvote⟩ := d
        cases title with
        | none => simp [truthy]
        | some t =>
          simp only [Option.some.injEq, exists_eq_left', forall_eq']
          by_cases htt : truthy t = true
          · simp only [htt, if_true]
            by_cases hlt : toLowerCase t = []
            · simp [hlt, truthy, hnil]
            · have : truthy (toLowerCase t) = true := by
                cases h : toLowerCase t with
                | nil => exact absurd h hlt
                | cons c r => rfl
              simp [this]
          · have ht0 : t = [] := by
              cases t with
              | nil => rfl
              | cons c r => exact absurd rfl htt
            subst ht0
            simp [truthy, hlow, hnil]

/-- C2: for a non-empty search term, `searchMovies` returns exactly the records of the
collection that match the trimmed, lower-cased term by name, by alias or by a TMDB title
that differs from the name: each matching record as often as the collection holds it,
and no other record.  Records carry a non-empty name, and the lower-cased empty string
is empty. -/
theorem searchMovies_returns_exactly_matches (toLowerCase : JsString → JsString)
    (movies : List Movie) (searchTerm : JsString)
    (hterm : searchTerm ≠ [])
    (hlow : toLowerCase [] = [])
    (hname : ∀ m ∈ movies, ∃ n, m.name = some n ∧ n ≠ []) (m : Movie) :
    (MatchesQuery toLowerCase (trim (toLowerCase searchTerm)) m →
      (searchMovies toLowerCase movies searchTerm).count m = movies.count m) ∧
    (¬ MatchesQuery toLowerCase (trim (toLowerCase searchTerm)) m →
      m ∉ searchMovies toLowerCase movies searchTerm) := by
  have hcount : (searchMovies toLowerCase movies searchTerm).count m =
      (movies.filter (isCandidate toLowerCase (trim (toLowerCase searchTerm)))).count m := by
    rw [searchMovies_of_ne_nil _ _ _ hterm]
    exact (jsSort_perm _ _).count_eq m
  by_cases hm : m ∈ movies
  · have hiff := isCandidate_iff_matchesQuery toLowerCase hlow
      (trim (toLowerCase searchTerm)) m (hname m hm)
    constructor
    · intro h
      rw [hcount, List.count_filter (hiff.mpr h)]
    · intro h hmem
      rw [mem_searchMovies _ _ _ hterm] at hmem
      exact h (hiff.mp hmem.2)
  · constructor
    · intro _
      rw [hcount, List.count_eq_zero_of_not_mem hm, List.count_eq_zero_of_not_mem]
      intro h
      exact hm (List.mem_filter.mp h).1
    · intro _ hmem
      rw [mem_searchMovies _ _ _ hterm] at hmem
      exact hm hmem.1

/-- Witness of C2: the search for "dune" in a collection of two records. -/
theorem searchMovies_returns_exactly_matches_witness :
    js "dune" ≠ [] ∧ asciiToLowerCase [] = [] ∧
    ((MatchesQuery asciiToLowerCase (trim (asciiToLowerCase (js "dune"))) dune →
      (searchMovies asciiToLowerCase [dunePartTwo, dune] (js "dune")).count dune =
        [dunePartTwo, dune].count dune) ∧
    (¬ MatchesQuery asciiToLowerCase (trim (asciiToLowerCase (js "dune"))) dune →
      dune ∉ searchMovies asciiToLowerCase [dunePartTwo, dune] (js "dune"))) :=
  ⟨by decide, rfl,
    searchMovies_returns_exactly_matches asciiToLowerCase [dunePartTwo, dune] (js "dune")
      (by decide) rfl
      (by
        intro m hm
        simp only [List.mem_cons, List.mem_singleton, List.not_mem_nil, or_false] at hm
        rcases hm with rfl | rfl
        · exact ⟨js "Dune Part Two", rfl, by decide⟩
        · exact ⟨js "Dune", rfl, by decide⟩)
      dune⟩

/-- C3: what the code does on an empty and on a blank search term.  The empty term
returns the empty list; the term of three spaces passes the guard `!searchTerm`, is
trimmed to the empty string, which every name contains, and returns every record. -/
theorem searchMovies_blank_term_returns_all :
    searchMovies asciiToLowerCase [dunePartTwo, dune] (js "") = [] ∧
    searchMovies asciiToLowerCase [dunePartTwo, dune] (js "   ") = [dune, dunePartTwo] := by
  decide

/-- C4: in the result of `searchMovies` no record whose lower-cased name is not the
(trimmed, lower-cased) query stands before a record whose lower-cased name is the query:
exact matches precede all others.  With "Dune" and "Dune Part Two" in either collection
order, the search for "dune" lists "Dune" first. -/
theorem searchMovies_exact_match_first (toLowerCase : JsString → JsString)
    (movies : List Movie) (searchTerm : JsString) :
    (searchMovies toLowerCase movies searchTerm).Pairwise
      (fun a b => toLowerCase b.nameOrEmpty = trim (toLowerCase searchTerm) →
        toLowerCase a.nameOrEmpty = trim (toLowerCase searchTerm)) ∧
    searchMovies asciiToLowerCase [dune, dunePartTwo] (js "dune") = [dune, dunePartTwo] ∧
    searchMovies asciiToLowerCase [dunePartTwo, dune] (js "dune") = [dune, dunePartTwo] := by
  refine ⟨?_, by decide, by decide⟩
  by_cases h : searchTerm = []
  · subst h
    simp [searchMovies_of_empty]
  · rw [searchMovies_of_ne_nil _ _ _ h]
    have hs := jsSort_sorted (compareRelevance toLowerCase (trim (toLowerCase searchTerm)))
      (compareRelevance_total toLowerCase _) (compareRelevance_trans toLowerCase _)
      (movies.filter (isCandidate toLowerCase (trim (toLowerCase searchTerm))))
    refine hs.imp ?_
    intro a b hab hb
    rw [compareRelevance_le_iff] at hab
    rcases hab with ⟨ha, _⟩ | ⟨hiff, _⟩
    · exact ha
    · exact hiff.mpr hb

/-! ## getMovie: results -/

theorem jsFind_ok {α : Type} (p : α → Except JsError Bool) (f : α → Bool) (l : List α)
    (h : ∀ x ∈ l, p x = .ok (f x)) : jsFind p l = .ok (l.find? f) := by
  induction l with
  | nil => rfl
  | cons x xs ih =>
    have hx := h x (List.mem_cons_self _ _)
    have ih1 := ih (fun y hy => h y (List.mem_cons_of_mem _ hy))
    cases hf : f x with
    | true => simp [jsFind, hx, hf]
    | false => simp [jsFind, hx, hf, ih1]

theorem nameEquals_eq (toLowerCase : JsString → JsString) (q : JsString) (m : Movie)
    (h : m.name ≠ none) : nameEquals toLowerCase q m = .ok (nameEqualsB toLowerCase q m) := by
  unfold nameEquals nameEqualsB
  cases hn : m.name with
  | none => exact absurd hn h
  | some n => rfl

theorem aliasEquals_eq (toLowerCase : JsString → JsString) (q : JsString) (m : Movie) :
    aliasEquals toLowerCase q m = .ok (aliasEqualsB toLowerCase q m) := by
  unfold aliasEquals aliasEqualsB
  cases m.aliases <;> rfl

theorem idEquals_eq (q : JsString) (m : Movie) (h : m.id ≠ none) :
    idEquals q m = .ok (idEqualsB q m) := by
  unfold idEquals idEqualsB
  cases hi : m.id with
  | none => exact absurd hi h
  | some i => cases i <;> rfl

theorem nameEqualsB_iff (toLowerCase : JsString → JsString) (q : JsString) (m : Movie) :
    nameEqualsB toLowerCase q m = true ↔ NameEq toLowerCase q m := by
  unfold nameEqualsB NameEq
  cases m.name with
  | none => simp
  | some n => simp

theorem aliasEqualsB_iff (toLowerCase : JsString → JsString) (q : JsString) (m : Movie) :
    aliasEqualsB toLowerCase q m = true ↔ AliasEq toLowerCase q m := by
  unfold aliasEqualsB AliasEq
  cases m.aliases with
  | none => simp
  | some as => simp

theorem idEqualsB_iff (q : JsString) (m : Movie) :
    idEqualsB q m = true ↔ IdEq q m := by
  unfold idEqualsB IdEq
  cases m.id with
  | none => simp
  | some i =>
    cases i with
    | str s => simp
    | num n => simp

theorem find_of_firstWith (P : Movie → Prop) (f : Movie → Bool) (hf : ∀ x, f x = true ↔ P x)
    (movies : List Movie) (m : Movie) (h : FirstWith P movies m) : movies.find? f = some m := by
  obtain ⟨before, after, hms, hpm, hnot⟩ := h
  rw [List.find?_eq_some]
  refine ⟨(hf m).mpr hpm, before, after, hms, ?_⟩
  intro a ha
  have : ¬ f a = true := fun h1 => hnot a ha ((hf a).mp h1)
  simpa using this

theorem firstWith_of_find (P : Movie → Prop) (f : Movie → Bool) (hf : ∀ x, f x = true ↔ P x)
    (movies : List Movie) (m : Movie) (h : movies.find? f = some m) : FirstWith P movies m := by
  rw [List.find?_eq_some] at h
  obtain ⟨hpm, before, after, hms, hnot⟩ := h
  refine ⟨before, after, hms, (hf m).mp hpm, ?_⟩
  intro x hx hp
  have := hnot x hx
  rw [(hf x).mpr hp] at this
  exact absurd this (by decide)

theorem find_none_iff (P : Movie → Prop) (f : Movie → Bool) (hf : ∀ x, f x = true ↔ P x)
    (movies : List Movie) : movies.find? f = none ↔ ∀ x ∈ movies, ¬ P x := by
  rw [List.find?_eq_none]
  constructor
  · intro h x hx hp
    exact h x hx ((hf x).mpr hp)
  · intro h x hx hp
    exact h x hx ((hf x).mp hp)

/-- `getMovie` on a collection whose records all have a name and an id: the three
searches, each taken when the ones before it found nothing. -/
theorem getMovie_eq (toLowerCase : JsString → JsString) (movies : List Movie) (q : JsString)
    (h : ∀ m ∈ movies, m.name ≠ none ∧ m.id ≠ none) :
    getMovie toLowerCase movies q =
      .ok (((movies.find? (nameEqualsB toLowerCase q)).or
        (movies.find? (aliasEqualsB toLowerCase q))).or (movies.find? (idEqualsB q))) := by
  unfold getMovie
  rw [jsFind_ok _ (nameEqualsB toLowerCase q) movies
      (fun x hx => nameEquals_eq toLowerCase q x (h x hx).1),
    jsFind_ok _ (aliasEqualsB toLowerCase q) movies
      (fun x _ => aliasEquals_eq toLowerCase q x),
    jsFind_ok _ (idEqualsB q) movies (fun x hx => idEquals_eq q x (h x hx).2)]
  cases movies.find? (nameEqualsB toLowerCase q) with
  | some a => rfl
  | none =>
    cases movies.find? (aliasEqualsB toLowerCase q) with
    | some b => rfl
    | none => cases movies.find? (idEqualsB q) <;> rfl

/-- `getMovie` on a collection whose records all have a name, when some name matches. -/
theorem getMovie_of_name_found (toLowerCase : JsString → JsString) (movies : List Movie)
    (q : JsString) (h : ∀ m ∈ movies, m.name ≠ none) (m : Movie)
    (hfound : movies.find? (nameEqualsB toLowerCase q) = some m) :
    getMovie toLowerCase movies q = .ok (some m) := by
  unfold getMovie
  rw [jsFind_ok _ (nameEqualsB toLowerCase q) movies
      (fun x hx => nameEquals_eq toLowerCase q x (h x hx)), hfound]

/-- `getMovie` on a collection whose records all have a name, when no name matches and
some alias does. -/
theorem getMovie_of_alias_found (toLowerCase : JsString → JsString) (movies : List Movie)
    (q : JsString) (h : ∀ m ∈ movies, m.name ≠ none) (m : Movie)
    (hname : movies.find? (nameEqualsB toLowerCase q) = none)
    (hfound : movies.find? (aliasEqualsB toLowerCase q) = some m) :
    getMovie toLowerCase movies q = .ok (some m) := by
  unfold getMovie
  rw [jsFind_ok _ (nameEqualsB toLowerCase q) movies
      (fun x hx => nameEquals_eq toLowerCase q x (h x hx)), hname,
    jsFind_ok _ (aliasEqualsB toLowerCase q) movies
      (fun x _ => aliasEquals_eq toLowerCase q x), hfound]

/-- C5: on a collection whose records all have a name and an id, `getMovie` returns
a result (it does not throw), and that result is the first record, in collection order,
whose name equals the query ignoring case; failing that, the first record with an alias
equal to the query ignoring case; failing that, the first record whose id equals the
query in its string or number form; and it is `null` exactly when no record matches in
any of the three ways. -/
theorem getMovie_first_match (toLowerCase : JsString → JsString) (movies : List Movie)
    (q : JsString) (h : ∀ m ∈ movies, m.name ≠ none ∧ m.id ≠ none) :
    ∃ r, getMovie toLowerCase movies q = .ok r ∧
      (∀ m, FirstWith (NameEq toLowerCase q) movies m → r = some m) ∧
      ((∀ x ∈ movies, ¬ NameEq toLowerCase q x) →
        ∀ m, FirstWith (AliasEq toLowerCase q) movies m → r = some m) ∧
      ((∀ x ∈ movies, ¬ NameEq toLowerCase q x ∧ ¬ AliasEq toLowerCase q x) →
        ∀ m, FirstWith (IdEq q) movies m → r = some m) ∧
      (r = none ↔
        ∀ x ∈ movies, ¬ NameEq toLowerCase q x ∧ ¬ AliasEq toLowerCase q x ∧ ¬ IdEq q x) := by
  refine ⟨_, getMovie_eq toLowerCase movies q h, ?_, ?_, ?_, ?_⟩
  · intro m hm
    rw [find_of_firstWith _ _ (nameEqualsB_iff toLowerCase q) movies m hm]
    rfl
  · intro hno m hm
    rw [(find_none_iff _ _ (nameEqualsB_iff toLowerCase q) movies).mpr hno,
      find_of_firstWith _ _ (aliasEqualsB_iff toLowerCase q) movies m hm]
    rfl
  · intro hno m hm
    rw [(find_none_iff _ _ (nameEqualsB_iff toLowerCase q) movies).mpr (fun x hx => (hno x hx).1),
      (find_none_iff _ _ (aliasEqualsB_iff toLowerCase q) movies).mpr
        (fun x hx => (hno x hx).2),
      find_of_firstWith _ _ (idEqualsB_iff q) movies m hm]
    rfl
  · constructor
    · intro hr x hx
      cases h1 : movies.find? (nameEqualsB toLowerCase q) with
      | some a => rw [h1] at hr; simp [Option.or] at hr
      | none =>
        cases h2 : movies.find? (aliasEqualsB toLowerCase q) with
        | some b => rw [h1, h2] at hr; simp [Option.or] at hr
        | none =>
          cases h3 : movies.find? (idEqualsB q) with
          | some c => rw [h1, h2, h3] at hr; simp [Option.or] at hr
          | none =>
            exact ⟨(find_none_iff _ _ (nameEqualsB_iff toLowerCase q) movies).mp h1 x hx,
              (find_none_iff _ _ (aliasEqualsB_iff toLowerCase q) movies).mp h2 x hx,
              (find_none_iff _ _ (idEqualsB_iff q) movies).mp h3 x hx⟩
    · intro hno
      rw [(find_none_iff _ _ (nameEqualsB_iff toLowerCase q) movies).mpr
          (fun x hx => (hno x hx).1),
        (find_none_iff _ _ (aliasEqualsB_iff toLowerCase q) movies).mpr
          (fun x hx => (hno x hx).2.1),
        (find_none_iff _ _ (idEqualsB_iff q) movies).mpr (fun x hx => (hno x hx).2.2)]
      rfl

/-- Witness of C5: the lookup of "ALIEN" in a collection of three records. -/
theorem getMovie_first_match_witness :
    ∃ r, getMovie asciiToLowerCase [dune, aliens, alien] (js "ALIEN") = .ok r ∧
      (∀ m, FirstWith (NameEq asciiToLowerCase (js "ALIEN")) [dune, aliens, alien] m →
        r = some m) ∧
      ((∀ x ∈ [dune, aliens, alien], ¬ NameEq asciiToLowerCase (js "ALIEN") x) →
        ∀ m, FirstWith (AliasEq asciiToLowerCase (js "ALIEN")) [dune, aliens, alien] m →
          r = some m) ∧
      ((∀ x ∈ [dune, aliens, alien], ¬ NameEq asciiToLowerCase (js "ALIEN") x ∧
          ¬ AliasEq asciiToLowerCase (js "ALIEN") x) →
        ∀ m, FirstWith (IdEq (js "ALIEN")) [dune, aliens, alien] m → r = some m) ∧
      (r = none ↔
        ∀ x ∈ [dune, aliens, alien], ¬ NameEq asciiToLowerCase (js "ALIEN") x ∧
          ¬ AliasEq asciiToLowerCase (js "ALIEN") x ∧ ¬ IdEq (js "ALIEN") x) :=
  getMovie_first_match asciiToLowerCase [dune, aliens, alien] (js "ALIEN") (by
    intro m hm
    simp only [List.mem_cons, List.mem_singleton, List.not_mem_nil, or_false] at hm
    rcases hm with rfl | rfl | rfl <;> exact ⟨by decide, by decide⟩)

/-- C6, counterexample: two records are named "Dune" and "dune"; the lookup of the
second record's own name returns the first record, not the second. -/
theorem getMovie_name_not_always_self :
    duneRemake ∈ [dune, duneRemake] ∧ duneRemake.name = some (js "dune") ∧
    getMovie asciiToLowerCase [dune, duneRemake] (js "dune") = .ok (some dune) ∧
    getMovie asciiToLowerCase [dune, duneRemake] (js "dune") ≠ .ok (some duneRemake) := by
  decide

/-- C6, amended: for a record `m` of the collection (whose records all have a name) and
a query equal to `m.name` ignoring case, `getMovie` returns the first record of the
collection whose name equals the query ignoring case; that record is `m` itself when no
record before `m` has such a name. -/
theorem getMovie_by_name (toLowerCase : JsString → JsString) (movies : List Movie)
    (m : Movie) (n q : JsString) (h : ∀ x ∈ movies, x.name ≠ none) (hm : m ∈ movies)
    (hn : m.name = some n) (hq : toLowerCase q = toLowerCase n) :
    ∃ r, getMovie toLowerCase movies q = .ok (some r) ∧
      FirstWith (NameEq toLowerCase q) movies r ∧
      (FirstWith (NameEq toLowerCase q) movies m → r = m) := by
  have hmatch : nameEqualsB toLowerCase q m = true :=
    (nameEqualsB_iff toLowerCase q m).mpr ⟨n, hn, hq.symm⟩
  cases hfind : movies.find? (nameEqualsB toLowerCase q) with
  | none =>
    rw [List.find?_eq_none] at hfind
    exact absurd hmatch (hfind m hm)
  | some r =>
    refine ⟨r, getMovie_of_name_found toLowerCase movies q h r hfind,
      firstWith_of_find _ _ (nameEqualsB_iff toLowerCase q) movies r hfind, ?_⟩
    intro hfirst
    have := find_of_firstWith _ _ (nameEqualsB_iff toLowerCase q) movies m hfirst
    rw [hfind] at this
    exact Option.some.inj this

/-- Witness of C6 as amended: the lookup of "DUNE" where the second record is "Dune". -/
theorem getMovie_by_name_witness :
    ∃ r, getMovie asciiToLowerCase [dunePartTwo, dune] (js "DUNE") = .ok (some r) ∧
      FirstWith (NameEq asciiToLowerCase (js "DUNE")) [dunePartTwo, dune] r ∧
      (FirstWith (NameEq asciiToLowerCase (js "DUNE")) [dunePartTwo, dune] dune → r = dune) :=
  getMovie_by_name asciiToLowerCase [dunePartTwo, dune] dune (js "Dune") (js "DUNE")
    (by
      intro x hx
      simp only [List.mem_cons, List.mem_singleton, List.not_mem_nil, or_false] at hx
      rcases hx with rfl | rfl <;> decide)
    (by decide) rfl (by decide)

/-- C7, counterexample: "Alien" is an alias of the record named "Aliens" and the name
of another record; the lookup of that alias returns the record named "Alien".  And when
two records have the alias "Alien", the lookup returns the one that comes first. -/
theorem getMovie_alias_not_always_owner :
    aliens ∈ [aliens, alien] ∧ aliens.aliases = some [js "Alien"] ∧
    getMovie asciiToLowerCase [aliens, alien] (js "Alien") = .ok (some alien) ∧
    getMovie asciiToLowerCase [aliens, alien] (js "Alien") ≠ .ok (some aliens) ∧
    aliens ∈ [xenomorph, aliens] ∧
    getMovie asciiToLowerCase [xenomorph, aliens] (js "Alien") = .ok (some xenomorph) ∧
    getMovie asciiToLowerCase [xenomorph, aliens] (js "Alien") ≠ .ok (some aliens) := by
  decide

/-- C7, amended: for a record `m` of the collection (whose records all have a name), an
alias `a` of `m` and a query equal to `a` ignoring case, `getMovie` returns the first
record whose name equals the query ignoring case if there is one, and otherwise the
first record having an alias equal to the query ignoring case; that record is `m` when
no record has such a name and no record before `m` has such an alias. -/
theorem getMovie_by_alias (toLowerCase : JsString → JsString) (movies : List Movie)
    (m : Movie) (as : List JsString) (a q : JsString) (h : ∀ x ∈ movies, x.name ≠ none)
    (hm : m ∈ movies) (has : m.aliases = some as) (ha : a ∈ as)
    (hq : toLowerCase q = toLowerCase a) :
    ∃ r, getMovie toLowerCase movies q = .ok (some r) ∧
      (FirstWith (NameEq toLowerCase q) movies r ∨
        ((∀ x ∈ movies, ¬ NameEq toLowerCase q x) ∧
          FirstWith (AliasEq toLowerCase q) movies r)) ∧
      ((∀ x ∈ movies, ¬ NameEq toLowerCase q x) →
        FirstWith (AliasEq toLowerCase q) movies m → r = m) := by
  have hmatch : aliasEqualsB toLowerCase q m = true :=
    (aliasEqualsB_iff toLowerCase q m).mpr ⟨as, a, has, ha, hq.symm⟩
  cases hname : movies.find? (nameEqualsB toLowerCase q) with
  | some r =>
    refine ⟨r, getMovie_of_name_found toLowerCase movies q h r hname,
      Or.inl (firstWith_of_find _ _ (nameEqualsB_iff toLowerCase q) movies r hname), ?_⟩
    intro hno _
    have := (find_none_iff _ _ (nameEqualsB_iff toLowerCase q) movies).mpr hno
    rw [hname] at this
    exact absurd this (by simp)
  | none =>
    cases hfind : movies.find? (aliasEqualsB toLowerCase q) with
    | none =>
      rw [List.find?_eq_none] at hfind
      exact absurd hmatch (hfind m hm)
    | some r =>
      refine ⟨r, getMovie_of_alias_found toLowerCase movies q h r hname hfind,
        Or.inr ⟨(find_none_iff _ _ (nameEqualsB_iff toLowerCase q) movies).mp hname,
          firstWith_of_find _ _ (aliasEqualsB_iff toLowerCase q) movies r hfind⟩, ?_⟩
      intro _ hfirst
      have := find_of_firstWith _ _ (aliasEqualsB_iff toLowerCase q) movies m hfirst
      rw [hfind] at this
      exact Option.some.inj this

/-- Witness of C7 as amended: the lookup of "ALIEN", an alias of the second record. -/
theorem getMovie_by_alias_witness :
    ∃ r, getMovie asciiToLowerCase [dune, xenomorph] (js "ALIEN") = .ok (some r) ∧
      (FirstWith (NameEq asciiToLowerCase (js "ALIEN")) [dune, xenomorph] r ∨
        ((∀ x ∈ [dune, xenomorph], ¬ NameEq asciiToLowerCase (js "ALIEN") x) ∧
          FirstWith (AliasEq asciiToLowerCase (js "ALIEN")) [dune, xenomorph] r)) ∧
      ((∀ x ∈ [dune, xenomorph], ¬ NameEq asciiToLowerCase (js "ALIEN") x) →
        FirstWith (AliasEq asciiToLowerCase (js "ALIEN")) [dune, xenomorph] xenomorph →
          r = xenomorph) :=
  getMovie_by_alias asciiToLowerCase [dune, xenomorph] xenomorph [js "Alien"] (js "Alien")
    (js "ALIEN")
    (by
      intro x hx
      simp only [List.mem_cons, List.mem_singleton, List.not_mem_nil, or_false] at hx
      rcases hx with rfl | rfl <;> decide)
    (by decide) rfl (by decide) (by decide)

/-- C8, counterexample: the only record has the id "custom_17" and the name "Alpha";
the query "CUSTOM_17" matches no name and no alias, differs from the id in letter case
only, and `getMovie` returns `null`, while "custom_17" finds the record.  And when the
number 17 and the string "17" are both ids, the query "17" returns the record that
comes first, not the one whose id is the string. -/
theorem getMovie_id_is_case_sensitive :
    alpha ∈ [alpha] ∧ alpha.id = some (JsId.str (js "custom_17")) ∧
    asciiToLowerCase (js "CUSTOM_17") = asciiToLowerCase (js "custom_17") ∧
    getMovie asciiToLowerCase [alpha] (js "CUSTOM_17") = .ok none ∧
    getMovie asciiToLowerCase [alpha] (js "custom_17") = .ok (some alpha) ∧
    gamma ∈ [beta, gamma] ∧ gamma.id = some (JsId.str (js "17")) ∧
    getMovie asciiToLowerCase [beta, gamma] (js "17") = .ok (some beta) ∧
    getMovie asciiToLowerCase [beta, gamma] (js "17") ≠ .ok (some gamma) := by
  decide

/-- C8, amended: on a collection whose records all have a name and an id, when no
record's name or alias equals the query ignoring case, a record `m` with a string id is
matched by its id exactly when the query is that id, letter case included; for such a
query `getMovie` returns the first record whose id equals the query, which is `m` when
no record before `m` has such an id. -/
theorem getMovie_by_string_id (toLowerCase : JsString → JsString) (movies : List Movie)
    (m : Movie) (s q : JsString) (h : ∀ x ∈ movies, x.name ≠ none ∧ x.id ≠ none)
    (hno : ∀ x ∈ movies, ¬ NameEq toLowerCase q x ∧ ¬ AliasEq toLowerCase q x)
    (hm : m ∈ movies) (hid : m.id = some (JsId.str s)) :
    (IdEq q m ↔ s = q) ∧
    (s = q → ∃ r, getMovie toLowerCase movies q = .ok (some r) ∧
      FirstWith (IdEq q) movies r ∧ (FirstWith (IdEq q) movies m → r = m)) := by
  have hiff : IdEq q m ↔ s = q := by
    unfold IdEq
    rw [hid]
    simp
  refine ⟨hiff, ?_⟩
  intro hsq
  have hmatch : idEqualsB q m = true := (idEqualsB_iff q m).mpr (hiff.mpr hsq)
  rw [getMovie_eq toLowerCase movies q h,
    (find_none_iff _ _ (nameEqualsB_iff toLowerCase q) movies).mpr (fun x hx => (hno x hx).1),
    (find_none_iff _ _ (aliasEqualsB_iff toLowerCase q) movies).mpr (fun x hx => (hno x hx).2)]
  cases hfind : movies.find? (idEqualsB q) with
  | none =>
    rw [List.find?_eq_none] at hfind
    exact absurd hmatch (hfind m hm)
  | some r =>
    refine ⟨r, rfl, firstWith_of_find _ _ (idEqualsB_iff q) movies r hfind, ?_⟩
    intro hfirst
    have := find_of_firstWith _ _ (idEqualsB_iff q) movies m hfirst
    rw [hfind] at this
    exact Option.some.inj this

/-- Witness of C8 as amended: the lookup of "custom_17", the id of the second record. -/
theorem getMovie_by_string_id_witness :
    (IdEq (js "custom_17") alpha ↔ js "custom_17" = js "custom_17") ∧
    (js "custom_17" = js "custom_17" →
      ∃ r, getMovie asciiToLowerCase [dune, alpha] (js "custom_17") = .ok (some r) ∧
        FirstWith (IdEq (js "custom_17")) [dune, alpha] r ∧
        (FirstWith (IdEq (js "custom_17")) [dune, alpha] alpha → r = alpha)) :=
  getMovie_by_string_id asciiToLowerCase [dune, alpha] alpha (js "custom_17") (js "custom_17")
    (by
      intro x hx
      simp only [List.mem_cons, List.mem_singleton, List.not_mem_nil, or_false] at hx
      rcases hx with rfl | rfl <;> exact ⟨by decide, by decide⟩)
    (by
      intro x hx
      simp only [List.mem_cons, List.mem_singleton, List.not_mem_nil, or_false] at hx
      rcases hx with rfl | rfl
      · rw [← nameEqualsB_iff, ← aliasEqualsB_iff]
        exact ⟨by decide, by decide⟩
      · rw [← nameEqualsB_iff, ← aliasEqualsB_iff]
        exact ⟨by decide, by decide⟩)
    (by decide) rfl

/-! ## /requestmovie: results -/

theorem isDuplicate_iff (toLowerCase : JsString → JsString) (title : JsString) (r : Request) :
    requestmovie.isDuplicate toLowerCase title r = true ↔ PendingFor toLowerCase title r := by
  unfold requestmovie.isDuplicate PendingFor
  simp only [Bool.and_eq_true, beq_iff_eq]
  exact And.comm

theorem addRequest_of_pending (now : JsString) (requests : List Request) (request : Request)
    (hstatus : request.status = some pending) :
    ∃ new, addRequest now requests request = requests ++ [new] ∧
      new.movieName = request.movieName ∧ new.requestedBy = request.requestedBy ∧
      new.status = some pending := by
  have hp : stringMissing (some pending) = false := by decide
  unfold addRequest
  refine ⟨_, rfl, ?_, ?_, ?_⟩
  · split_ifs <;> rfl
  · split_ifs <;> rfl
  · split_ifs <;> simp_all

/-- C9: for a title that `getMovie` does not resolve, `/requestmovie` answers "duplicate
request", leaving `requests.json` as it is, exactly when some request with status
`pending` has a `movieName` equal to the title ignoring case; otherwise it submits the
request, appending one pending record with that title.  After "Inception" is requested,
requesting "inception" is refused; a fulfilled or rejected request for the same title,
and pending requests whose title contains the title or is contained in it, do not
block the request. -/
theorem requestmovie_duplicate_iff (toLowerCase : JsString → JsString) (movies : List Movie)
    (requests : List Request) (title uuid userId now guildId guildName : JsString)
    (hnone : getMovie toLowerCase movies title = .ok none) :
    (∃ reply after,
      requestmovie.execute toLowerCase movies requests title uuid userId now guildId guildName
        = .ok (reply, after) ∧
      ((∃ d, reply = requestmovie.Reply.duplicateRequest d) ↔
        ∃ r ∈ requests, PendingFor toLowerCase title r) ∧
      ((∃ r ∈ requests, PendingFor toLowerCase title r) → after = requests) ∧
      ((¬ ∃ r ∈ requests, PendingFor toLowerCase title r) →
        reply = requestmovie.Reply.requestSubmitted ∧
        ∃ new, after = requests ++ [new] ∧ new.movieName = title ∧
          new.requestedBy = userId ∧ new.status = some pending)) ∧
    (requestmovie.execute asciiToLowerCase [] [] (js "Inception") (js "id-1") (js "user1")
        (js "2024-01-01T00:00:00.000Z") (js "guild1") (js "Guild")
      = .ok (requestmovie.Reply.requestSubmitted, [mkRequest "id-1" "Inception" pending]) ∧
     requestmovie.execute asciiToLowerCase [] [mkRequest "id-1" "Inception" pending]
        (js "inception") (js "id-2") (js "user2") (js "2024-01-02T00:00:00.000Z")
        (js "guild1") (js "Guild")
      = .ok (requestmovie.Reply.duplicateRequest (mkRequest "id-1" "Inception" pending),
          [mkRequest "id-1" "Inception" pending])) ∧
    (requestmovie.execute asciiToLowerCase []
        [mkRequest "a" "Inception" fulfilled, mkRequest "b" "inception" rejected,
          mkRequest "c" "Inception 2" pending, mkRequest "d" "Incept" pending]
        (js "Inception") (js "id-3") (js "user1") (js "2024-01-01T00:00:00.000Z")
        (js "guild1") (js "Guild")
      = .ok (requestmovie.Reply.requestSubmitted,
          [mkRequest "a" "Inception" fulfilled, mkRequest "b" "inception" rejected,
            mkRequest "c" "Inception 2" pending, mkRequest "d" "Incept" pending,
            mkRequest "id-3" "Inception" pending])) := by
  refine ⟨?_, by decide, by decide⟩
  unfold requestmovie.execute
  rw [hnone]
  cases hfind : requests.find? (requestmovie.isDuplicate toLowerCase title) with
  | some d =>
    have hex : ∃ r ∈ requests, PendingFor toLowerCase title r :=
      ⟨d, List.mem_of_find?_eq_some hfind,
        (isDuplicate_iff toLowerCase title d).mp (List.find?_some hfind)⟩
    refine ⟨_, _, rfl, ⟨fun _ => hex, fun _ => ⟨d, rfl⟩⟩, fun _ => rfl, fun hno => absurd hex hno⟩
  | none =>
    have hno : ¬ ∃ r ∈ requests, PendingFor toLowerCase title r := by
      rintro ⟨r, hr, hp⟩
      rw [List.find?_eq_none] at hfind
      exact hfind r hr ((isDuplicate_iff toLowerCase title r).mpr hp)
    refine ⟨_, _, rfl, ⟨?_, fun hex => absurd hex hno⟩, fun hex => absurd hex hno, fun _ => ⟨rfl, ?_⟩⟩
    · rintro ⟨d, hd⟩
      cases hd
    · exact addRequest_of_pending now requests _ rfl

/-- Witness of C9: with an empty catalogue, a pending request for "Inception" blocks the
request of "INCEPTION". -/
theorem requestmovie_duplicate_iff_witness :
    getMovie asciiToLowerCase [] (js "INCEPTION") = .ok none ∧
    ∃ reply after,
      requestmovie.execute asciiToLowerCase [] [mkRequest "a" "Inception" pending]
        (js "INCEPTION") (js "id-2") (js "user2") (js "t2") (js "g") (js "G")
        = .ok (reply, after) ∧
      ((∃ d, reply = requestmovie.Reply.duplicateRequest d) ↔
        ∃ r ∈ [mkRequest "a" "Inception" pending],
          PendingFor asciiToLowerCase (js "INCEPTION") r) ∧
      ((∃ r ∈ [mkRequest "a" "Inception" pending],
          PendingFor asciiToLowerCase (js "INCEPTION") r) →
        after = [mkRequest "a" "Inception" pending]) ∧
      ((¬ ∃ r ∈ [mkRequest "a" "Inception" pending],
          PendingFor asciiToLowerCase (js "INCEPTION") r) →
        reply = requestmovie.Reply.requestSubmitted ∧
        ∃ new, after = [mkRequest "a" "Inception" pending] ++ [new] ∧
          new.movieName = js "INCEPTION" ∧ new.requestedBy = js "user2" ∧
          new.status = some pending) :=
  ⟨rfl, (requestmovie_duplicate_iff asciiToLowerCase [] [mkRequest "a" "Inception" pending]
    (js "INCEPTION") (js "id-2") (js "user2") (js "t2") (js "g") (js "G") rfl).1⟩

/-- C10: when `getMovie` finds a record for the title, `/requestmovie` answers "movie
already exists" and leaves `requests.json` as it is; this is the case whenever a record
of the collection (whose records all have a name) is named exactly like the title. -/
theorem requestmovie_already_cataloged (toLowerCase : JsString → JsString)
    (movies : List Movie) (requests : List Request)
    (title uuid userId now guildId guildName : JsString) :
    ((∃ m, getMovie toLowerCase movies title = .ok (some m)) →
      requestmovie.execute toLowerCase movies requests title uuid userId now guildId guildName
        = .ok (requestmovie.Reply.movieAlreadyExists, requests)) ∧
    ((∀ x ∈ movies, x.name ≠ none) → (∃ m ∈ movies, m.name = some title) →
      requestmovie.execute toLowerCase movies requests title uuid userId now guildId guildName
        = .ok (requestmovie.Reply.movieAlreadyExists, requests)) := by
  have hgen : (∃ m, getMovie toLowerCase movies title = .ok (some m)) →
      requestmovie.execute toLowerCase movies requests title uuid userId now guildId guildName
        = .ok (requestmovie.Reply.movieAlreadyExists, requests) := by
    rintro ⟨m, hm⟩
    unfold requestmovie.execute
    rw [hm]
  refine ⟨hgen, ?_⟩
  rintro hnames ⟨m, hm, hn⟩
  apply hgen
  have hmatch : nameEqualsB toLowerCase title m = true :=
    (nameEqualsB_iff toLowerCase title m).mpr ⟨title, hn, rfl⟩
  cases hfind : movies.find? (nameEqualsB toLowerCase title) with
  | none =>
    rw [List.find?_eq_none] at hfind
    exact absurd hmatch (hfind m hm)
  | some r => exact ⟨r, getMovie_of_name_found toLowerCase movies title hnames r hfind⟩

/-- Witness of C10: "Dune" is in the catalogue, so its request is refused and the one
pending request stays as it is. -/
theorem requestmovie_already_cataloged_witness :
    (∃ m, getMovie asciiToLowerCase [dunePartTwo, dune] (js "Dune") = .ok (some m)) ∧
    requestmovie.execute asciiToLowerCase [dunePartTwo, dune]
        [mkRequest "a" "Inception" pending] (js "Dune") (js "id-2") (js "user2") (js "t2")
        (js "g") (js "G")
      = .ok (requestmovie.Reply.movieAlreadyExists, [mkRequest "a" "Inception" pending]) :=
  ⟨⟨dune, by decide⟩,
    (requestmovie_already_cataloged asciiToLowerCase [dunePartTwo, dune]
      [mkRequest "a" "Inception" pending] (js "Dune") (js "id-2") (js "user2") (js "t2")
      (js "g") (js "G")).1 ⟨dune, by decide⟩⟩

/-! ## The invariant of the pending requests -/

theorem noDuplicatePending_append (toLowerCase : JsString → JsString)
    (requests : List Request) (title : JsString) (new : Request)
    (hinv : NoDuplicatePending toLowerCase requests)
    (hfree : ∀ r ∈ requests, ¬ PendingFor toLowerCase title r)
    (hnew : new.movieName = title) :
    NoDuplicatePending toLowerCase (requests ++ [new]) := by
  unfold NoDuplicatePending at *
  rw [List.pairwise_append]
  refine ⟨hinv, List.pairwise_singleton _ _, ?_⟩
  intro a ha b hb
  rw [List.mem_singleton] at hb
  subst hb
  rintro ⟨hpa, _, heq⟩
  exact hfree a ha ⟨hpa, by rw [heq, hnew]⟩

theorem noDuplicatePending_filter (toLowerCase : JsString → JsString)
    (requests : List Request) (keep : Request → Bool)
    (hinv : NoDuplicatePending toLowerCase requests) :
    NoDuplicatePending toLowerCase (requests.filter keep) :=
  List.Pairwise.filter keep hinv

theorem find_isDuplicate_none (toLowerCase : JsString → JsString) (requests : List Request)
    (title : JsString)
    (h : requests.find? (requestmovie.isDuplicate toLowerCase title) = none) :
    ∀ r ∈ requests, ¬ PendingFor toLowerCase title r := by
  intro r hr hp
  rw [List.find?_eq_none] at h
  exact h r hr ((isDuplicate_iff toLowerCase title r).mpr hp)

/-- `/requestmovie` keeps the invariant of the pending requests. -/
theorem requestmovie_keeps_invariant (toLowerCase : JsString → JsString)
    (movies : List Movie) (requests : List Request)
    (title uuid userId now guildId guildName : JsString) (reply : requestmovie.Reply)
    (after : List Request) (hinv : NoDuplicatePending toLowerCase requests)
    (hrun : requestmovie.execute toLowerCase movies requests title uuid userId now guildId
      guildName = .ok (reply, after)) :
    NoDuplicatePending toLowerCase after := by
  unfold requestmovie.execute at hrun
  cases hget : getMovie toLowerCase movies title with
  | error e => rw [hget] at hrun; cases hrun
  | ok found =>
    rw [hget] at hrun
    cases found with
    | some m => cases hrun; exact hinv
    | none =>
      cases hfind : requests.find? (requestmovie.isDuplicate toLowerCase title) with
      | some d => rw [hfind] at hrun; cases hrun; exact hinv
      | none =>
        rw [hfind] at hrun
        cases hrun
        obtain ⟨new, hnew, hname, _, _⟩ := addRequest_of_pending now requests
          { id := some (JsId.str uuid), movieName := title, requestedBy := userId,
            requestedAt := some now, guildId := guildId, guildName := guildName,
            status := some pending } rfl
        rw [hnew]
        exact noDuplicatePending_append toLowerCase requests title new hinv
          (find_isDuplicate_none toLowerCase requests title hfind) hname

theorem removeRequest_snd (requests : List Request) (requestId : Option JsId) :
    (removeRequest requests requestId).2 = requests.filter fun req => req.id != requestId := by
  unfold removeRequest
  simp only []
  split_ifs with h
  · have hlen : (requests.filter fun req => req.id != requestId).length = requests.length := by
      simpa using h
    exact ((List.filter_sublist requests).eq_of_length hlen).symm
  · rfl

/-- A button press keeps the invariant of the pending requests. -/
theorem button_keeps_invariant (toLowerCase : JsString → JsString) (isAdmin : Bool)
    (movies : List Movie) (requests : List Request)
    (customId uuid userId now guildId guildName : JsString) (reply : interactionCreate.Reply)
    (after : List Request) (hinv : NoDuplicatePending toLowerCase requests)
    (hrun : interactionCreate.execute toLowerCase isAdmin movies requests customId uuid userId
      now guildId guildName = .ok (reply, after)) :
    NoDuplicatePending toLowerCase after := by
  unfold interactionCreate.execute at hrun
  split_ifs at hrun
  any_goals (cases hrun; exact hinv)
  · dsimp only at hrun
    split at hrun
    · cases hrun; exact hinv
    · split_ifs at hrun
      · cases hrun; exact hinv
      · split at hrun
        · rename_i hrem
          cases hrun
          have := removeRequest_snd requests
            (((split 95 customId).get? 1).map JsId.str)
          rw [hrem] at this
          simp only at this
          rw [this]
          exact noDuplicatePending_filter toLowerCase requests _ hinv
        · rename_i hrem
          cases hrun
          have := removeRequest_snd requests
            (((split 95 customId).get? 1).map JsId.str)
          rw [hrem] at this
          simp only at this
          rw [this]
          exact noDuplicatePending_filter toLowerCase requests _ hinv
  · dsimp only at hrun
    split_ifs at hrun
    · cases hrun; exact hinv
    split at hrun
    · cases hrun
    · split at hrun
      · cases hrun; exact hinv
      · split at hrun
        · cases hrun; exact hinv
        · rename_i hfind
          cases hrun
          obtain ⟨new, hnew, hname, _, _⟩ := addRequest_of_pending now requests
            { id := some (JsId.str uuid), movieName := trim (customId.drop 14),
              requestedBy := userId, requestedAt := some now, guildId := guildId,
              guildName := guildName, status := some pending } rfl
          rw [hnew]
          exact noDuplicatePending_append toLowerCase requests _ new hinv
            (find_isDuplicate_none toLowerCase requests _ hfind) hname

/-- C11: `/requestmovie` and the `request_movie` button refuse a title that a pending
request already has, but the automatic request of `/getmovie` is added without that
check.  With one pending request for "Inception" and no movie matching it, `/getmovie
Inception` adds a second pending request for "Inception": the invariant held before
and does not hold afterwards. -/
theorem getmovie_breaks_pending_invariant :
    NoDuplicatePending asciiToLowerCase [mkRequest "id-1" "Inception" pending] ∧
    getmovie.execute asciiToLowerCase [dunePartTwo, dune] [mkRequest "id-1" "Inception" pending]
        (js "Inception") (js "id-2") (js "user1") (js "2024-01-01T00:00:00.000Z")
        (js "guild1") (js "Guild")
      = .ok (getmovie.Reply.requestCreated,
          [mkRequest "id-1" "Inception" pending, mkRequest "id-2" "Inception" pending]) ∧
    ¬ NoDuplicatePending asciiToLowerCase
        [mkRequest "id-1" "Inception" pending, mkRequest "id-2" "Inception" pending] := by
  decide

/-! ## Creation of a request -/

theorem addRequest_of_complete (now : JsString) (requests : List Request)
    (title uuid userId guildId guildName : JsString) (huuid : uuid ≠ []) :
    addRequest now requests
        { id := some (JsId.str uuid), movieName := title, requestedBy := userId,
          requestedAt := some now, guildId := guildId, guildName := guildName,
          status := some pending }
      = requests ++ [
        { id := some (JsId.str uuid), movieName := title, requestedBy := userId,
          requestedAt := some now, guildId := guildId, guildName := guildName,
          status := some pending }] := by
  have hid : idMissing (some (JsId.str uuid)) = false := by
    cases uuid with
    | nil => exact absurd rfl huuid
    | cons c r => rfl
  have hp : stringMissing (some pending) = false := by decide
  unfold addRequest
  simp only [hid, hp, Bool.false_eq_true, if_false]
  split_ifs <;> rfl

theorem addRequest_fills (now : JsString) (requests : List Request) (request : Request) :
    ∃ new, addRequest now requests request = requests ++ [new] ∧
      new.movieName = request.movieName ∧ new.requestedBy = request.requestedBy ∧
      (stringMissing request.status = true → new.status = some pending) ∧
      (stringMissing request.status = false → new.status = request.status) ∧
      (idMissing request.id = false → new.id = request.id) := by
  unfold addRequest
  refine ⟨_, rfl, ?_, ?_, ?_, ?_, ?_⟩
  · split_ifs <;> rfl
  · split_ifs <;> rfl
  · intro h
    split_ifs <;> simp_all
  · intro h
    split_ifs <;> simp_all
  · intro h
    split_ifs <;> simp_all

/-- C12: when a request is created (by `/requestmovie`, by the `request_movie` button
or by `/getmovie`), `requests.json` holds afterwards the previous collection, in order,
followed by one record with the generated id (`uuid`, a non-empty string), the given
`movieName` and `requestedBy`, and status `pending`.  `addRequest` appends one record to
the collection it read, sets the status `pending` when none is supplied, keeps a
supplied status, and keeps a supplied id. -/
theorem request_creation_appends_pending (toLowerCase : JsString → JsString)
    (movies : List Movie) (requests : List Request)
    (title uuid userId now guildId guildName : JsString) (huuid : uuid ≠ []) :
    (∀ after, requestmovie.execute toLowerCase movies requests title uuid userId now guildId
        guildName = .ok (requestmovie.Reply.requestSubmitted, after) →
      after = requests ++ [
        { id := some (JsId.str uuid), movieName := title, requestedBy := userId,
          requestedAt := some now, guildId := guildId, guildName := guildName,
          status := some pending }]) ∧
    (∀ after, getmovie.execute toLowerCase movies requests title uuid userId now guildId
        guildName = .ok (getmovie.Reply.requestCreated, after) →
      after = requests ++ [
        { id := some (JsId.str uuid), movieName := title, requestedBy := userId,
          requestedAt := some now, guildId := guildId, guildName := guildName,
          status := some pending }]) ∧
    (∀ isAdmin customId after, interactionCreate.execute toLowerCase isAdmin movies requests
        customId uuid userId now guildId guildName
          = .ok (interactionCreate.Reply.requestSubmitted, after) →
      after = requests ++ [
        { id := some (JsId.str uuid), movieName := trim (customId.drop 14),
          requestedBy := userId, requestedAt := some now, guildId := guildId,
          guildName := guildName, status := some pending }]) ∧
    (∀ request : Request, ∃ new, addRequest now requests request = requests ++ [new] ∧
      new.movieName = request.movieName ∧ new.requestedBy = request.requestedBy ∧
      (stringMissing request.status = true → new.status = some pending) ∧
      (stringMissing request.status = false → new.status = request.status) ∧
      (idMissing request.id = false → new.id = request.id)) := by
  refine ⟨?_, ?_, ?_, addRequest_fills now requests⟩
  · intro after hrun
    unfold requestmovie.execute at hrun
    split at hrun
    · cases hrun
    · cases hrun
    · split at hrun
      · cases hrun
      · cases hrun
        exact addRequest_of_complete now requests title uuid userId guildId guildName huuid
  · intro after hrun
    unfold getmovie.execute at hrun
    dsimp only at hrun
    split at hrun
    · cases hrun
    · cases hrun
    · split at hrun
      · cases hrun
      · cases hrun
        exact addRequest_of_complete now requests title uuid userId guildId guildName huuid
  · intro isAdmin customId after hrun
    unfold interactionCreate.execute at hrun
    split_ifs at hrun
    any_goals (cases hrun)
    · dsimp only at hrun
      split at hrun
      · cases hrun
      · split_ifs at hrun
        · cases hrun
        · split at hrun <;> cases hrun
    · dsimp only at hrun
      split_ifs at hrun
      · cases hrun
      split at hrun
      · cases hrun
      · split at hrun
        · cases hrun
        · split at hrun
          · cases hrun
          · cases hrun
            exact addRequest_of_complete now requests _ uuid userId guildId guildName huuid

/-- Witness of C12: the request of "Inception" on a collection of one fulfilled request. -/
theorem request_creation_appends_pending_witness :
    js "id-2" ≠ [] ∧
    requestmovie.execute asciiToLowerCase [dune] [mkRequest "id-1" "Dune" fulfilled]
        (js "Inception") (js "id-2") (js "user1") (js "2024-01-01T00:00:00.000Z")
        (js "guild1") (js "Guild")
      = .ok (requestmovie.Reply.requestSubmitted,
          [mkRequest "id-1" "Dune" fulfilled, mkRequest "id-2" "Inception" pending]) ∧
    [mkRequest "id-1" "Dune" fulfilled, mkRequest "id-2" "Inception" pending]
      = [mkRequest "id-1" "Dune" fulfilled] ++ [
        { id := some (JsId.str (js "id-2")), movieName := js "Inception",
          requestedBy := js "user1", requestedAt := some (js "2024-01-01T00:00:00.000Z"),
          guildId := js "guild1", guildName := js "Guild", status := some pending }] :=
  ⟨by decide, by decide,
    (request_creation_appends_pending asciiToLowerCase [dune]
      [mkRequest "id-1" "Dune" fulfilled] (js "Inception") (js "id-2") (js "user1")
      (js "2024-01-01T00:00:00.000Z") (js "guild1") (js "Guild") (by decide)).1 _ (by decide)⟩

/-! ## Rejection of a request -/

theorem split_of_not_mem (sep : Nat) (s : JsString) (h : sep ∉ s) : split sep s = [s] := by
  induction s with
  | nil => rfl
  | cons c r ih =>
    have hc : c ≠ sep := fun e => h (e ▸ List.mem_cons_self _ _)
    have hr : sep ∉ r := fun e => h (List.mem_cons_of_mem _ e)
    simp [split, hc, ih hr]

theorem split_reject (rid : JsString) (h : 95 ∉ rid) :
    (split 95 (js "reject_" ++ rid)).get? 1 = some rid := by
  have hjs : js "reject_" = [114, 101, 106, 101, 99, 116, 95] := by decide
  rw [hjs]
  simp [split, split_of_not_mem 95 rid h]

/-- The `reject_<id>` branch of the button handler, for an id without an underscore. -/
theorem execute_reject (toLowerCase : JsString → JsString) (isAdmin : Bool)
    (movies : List Movie) (requests : List Request)
    (rid uuid userId now guildId guildName : JsString) (h : 95 ∉ rid) :
    interactionCreate.execute toLowerCase isAdmin movies requests (js "reject_" ++ rid) uuid
        userId now guildId guildName =
      if !isAdmin then .ok (interactionCreate.Reply.noPermission, requests)
      else
        match requests.find? (fun req => req.id == some (JsId.str rid)) with
        | none => .ok (interactionCreate.Reply.requestNotFound, requests)
        | some request =>
          if request.status != some pending then
            .ok (interactionCreate.Reply.alreadyProcessed, requests)
          else
            match removeRequest requests (some (JsId.str rid)) with
            | (false, after) => .ok (interactionCreate.Reply.removeFailed, after)
            | (true, after) => .ok (interactionCreate.Reply.requestRejected request, after) := by
  have h1 : (js "reject_" ++ rid == js "setup_guide") = false := rfl
  have h2 : startsWith (js "reject_" ++ rid) (js "download_") = false := rfl
  have h3 : (js "reject_" ++ rid == js "support_server") = false := rfl
  have h4 : startsWith (js "reject_" ++ rid) (js "reject_") = true := by
    have hjs : js "reject_" = [114, 101, 106, 101, 99, 116, 95] := by decide
    rw [hjs]
    simp [startsWith, List.isPrefixOf]
  unfold interactionCreate.execute
  simp only [h1, h2, h3, h4, split_reject rid h, Bool.false_eq_true, if_false, if_true,
    Option.map_some']

theorem removeRequest_fst (requests : List Request) (requestId : Option JsId) :
    (removeRequest requests requestId).1 = false ↔ ∀ x ∈ requests, x.id ≠ requestId := by
  have hlen : (requests.filter fun req => req.id != requestId).length = requests.length ↔
      ∀ x ∈ requests, x.id ≠ requestId := by
    constructor
    · intro h x hx
      have heq := (List.filter_sublist requests).eq_of_length h
      have := (List.filter_eq_self.mp heq) x hx
      simpa using this
    · intro h
      have : (requests.filter fun req => req.id != requestId) = requests := by
        rw [List.filter_eq_self]
        intro x hx
        simpa using h x hx
      rw [this]
  unfold removeRequest
  simp only []
  split_ifs with h
  · simp only [true_iff]
    exact hlen.mp (by simpa using h)
  · simp only [Bool.true_eq_false, false_iff]
    intro hall
    exact h (by simpa using hlen.mpr hall)

theorem removeRequest_false (requests : List Request) (requestId : Option JsId)
    (h : (removeRequest requests requestId).1 = false) :
    (removeRequest requests requestId).2 = requests := by
  rw [removeRequest_snd, List.filter_eq_self]
  intro x hx
  simpa using (removeRequest_fst requests requestId).mp h x hx

/-- C13: pressing the reject button of a request id (an id without an underscore, as
the generated ids are) leaves `requests.json` as it is whenever every record with that
id has a status other than `pending`, which includes the case that no record has the
id: the handler answers "no permission", "not found" or "already processed".  Rejecting
an already fulfilled request changes nothing. -/
theorem reject_leaves_unchanged (toLowerCase : JsString → JsString) (isAdmin : Bool)
    (movies : List Movie) (requests : List Request)
    (rid uuid userId now guildId guildName : JsString) (hrid : 95 ∉ rid)
    (h : ∀ r ∈ requests, r.id = some (JsId.str rid) → r.status ≠ some pending) :
    (∃ reply, interactionCreate.execute toLowerCase isAdmin movies requests
        (js "reject_" ++ rid) uuid userId now guildId guildName = .ok (reply, requests) ∧
      (reply = interactionCreate.Reply.noPermission ∨
        reply = interactionCreate.Reply.requestNotFound ∨
        reply = interactionCreate.Reply.alreadyProcessed) ∧
      (isAdmin = true → (reply = interactionCreate.Reply.requestNotFound ↔
        ∀ r ∈ requests, r.id ≠ some (JsId.str rid)))) ∧
    interactionCreate.execute asciiToLowerCase true [dune]
        [mkRequest "id-1" "Dune" fulfilled, mkRequest "id-2" "Alien" pending]
        (js "reject_id-1") (js "id-9") (js "admin") (js "2024-01-01T00:00:00.000Z")
        (js "guild1") (js "Guild")
      = .ok (interactionCreate.Reply.alreadyProcessed,
          [mkRequest "id-1" "Dune" fulfilled, mkRequest "id-2" "Alien" pending]) := by
  refine ⟨?_, by decide⟩
  rw [execute_reject toLowerCase isAdmin movies requests rid uuid userId now guildId
    guildName hrid]
  cases isAdmin with
  | false => exact ⟨_, rfl, Or.inl rfl, fun hc => by cases hc⟩
  | true =>
    simp only [Bool.not_true, Bool.false_eq_true, if_false]
    cases hfind : requests.find? (fun req => req.id == some (JsId.str rid)) with
    | none =>
      refine ⟨_, rfl, Or.inr (Or.inl rfl), fun _ => ⟨fun _ => ?_, fun _ => rfl⟩⟩
      intro r hr hid
      rw [List.find?_eq_none] at hfind
      exact hfind r hr (by simpa using hid)
    | some request =>
      have hmem := List.mem_of_find?_eq_some hfind
      have hid : request.id = some (JsId.str rid) := by
        simpa using List.find?_some hfind
      have hst : (request.status != some pending) = true := by
        simpa using h request hmem hid
      simp only [hst, if_true]
      refine ⟨_, rfl, Or.inr (Or.inr rfl), fun _ => ⟨?_, fun hall => ?_⟩⟩
      · intro hc
        cases hc
      · exact absurd hid (hall request hmem)

/-- Witness of C13: the reject button of an id that no record has. -/
theorem reject_leaves_unchanged_witness :
    ∃ reply, interactionCreate.execute asciiToLowerCase true [dune]
        [mkRequest "id-1" "Dune" fulfilled, mkRequest "id-2" "Alien" pending]
        (js "reject_" ++ js "id-7") (js "id-9") (js "admin") (js "2024-01-01T00:00:00.000Z")
        (js "guild1") (js "Guild")
      = .ok (reply, [mkRequest "id-1" "Dune" fulfilled, mkRequest "id-2" "Alien" pending]) ∧
      (reply = interactionCreate.Reply.noPermission ∨
        reply = interactionCreate.Reply.requestNotFound ∨
        reply = interactionCreate.Reply.alreadyProcessed) ∧
      (true = true → (reply = interactionCreate.Reply.requestNotFound ↔
        ∀ r ∈ [mkRequest "id-1" "Dune" fulfilled, mkRequest "id-2" "Alien" pending],
          r.id ≠ some (JsId.str (js "id-7")))) :=
  (reject_leaves_unchanged asciiToLowerCase true [dune]
    [mkRequest "id-1" "Dune" fulfilled, mkRequest "id-2" "Alien" pending] (js "id-7")
    (js "id-9") (js "admin") (js "2024-01-01T00:00:00.000Z") (js "guild1") (js "Guild")
    (by decide) (by decide)).1

/-- C14: a successful reject of a request id (an id without an underscore) leaves in
`requests.json` exactly the records whose id is another one, in their order: no record
with the id remains, and the record rejected was pending.  An admin's reject succeeds
when the first record with the id is pending.  `removeRequest` returns `false` exactly
when no record has the id, and then the collection is as it was. -/
theorem reject_removes_record (toLowerCase : JsString → JsString) (isAdmin : Bool)
    (movies : List Movie) (requests : List Request)
    (rid uuid userId now guildId guildName : JsString) (hrid : 95 ∉ rid) :
    (∀ r after, interactionCreate.execute toLowerCase isAdmin movies requests
        (js "reject_" ++ rid) uuid userId now guildId guildName
          = .ok (interactionCreate.Reply.requestRejected r, after) →
      after = requests.filter (fun x => x.id != some (JsId.str rid)) ∧
      (∀ x ∈ after, x.id ≠ some (JsId.str rid)) ∧
      r ∈ requests ∧ r.id = some (JsId.str rid) ∧ r.status = some pending) ∧
    (isAdmin = true →
      (∃ before r rest, requests = before ++ r :: rest ∧ r.id = some (JsId.str rid) ∧
        r.status = some pending ∧ ∀ x ∈ before, x.id ≠ some (JsId.str rid)) →
      ∃ r after, interactionCreate.execute toLowerCase isAdmin movies requests
        (js "reject_" ++ rid) uuid userId now guildId guildName
          = .ok (interactionCreate.Reply.requestRejected r, after)) ∧
    (∀ i : Option JsId,
      ((removeRequest requests i).1 = false ↔ ∀ x ∈ requests, x.id ≠ i) ∧
      ((removeRequest requests i).1 = false → (removeRequest requests i).2 = requests)) := by
  refine ⟨?_, ?_, fun i => ⟨removeRequest_fst requests i, removeRequest_false requests i⟩⟩
  · intro r after hrun
    rw [execute_reject toLowerCase isAdmin movies requests rid uuid userId now guildId
      guildName hrid] at hrun
    split_ifs at hrun
    · cases hrun
    · split at hrun
      · cases hrun
      · rename_i request hfind
        split_ifs at hrun with hst
        · cases hrun
        · have hsnd := removeRequest_snd requests (some (JsId.str rid))
          split at hrun
          · cases hrun
          · rename_i after1 hrem
            cases hrun
            rw [hrem] at hsnd
            simp only at hsnd
            refine ⟨hsnd, ?_, List.mem_of_find?_eq_some hfind, ?_, ?_⟩
            · intro x hx
              rw [hsnd] at hx
              simpa using (List.mem_filter.mp hx).2
            · simpa using List.find?_some hfind
            · simpa using hst
  · rintro hadmin ⟨before, r, rest, hreq, hid, hst, hbefore⟩
    have hfind : requests.find? (fun req => req.id == some (JsId.str rid)) = some r := by
      rw [List.find?_eq_some]
      refine ⟨by simpa using hid, before, rest, hreq, ?_⟩
      intro a ha
      simpa using hbefore a ha
    have hrem : (removeRequest requests (some (JsId.str rid))).1 = true := by
      cases hb : (removeRequest requests (some (JsId.str rid))).1 with
      | true => rfl
      | false =>
        have := (removeRequest_fst requests (some (JsId.str rid))).mp hb r
          (by rw [hreq]; simp)
        exact absurd hid this
    rw [execute_reject toLowerCase isAdmin movies requests rid uuid userId now guildId
      guildName hrid, hadmin, hfind]
    have hst1 : (r.status != some pending) = false := by simpa using hst
    simp only [Bool.not_true, Bool.false_eq_true, if_false, hst1]
    cases hpair : removeRequest requests (some (JsId.str rid)) with
    | mk b after =>
      rw [hpair] at hrem
      simp only at hrem
      subst hrem
      exact ⟨r, after, rfl⟩

/-- Witness of C14: an admin rejects the pending request "id-2". -/
theorem reject_removes_record_witness :
    interactionCreate.execute asciiToLowerCase true [dune]
        [mkRequest "id-1" "Dune" fulfilled, mkRequest "id-2" "Alien" pending,
          mkRequest "id-3" "Heat" pending]
        (js "reject_" ++ js "id-2") (js "id-9") (js "admin") (js "2024-01-01T00:00:00.000Z")
        (js "guild1") (js "Guild")
      = .ok (interactionCreate.Reply.requestRejected (mkRequest "id-2" "Alien" pending),
          [mkRequest "id-1" "Dune" fulfilled, mkRequest "id-3" "Heat" pending]) ∧
    [mkRequest "id-1" "Dune" fulfilled, mkRequest "id-3" "Heat" pending] =
      [mkRequest "id-1" "Dune" fulfilled, mkRequest "id-2" "Alien" pending,
        mkRequest "id-3" "Heat" pending].filter
          (fun x => x.id != some (JsId.str (js "id-2"))) :=
  ⟨by decide,
    ((reject_removes_record asciiToLowerCase true [dune]
      [mkRequest "id-1" "Dune" fulfilled, mkRequest "id-2" "Alien" pending,
        mkRequest "id-3" "Heat" pending] (js "id-2") (js "id-9") (js "admin")
      (js "2024-01-01T00:00:00.000Z") (js "guild1") (js "Guild") (by decide)).1
      (mkRequest "id-2" "Alien" pending)
      [mkRequest "id-1" "Dune" fulfilled, mkRequest "id-3" "Heat" pending] (by decide)).1⟩

/-! ## Fulfilment of requests -/

theorem map_ite_of_forall_not {α : Type} (p : α → Bool) (f : α → α) (l : List α)
    (h : ∀ x ∈ l, ¬ p x = true) : l.map (fun x => if p x then f x else x) = l := by
  induction l with
  | nil => rfl
  | cons x xs ih =>
    have hx : p x = false := by
      simpa using h x (List.mem_cons_self _ _)
    have ih1 := ih (fun y hy => h y (List.mem_cons_of_mem _ hy))
    simp [hx, ih1]

/-- Replacing the first element that satisfies `p` replaces every such element when at
most one element satisfies `p`. -/
theorem modifyAt_findIndex_eq_map {α : Type} (p : α → Bool) (f : α → α) (l : List α)
    (h : l.Pairwise (fun a b => ¬ (p a = true ∧ p b = true))) :
    (match findIndex p l with
      | none => l
      | some index => modifyAt f l index) = l.map (fun x => if p x then f x else x) := by
  induction l with
  | nil => rfl
  | cons x xs ih =>
    rw [List.pairwise_cons] at h
    cases hx : p x with
    | true =>
      have hxs : ∀ y ∈ xs, ¬ p y = true := fun y hy hpy => h.1 y hy ⟨hx, hpy⟩
      have hmap := map_ite_of_forall_not p f xs hxs
      simp [findIndex, hx, modifyAt, hmap]
    | false =>
      have ih1 := ih h.2
      cases hfi : findIndex p xs with
      | none =>
        rw [hfi] at ih1
        simp only at ih1
        simp [findIndex, hx, hfi, ← ih1]
      | some i =>
        rw [hfi] at ih1
        simp only at ih1
        simp [findIndex, hx, hfi, modifyAt, ← ih1]

theorem updateRequestStatus_snd (now : JsString) (requests : List Request)
    (requestId : Option JsId) (status : JsString) (additionalFields : AdditionalFields)
    (hids : DistinctIds requests) :
    (updateRequestStatus now requests requestId status additionalFields).2 =
      requests.map (fun r =>
        if r.id == requestId then statusUpdate now status additionalFields r else r) := by
  have hpair : requests.Pairwise
      (fun a b => ¬ ((a.id == requestId) = true ∧ (b.id == requestId) = true)) := by
    unfold DistinctIds at hids
    rw [List.Nodup, List.pairwise_map] at hids
    refine hids.imp ?_
    intro a b hab hboth
    simp only [beq_iff_eq] at hboth
    exact hab (hboth.1.trans hboth.2.symm)
  have := modifyAt_findIndex_eq_map (fun req : Request => req.id == requestId)
    (statusUpdate now status additionalFields) requests hpair
  rw [← this]
  unfold updateRequestStatus
  cases findIndex (fun req : Request => req.id == requestId) requests <;> rfl

theorem fulfilledBy_id (now name : JsString) (r : Request) :
    (fulfilledBy now name r).id = r.id := rfl

theorem fulfilledBy_idem (now name : JsString) (r : Request) :
    fulfilledBy now name (fulfilledBy now name r) = fulfilledBy now name r := rfl

theorem notifyOne_eq_map (notify : Request → Bool) (now name : JsString)
    (current : List Request) (q : Request) (hids : DistinctIds current) :
    savemovie.notifyOne notify now name current q =
      current.map (fun r => if notify q && r.id == q.id then fulfilledBy now name r else r) := by
  unfold savemovie.notifyOne
  cases hq : notify q with
  | false => simp
  | true =>
    simp only [if_true, Bool.true_and]
    exact updateRequestStatus_snd now current q.id fulfilled _ hids

theorem distinctIds_map (F : Request → Request) (l : List Request)
    (hF : ∀ r, (F r).id = r.id) (h : DistinctIds l) : DistinctIds (l.map F) := by
  unfold DistinctIds at *
  rw [List.map_map]
  have : ((fun r : Request => r.id) ∘ F) = fun r => r.id := funext hF
  rw [this]
  exact h

theorem foldl_notifyOne (notify : Request → Bool) (now name : JsString)
    (batch current : List Request) (hids : DistinctIds current) :
    batch.foldl (savemovie.notifyOne notify now name) current =
      current.map (fun r =>
        if batch.any (fun q => notify q && r.id == q.id) then fulfilledBy now name r else r) := by
  induction batch generalizing current with
  | nil => simp
  | cons q rest ih =>
    rw [List.foldl_cons, notifyOne_eq_map notify now name current q hids]
    have hids1 : DistinctIds (current.map (fun r =>
        if notify q && r.id == q.id then fulfilledBy now name r else r)) := by
      apply distinctIds_map _ _ _ hids
      intro r
      split_ifs <;> rfl
    rw [ih _ hids1, List.map_map]
    apply List.map_congr_left
    intro r _
    simp only [Function.comp, List.any_cons]
    by_cases h1 : (notify q && r.id == q.id) = true
    · simp only [h1, if_true, fulfilledBy_id, Bool.true_or]
      split_ifs
      · exact fulfilledBy_idem now name r
      · rfl
    · have h2 : (notify q && r.id == q.id) = false := by simpa using h1
      simp only [h2, Bool.false_eq_true, if_false, Bool.false_or]

/-- With distinct ids, `findAndNotifyRequesters` changes exactly the records that are
pending, include the name of the movie, and whose requester was notified. -/
theorem findAndNotifyRequesters_eq_map (toLowerCase : JsString → JsString)
    (notify : Request → Bool) (now : JsString) (requests : List Request) (movie : Movie)
    (name : JsString) (hname : movie.name = some name) (hids : DistinctIds requests) :
    savemovie.findAndNotifyRequesters toLowerCase notify now requests movie =
      requests.map (fun r =>
        if savemovie.isRequestFor toLowerCase name r && notify r then fulfilledBy now name r
        else r) := by
  have hfold : savemovie.findAndNotifyRequesters toLowerCase notify now requests movie =
      (requests.filter (savemovie.isRequestFor toLowerCase name)).foldl
        (savemovie.notifyOne notify now name) requests := by
    unfold savemovie.findAndNotifyRequesters
    rw [hname]
    simp only []
    split_ifs with h
    · have : requests.filter (savemovie.isRequestFor toLowerCase name) = [] := by
        simpa using h
      rw [this]
      rfl
    · rfl
  rw [hfold, foldl_notifyOne notify now name _ requests hids]
  apply List.map_congr_left
  intro r hr
  have hiff : ((requests.filter (savemovie.isRequestFor toLowerCase name)).any
      (fun q => notify q && r.id == q.id)) =
      (savemovie.isRequestFor toLowerCase name r && notify r) := by
    rw [Bool.eq_iff_iff]
    simp only [List.any_eq_true, List.mem_filter, Bool.and_eq_true, beq_iff_eq]
    constructor
    · rintro ⟨q, ⟨hq, hfor⟩, hn, hid⟩
      have : r = q := List.inj_on_of_nodup_map hids hr hq hid
      subst this
      exact ⟨hfor, hn⟩
    · rintro ⟨hfor, hn⟩
      exact ⟨r, ⟨hr, hfor⟩, hn, rfl⟩
  rw [hiff]

/-- C15, counterexample: the pending requests "dune" and "Dune Part" are substrings,
ignoring case, of the saved name "Dune Part Two"; every requester can be notified;
`findAndNotifyRequesters` leaves both requests pending. -/
theorem fulfil_skips_shorter_titles :
    includes (asciiToLowerCase (js "Dune Part Two")) (asciiToLowerCase (js "dune")) = true ∧
    includes (asciiToLowerCase (js "Dune Part Two")) (asciiToLowerCase (js "Dune Part")) = true ∧
    savemovie.findAndNotifyRequesters asciiToLowerCase (fun _ => true)
        (js "2024-02-01T00:00:00.000Z")
        [mkRequest "id-1" "dune" pending, mkRequest "id-2" "Dune Part" pending] dunePartTwo
      = [mkRequest "id-1" "dune" pending, mkRequest "id-2" "Dune Part" pending] := by
  decide

/-- C15, amended: on a collection with distinct ids, every pending request whose
`movieName` includes, ignoring case, the name of the saved movie is turned to status
`fulfilled` in the one call, with `fulfilledWith` set to that name, provided its
requester could be notified; the record keeps its place, id, title and requester. -/
theorem fulfil_marks_including_requests (toLowerCase : JsString → JsString)
    (notify : Request → Bool) (now : JsString) (requests : List Request) (movie : Movie)
    (name : JsString) (hname : movie.name = some name) (hids : DistinctIds requests) :
    ∃ F : Request → Request,
      savemovie.findAndNotifyRequesters toLowerCase notify now requests movie = requests.map F ∧
      ∀ r ∈ requests, r.status = some pending →
        includes (toLowerCase r.movieName) (toLowerCase name) = true → notify r = true →
        (F r).status = some fulfilled ∧ (F r).fulfilledWith = some name ∧
        (F r).id = r.id ∧ (F r).movieName = r.movieName ∧
        (F r).requestedBy = r.requestedBy := by
  refine ⟨_, findAndNotifyRequesters_eq_map toLowerCase notify now requests movie name hname
    hids, ?_⟩
  intro r _ hst hinc hn
  have hfor : savemovie.isRequestFor toLowerCase name r = true := by
    unfold savemovie.isRequestFor
    simp [hst, hinc]
  simp only [hfor, hn, Bool.and_self, if_true]
  exact ⟨rfl, rfl, rfl, rfl, rfl⟩

/-- Witness of C15 as amended: "Dune Part Two 2024" includes the saved name and is
fulfilled; "dune" does not and stays pending. -/
theorem fulfil_marks_including_requests_witness :
    ∃ F : Request → Request,
      savemovie.findAndNotifyRequesters asciiToLowerCase (fun _ => true)
          (js "2024-02-01T00:00:00.000Z")
          [mkRequest "id-1" "Dune Part Two 2024" pending, mkRequest "id-2" "dune" pending]
          dunePartTwo
        = [mkRequest "id-1" "Dune Part Two 2024" pending, mkRequest "id-2" "dune" pending].map F ∧
      ∀ r ∈ [mkRequest "id-1" "Dune Part Two 2024" pending, mkRequest "id-2" "dune" pending],
        r.status = some pending →
        includes (asciiToLowerCase r.movieName) (asciiToLowerCase (js "Dune Part Two")) = true →
        (fun _ => true) r = true →
        (F r).status = some fulfilled ∧ (F r).fulfilledWith = some (js "Dune Part Two") ∧
        (F r).id = r.id ∧ (F r).movieName = r.movieName ∧
        (F r).requestedBy = r.requestedBy :=
  fulfil_marks_including_requests asciiToLowerCase (fun _ => true)
    (js "2024-02-01T00:00:00.000Z")
    [mkRequest "id-1" "Dune Part Two 2024" pending, mkRequest "id-2" "dune" pending]
    dunePartTwo (js "Dune Part Two") rfl (by decide)

/-- C16: on a collection with distinct ids, `findAndNotifyRequesters` keeps the length
and the order of the collection and leaves as it is every request that is not pending
and every pending request whose `movieName` does not include the name of the saved
movie, ignoring case; in particular a pending request whose title neither includes that
name nor is included in it stays pending. -/
theorem fulfil_leaves_others_unchanged (toLowerCase : JsString → JsString)
    (notify : Request → Bool) (now : JsString) (requests : List Request) (movie : Movie)
    (name : JsString) (hname : movie.name = some name) (hids : DistinctIds requests) :
    ∃ F : Request → Request,
      savemovie.findAndNotifyRequesters toLowerCase notify now requests movie = requests.map F ∧
      (savemovie.findAndNotifyRequesters toLowerCase notify now requests movie).length
        = requests.length ∧
      (∀ r ∈ requests, r.status ≠ some pending → F r = r) ∧
      (∀ r ∈ requests, includes (toLowerCase r.movieName) (toLowerCase name) = false →
        F r = r) ∧
      (∀ r ∈ requests, r.status = some pending →
        includes (toLowerCase r.movieName) (toLowerCase name) = false →
        includes (toLowerCase name) (toLowerCase r.movieName) = false →
        F r = r ∧ (F r).status = some pending) := by
  have hmap := findAndNotifyRequesters_eq_map toLowerCase notify now requests movie name hname
    hids
  have hnot : ∀ r : Request,
      includes (toLowerCase r.movieName) (toLowerCase name) = false →
      (if savemovie.isRequestFor toLowerCase name r && notify r then fulfilledBy now name r
        else r) = r := by
    intro r hinc
    have : savemovie.isRequestFor toLowerCase name r = false := by
      unfold savemovie.isRequestFor
      simp [hinc]
    simp [this]
  refine ⟨_, hmap, by rw [hmap, List.length_map], ?_, fun r _ hinc => hnot r hinc, ?_⟩
  · intro r _ hst
    have : savemovie.isRequestFor toLowerCase name r = false := by
      unfold savemovie.isRequestFor
      simp [hst]
    simp [this]
  · intro r _ hst hinc _
    rw [hnot r hinc]
    exact ⟨rfl, hst⟩

/-- Witness of C16: a fulfilled request and an unrelated pending request stay as they
are while the request for the saved movie is fulfilled. -/
theorem fulfil_leaves_others_unchanged_witness :
    DistinctIds [mkRequest "id-1" "Dune Part Two" pending, mkRequest "id-2" "Heat" pending,
      mkRequest "id-3" "Dune Part Two" rejected] ∧
    ∃ F : Request → Request,
      savemovie.findAndNotifyRequesters asciiToLowerCase (fun _ => true)
          (js "2024-02-01T00:00:00.000Z")
          [mkRequest "id-1" "Dune Part Two" pending, mkRequest "id-2" "Heat" pending,
            mkRequest "id-3" "Dune Part Two" rejected] dunePartTwo
        = [mkRequest "id-1" "Dune Part Two" pending, mkRequest "id-2" "Heat" pending,
            mkRequest "id-3" "Dune Part Two" rejected].map F ∧
      F (mkRequest "id-2" "Heat" pending) = mkRequest "id-2" "Heat" pending ∧
      F (mkRequest "id-3" "Dune Part Two" rejected) = mkRequest "id-3" "Dune Part Two" rejected :=
  ⟨by decide,
    (fulfil_leaves_others_unchanged asciiToLowerCase (fun _ => true)
      (js "2024-02-01T00:00:00.000Z")
      [mkRequest "id-1" "Dune Part Two" pending, mkRequest "id-2" "Heat" pending,
        mkRequest "id-3" "Dune Part Two" rejected] dunePartTwo (js "Dune Part Two") rfl
      (by decide)).elim fun F hF =>
        ⟨F, hF.1, hF.2.2.2.1 _ (by decide) (by decide), hF.2.2.1 _ (by decide) (by decide)⟩⟩

/-- C17: on a collection with distinct ids and for an arbitrary notifier, what becomes
of a request depends on its own notification only.  A matching request (pending, its
title including the name of the saved movie) whose notification succeeds is marked
fulfilled at its place, whatever happens to the notifications of the others; and two
notifiers that agree on a request leave the same record at its place.  When the second
of three matching requests cannot be notified, the first and the third are fulfilled. -/
theorem fulfil_isolates_failures (toLowerCase : JsString → JsString) (now : JsString)
    (requests : List Request) (movie : Movie) (name : JsString)
    (hname : movie.name = some name) (hids : DistinctIds requests) :
    (∀ (notify : Request → Bool) (i : Nat) (r : Request), requests[i]? = some r →
      r.status = some pending →
      includes (toLowerCase r.movieName) (toLowerCase name) = true → notify r = true →
      ∃ r1, (savemovie.findAndNotifyRequesters toLowerCase notify now requests movie)[i]?
          = some r1 ∧
        r1.status = some fulfilled ∧ r1.fulfilledWith = some name ∧ r1.id = r.id) ∧
    (∀ (notify1 notify2 : Request → Bool) (i : Nat) (r : Request), requests[i]? = some r →
      notify1 r = notify2 r →
      (savemovie.findAndNotifyRequesters toLowerCase notify1 now requests movie)[i]? =
        (savemovie.findAndNotifyRequesters toLowerCase notify2 now requests movie)[i]?) ∧
    (savemovie.findAndNotifyRequesters asciiToLowerCase
        (fun r => r.requestedBy != js "user2") (js "2024-02-01T00:00:00.000Z")
        [mkRequest "id-1" "Dune" pending,
          { mkRequest "id-2" "dune 2021" pending with requestedBy := js "user2" },
          mkRequest "id-3" "DUNE (film)" pending] dune
      = [fulfilledBy (js "2024-02-01T00:00:00.000Z") (js "Dune")
            (mkRequest "id-1" "Dune" pending),
          { mkRequest "id-2" "dune 2021" pending with requestedBy := js "user2" },
          fulfilledBy (js "2024-02-01T00:00:00.000Z") (js "Dune")
            (mkRequest "id-3" "DUNE (film)" pending)]) := by
  refine ⟨?_, ?_, by decide⟩
  · intro notify i r hi hst hinc hn
    rw [findAndNotifyRequesters_eq_map toLowerCase notify now requests movie name hname hids,
      List.getElem?_map, hi]
    have hfor : savemovie.isRequestFor toLowerCase name r = true := by
      unfold savemovie.isRequestFor
      simp [hst, hinc]
    simp only [Option.map_some', hfor, hn, Bool.and_self, if_true]
    exact ⟨_, rfl, rfl, rfl, rfl⟩
  · intro notify1 notify2 i r hi hagree
    rw [findAndNotifyRequesters_eq_map toLowerCase notify1 now requests movie name hname hids,
      findAndNotifyRequesters_eq_map toLowerCase notify2 now requests movie name hname hids,
      List.getElem?_map, List.getElem?_map, hi]
    simp only [Option.map_some', hagree]

/-- Witness of C17: the notifier fails for "user2" only; the request of "user1" placed
after it is fulfilled. -/
theorem fulfil_isolates_failures_witness :
    ∃ r1, (savemovie.findAndNotifyRequesters asciiToLowerCase
        (fun r => r.requestedBy != js "user2") (js "2024-02-01T00:00:00.000Z")
        [{ mkRequest "id-2" "dune 2021" pending with requestedBy := js "user2" },
          mkRequest "id-3" "DUNE (film)" pending] dune)[1]? = some r1 ∧
      r1.status = some fulfilled ∧ r1.fulfilledWith = some (js "Dune") ∧
      r1.id = (mkRequest "id-3" "DUNE (film)" pending).id :=
  (fulfil_isolates_failures asciiToLowerCase (js "2024-02-01T00:00:00.000Z")
    [{ mkRequest "id-2" "dune 2021" pending with requestedBy := js "user2" },
      mkRequest "id-3" "DUNE (film)" pending] dune (js "Dune") rfl (by decide)).1
    (fun r => r.requestedBy != js "user2") 1 (mkRequest "id-3" "DUNE (film)" pending) rfl
    rfl (by decide) (by decide)

/-! ## Terminal states -/

theorem terminalPreserved_refl (requests : List Request) :
    TerminalPreserved requests requests :=
  Or.inr (Or.inl ⟨fun _ => true, by simp⟩)

theorem terminalPreserved_filter (requests : List Request) (keep : Request → Bool) :
    TerminalPreserved requests (requests.filter keep) :=
  Or.inr (Or.inl ⟨keep, rfl⟩)

theorem terminalPreserved_append (requests : List Request) (new : Request)
    (h : new.status = some pending) : TerminalPreserved requests (requests ++ [new]) :=
  Or.inl ⟨new, rfl, h⟩

theorem requestmovie_shape (toLowerCase : JsString → JsString) (movies : List Movie)
    (requests : List Request) (title uuid userId now guildId guildName : JsString)
    (reply : requestmovie.Reply) (after : List Request)
    (hrun : requestmovie.execute toLowerCase movies requests title uuid userId now guildId
      guildName = .ok (reply, after)) :
    after = requests ∨ ∃ new, after = requests ++ [new] ∧ new.status = some pending := by
  unfold requestmovie.execute at hrun
  split at hrun
  · cases hrun
  · cases hrun; exact Or.inl rfl
  · split at hrun
    · cases hrun; exact Or.inl rfl
    · cases hrun
      obtain ⟨new, hnew, _, _, hst⟩ := addRequest_of_pending now requests
        { id := some (JsId.str uuid), movieName := title, requestedBy := userId,
          requestedAt := some now, guildId := guildId, guildName := guildName,
          status := some pending } rfl
      exact Or.inr ⟨new, hnew, hst⟩

theorem getmovie_shape (toLowerCase : JsString → JsString) (movies : List Movie)
    (requests : List Request) (term uuid userId now guildId guildName : JsString)
    (reply : getmovie.Reply) (after : List Request)
    (hrun : getmovie.execute toLowerCase movies requests term uuid userId now guildId
      guildName = .ok (reply, after)) :
    after = requests ∨ ∃ new, after = requests ++ [new] ∧ new.status = some pending := by
  unfold getmovie.execute at hrun
  dsimp only at hrun
  split at hrun
  · cases hrun
  · cases hrun; exact Or.inl rfl
  · split at hrun
    · cases hrun; exact Or.inl rfl
    · cases hrun
      obtain ⟨new, hnew, _, _, hst⟩ := addRequest_of_pending now requests
        { id := some (JsId.str uuid), movieName := term, requestedBy := userId,
          requestedAt := some now, guildId := guildId, guildName := guildName,
          status := some pending } rfl
      exact Or.inr ⟨new, hnew, hst⟩

theorem button_shape (toLowerCase : JsString → JsString) (isAdmin : Bool)
    (movies : List Movie) (requests : List Request)
    (customId uuid userId now guildId guildName : JsString) (reply : interactionCreate.Reply)
    (after : List Request)
    (hrun : interactionCreate.execute toLowerCase isAdmin movies requests customId uuid userId
      now guildId guildName = .ok (reply, after)) :
    after = requests ∨ (∃ keep : Request → Bool, after = requests.filter keep) ∨
      ∃ new, after = requests ++ [new] ∧ new.status = some pending := by
  unfold interactionCreate.execute at hrun
  split_ifs at hrun
  any_goals (cases hrun; exact Or.inl rfl)
  · dsimp only at hrun
    split at hrun
    · cases hrun; exact Or.inl rfl
    · split_ifs at hrun
      · cases hrun; exact Or.inl rfl
      · have hsnd := removeRequest_snd requests (((split 95 customId).get? 1).map JsId.str)
        split at hrun
        · rename_i hrem
          cases hrun
          rw [hrem] at hsnd
          exact Or.inr (Or.inl ⟨_, hsnd⟩)
        · rename_i hrem
          cases hrun
          rw [hrem] at hsnd
          exact Or.inr (Or.inl ⟨_, hsnd⟩)
  · dsimp only at hrun
    split_ifs at hrun
    · cases hrun; exact Or.inl rfl
    split at hrun
    · cases hrun
    · split at hrun
      · cases hrun; exact Or.inl rfl
      · split at hrun
        · cases hrun; exact Or.inl rfl
        · cases hrun
          obtain ⟨new, hnew, _, _, hst⟩ := addRequest_of_pending now requests
            { id := some (JsId.str uuid), movieName := trim (customId.drop 14),
              requestedBy := userId, requestedAt := some now, guildId := guildId,
              guildName := guildName, status := some pending } rfl
          exact Or.inr (Or.inr ⟨new, hnew, hst⟩)

theorem cleanup_requests_shape (toLowerCase : JsString → JsString)
    (parseDate : JsString → Option Int) (thirtyDaysAgo : Int) (isAdmin : Bool)
    (type : cleanup.CleanupType) (dryRun : Bool) (movies : List Movie)
    (requests : List Request) :
    (cleanup.execute toLowerCase parseDate thirtyDaysAgo isAdmin type dryRun movies
        requests).2.2 = requests ∨
    (cleanup.execute toLowerCase parseDate thirtyDaysAgo isAdmin type dryRun movies
        requests).2.2 =
      requests.filter (fun request => !cleanup.isOld parseDate thirtyDaysAgo request) := by
  unfold cleanup.execute
  cases isAdmin with
  | false => exact Or.inl rfl
  | true =>
    cases type with
    | oldRequests =>
      dsimp only
      split_ifs <;> first | exact Or.inl rfl | exact Or.inr rfl
    | duplicateMovies =>
      dsimp only
      cases scan : cleanup.scanDuplicates toLowerCase movies [] with
      | none => exact Or.inl rfl
      | some found =>
        dsimp only
        split_ifs <;> exact Or.inl rfl
    | full =>
      dsimp only
      cases scan : cleanup.scanDuplicates toLowerCase movies [] with
      | none => exact Or.inl rfl
      | some found =>
        dsimp only
        split_ifs <;> first | exact Or.inl rfl | exact Or.inr rfl

theorem fulfil_terminalPreserved (toLowerCase : JsString → JsString)
    (notify : Request → Bool) (now : JsString) (requests : List Request) (movie : Movie)
    (hids : DistinctIds requests) :
    TerminalPreserved requests
      (savemovie.findAndNotifyRequesters toLowerCase notify now requests movie) := by
  cases hname : movie.name with
  | none =>
    have : savemovie.findAndNotifyRequesters toLowerCase notify now requests movie
        = requests := by
      unfold savemovie.findAndNotifyRequesters
      rw [hname]
    rw [this]
    exact terminalPreserved_refl requests
  | some name =>
    rw [findAndNotifyRequesters_eq_map toLowerCase notify now requests movie name hname hids]
    refine Or.inr (Or.inr ⟨fun r =>
      if savemovie.isRequestFor toLowerCase name r && notify r then fulfilledBy now name r
      else r, rfl, ?_, ?_⟩)
    · intro r hst
      have : savemovie.isRequestFor toLowerCase name r = false := by
        unfold savemovie.isRequestFor
        simp [hst]
      simp [this]
    · intro r
      by_cases hc : (savemovie.isRequestFor toLowerCase name r && notify r) = true
      · right
        have hfor : savemovie.isRequestFor toLowerCase name r = true := by
          simp only [Bool.and_eq_true] at hc
          exact hc.1
        unfold savemovie.isRequestFor at hfor
        simp only [Bool.and_eq_true, beq_iff_eq] at hfor
        refine ⟨hfor.1, ?_⟩
        simp only [hc, if_true]
        rfl
      · left
        simp only [hc, if_false, Bool.false_eq_true]

/-- A collection that is neither the collection before with one record more, nor a part
of it, and that holds at some position a record other than the one that was there and
was not pending, is not the result of an operation `TerminalPreserved` admits. -/
theorem not_terminalPreserved_of_changed (before after : List Request) (i : Nat)
    (r a : Request) (hlen : after.length = before.length) (hr : before.get? i = some r)
    (ha : after.get? i = some a) (hst : r.status ≠ some pending) (hne : a ≠ r) :
    ¬ TerminalPreserved before after := by
  rintro (⟨new, h, _⟩ | ⟨keep, h⟩ | ⟨F, h, hF, _⟩)
  · rw [h] at hlen
    simp at hlen
  · have hsub : List.Sublist after before := h ▸ List.filter_sublist before
    have heq : after = before := hsub.eq_of_length hlen
    rw [heq, hr] at ha
    exact hne (Option.some.inj ha).symm
  · rw [h, List.get?_eq_getElem?, List.getElem?_map, ← List.get?_eq_getElem?, hr] at ha
    simp only [Option.map_some'] at ha
    rw [hF r hst] at ha
    exact hne (Option.some.inj ha).symm

/-- The reopening of a processed request is excluded: the change `updateRequestStatus`
makes to a fulfilled record when it is handed the status pending, and the change of a
rejected record to pending next to an untouched record. -/
theorem terminalPreserved_excludes_reopening :
    ¬ TerminalPreserved [mkRequest "id-1" "Dune" fulfilled]
      (updateRequestStatus (js "2024-02-01T00:00:00.000Z")
        [mkRequest "id-1" "Dune" fulfilled] (some (JsId.str (js "id-1"))) pending {}).2 ∧
    ¬ TerminalPreserved [mkRequest "id-1" "Heat" pending, mkRequest "id-2" "Dune" rejected]
      [mkRequest "id-1" "Heat" pending, mkRequest "id-2" "Dune" pending] := by
  constructor
  · exact not_terminalPreserved_of_changed _ _ 0 (mkRequest "id-1" "Dune" fulfilled)
      (statusUpdate (js "2024-02-01T00:00:00.000Z") pending {}
        (mkRequest "id-1" "Dune" fulfilled))
      (by decide) (by decide) (by decide) (by decide) (by decide)
  · exact not_terminalPreserved_of_changed _ _ 1 (mkRequest "id-2" "Dune" rejected)
      (mkRequest "id-2" "Dune" pending) (by decide) (by decide) (by decide) (by decide)
      (by decide)

/-- Under an operation `TerminalPreserved` admits, a record that was not pending is
still in the collection as it was, unless the operation only dropped records; and
every record of the collection afterwards is a record of the collection before, or
is pending, or is fulfilled. -/
theorem terminalPreserved_records (before after : List Request)
    (h : TerminalPreserved before after) :
    (∀ r ∈ before, r.status ≠ some pending →
      r ∈ after ∨ ∃ keep : Request → Bool, after = before.filter keep ∧ keep r = false) ∧
    (∀ a ∈ after, a ∈ before ∨ a.status = some pending ∨ a.status = some fulfilled) := by
  rcases h with ⟨new, h, hst⟩ | ⟨keep, h⟩ | ⟨F, h, hF, hstat⟩
  · subst h
    refine ⟨fun r hr _ => Or.inl (List.mem_append_left _ hr), fun a ha => ?_⟩
    rcases List.mem_append.mp ha with ha | ha
    · exact Or.inl ha
    · rw [List.mem_singleton] at ha
      subst ha
      exact Or.inr (Or.inl hst)
  · subst h
    refine ⟨fun r hr _ => ?_, fun a ha => Or.inl (List.mem_filter.mp ha).1⟩
    cases hk : keep r with
    | true => exact Or.inl (List.mem_filter.mpr ⟨hr, hk⟩)
    | false => exact Or.inr ⟨keep, rfl, hk⟩
  · subst h
    refine ⟨fun r hr hst => Or.inl ?_, fun a ha => ?_⟩
    · rw [List.mem_map]
      exact ⟨r, hr, hF r hst⟩
    · obtain ⟨r, hr, rfl⟩ := List.mem_map.mp ha
      by_cases hp : r.status = some pending
      · rcases hstat r with h1 | ⟨_, h2⟩
        · exact Or.inr (Or.inl (h1.trans hp))
        · exact Or.inr (Or.inr h2)
      · rw [hF r hp]
        exact Or.inl hr

/-- C18, counterexample: `updateRequestStatus` sets the status it is given on the record
with the given id, whatever status the record has: a fulfilled record becomes pending
again, and a rejected record becomes fulfilled. -/
theorem terminal_status_can_change :
    ((updateRequestStatus (js "2024-02-01T00:00:00.000Z")
        [mkRequest "id-1" "Dune" fulfilled] (some (JsId.str (js "id-1"))) pending {}).2.map
      fun r => r.status) = [some pending] ∧
    ((updateRequestStatus (js "2024-02-01T00:00:00.000Z")
        [mkRequest "id-1" "Dune" rejected] (some (JsId.str (js "id-1"))) fulfilled {}).2.map
      fun r => r.status) = [some fulfilled] := by
  decide

/-- C18, amended: every operation of the program on a collection with distinct ids (a
request made by `/requestmovie`, `/getmovie` or a button, a rejection, the fulfilment
after a save, a cleanup) does one of three things: it appends one pending record and
leaves the others in place; or it drops records and leaves the others as they were; or
it changes records in place, and then a record that was fulfilled or rejected is
exactly as it was and a pending record stays pending or becomes fulfilled.  So a record
that was fulfilled or rejected is afterwards in the collection as it was, unless the
operation dropped it, and the only status change made is pending to fulfilled.
`updateRequestStatus` itself gives the status it is handed to the record with the given
id and leaves the other records. -/
theorem lifecycle_preserves_terminal (toLowerCase : JsString → JsString)
    (before after : List Request) (hstep : LifecycleStep toLowerCase before after)
    (hids : DistinctIds before) :
    TerminalPreserved before after ∧
    (∀ r ∈ before, r.status ≠ some pending →
      r ∈ after ∨ ∃ keep : Request → Bool, after = before.filter keep ∧ keep r = false) ∧
    (∀ a ∈ after, a ∈ before ∨ a.status = some pending ∨ a.status = some fulfilled) ∧
    ∀ (now : JsString) (requestId : Option JsId) (status : JsString)
      (additionalFields : AdditionalFields),
      (updateRequestStatus now before requestId status additionalFields).2 =
        before.map (fun r =>
          if r.id == requestId then statusUpdate now status additionalFields r else r) := by
  suffices hmain : TerminalPreserved before after from
    ⟨hmain, (terminalPreserved_records before after hmain).1,
      (terminalPreserved_records before after hmain).2,
      fun now requestId status additionalFields =>
        updateRequestStatus_snd now before requestId status additionalFields hids⟩
  cases hstep
  case requestmovie movies title uuid userId now guildId guildName reply hrun =>
    rcases requestmovie_shape toLowerCase movies before title uuid userId now guildId
      guildName reply after hrun with h | ⟨new, h, hst⟩
    · rw [h]; exact terminalPreserved_refl before
    · rw [h]; exact terminalPreserved_append before new hst
  case getmovie movies term uuid userId now guildId guildName reply hrun =>
    rcases getmovie_shape toLowerCase movies before term uuid userId now guildId
      guildName reply after hrun with h | ⟨new, h, hst⟩
    · rw [h]; exact terminalPreserved_refl before
    · rw [h]; exact terminalPreserved_append before new hst
  case button isAdmin movies customId uuid userId now guildId guildName reply hrun =>
    rcases button_shape toLowerCase isAdmin movies before customId uuid userId now guildId
      guildName reply after hrun with h | ⟨keep, h⟩ | ⟨new, h, hst⟩
    · rw [h]; exact terminalPreserved_refl before
    · rw [h]; exact terminalPreserved_filter before keep
    · rw [h]; exact terminalPreserved_append before new hst
  case fulfil notify now movie =>
    exact fulfil_terminalPreserved toLowerCase notify now before movie hids
  case cleanup parseDate thirtyDaysAgo isAdmin type dryRun movies =>
    rcases cleanup_requests_shape toLowerCase parseDate thirtyDaysAgo isAdmin type dryRun
      movies before with h | h
    · rw [h]; exact terminalPreserved_refl before
    · rw [h]; exact terminalPreserved_filter before _

/-- Witness of C18 as amended: the fulfilment after "Dune" is saved, on a collection of
a rejected and a pending request with distinct ids; the rejected record stays as it
was and the pending one becomes fulfilled. -/
theorem lifecycle_preserves_terminal_witness :
    DistinctIds [mkRequest "id-1" "Heat" rejected, mkRequest "id-2" "Dune" pending] ∧
    TerminalPreserved [mkRequest "id-1" "Heat" rejected, mkRequest "id-2" "Dune" pending]
      (savemovie.findAndNotifyRequesters asciiToLowerCase (fun _ => true)
        (js "2024-02-01T00:00:00.000Z")
        [mkRequest "id-1" "Heat" rejected, mkRequest "id-2" "Dune" pending] dune) ∧
    savemovie.findAndNotifyRequesters asciiToLowerCase (fun _ => true)
        (js "2024-02-01T00:00:00.000Z")
        [mkRequest "id-1" "Heat" rejected, mkRequest "id-2" "Dune" pending] dune =
      [mkRequest "id-1" "Heat" rejected,
        fulfilledBy (js "2024-02-01T00:00:00.000Z") (js "Dune")
          (mkRequest "id-2" "Dune" pending)] :=
  ⟨by decide,
    (lifecycle_preserves_terminal asciiToLowerCase
      [mkRequest "id-1" "Heat" rejected, mkRequest "id-2" "Dune" pending] _
      (LifecycleStep.fulfil (fun _ => true) (js "2024-02-01T00:00:00.000Z")
        [mkRequest "id-1" "Heat" rejected, mkRequest "id-2" "Dune" pending] dune)
      (by decide)).1,
    by decide⟩

/-! ## Cleanup of old requests -/

theorem isOld_iff (parseDate : JsString → Option Int) (thirtyDaysAgo : Int) (r : Request) :
    cleanup.isOld parseDate thirtyDaysAgo r = true ↔
      r.status ≠ some pending ∧ OlderThan parseDate thirtyDaysAgo r := by
  unfold cleanup.isOld OlderThan
  cases r.requestedAt with
  | none => simp
  | some text =>
    cases h : parseDate text with
    | none => simp [h]
    | some t => simp [h, and_comm]

theorem filter_not_isOld (parseDate : JsString → Option Int) (thirtyDaysAgo : Int)
    (requests : List Request) :
    requests.filter (fun request => !cleanup.isOld parseDate thirtyDaysAgo request) =
      requests.filter (fun r =>
        decide (r.status = some pending ∨ ¬ OlderThan parseDate thirtyDaysAgo r)) := by
  apply List.filter_congr
  intro r _
  rw [Bool.eq_iff_iff]
  simp only [Bool.not_eq_true', decide_eq_true_iff]
  rw [← Bool.not_eq_true, isOld_iff]
  by_cases h : r.status = some pending <;> simp [h]

theorem filter_isOld (parseDate : JsString → Option Int) (thirtyDaysAgo : Int)
    (requests : List Request) :
    requests.filter (cleanup.isOld parseDate thirtyDaysAgo) =
      requests.filter (fun r =>
        decide (r.status ≠ some pending ∧ OlderThan parseDate thirtyDaysAgo r)) := by
  apply List.filter_congr
  intro r _
  rw [Bool.eq_iff_iff, isOld_iff]
  simp only [decide_eq_true_iff]

theorem filter_not_eq_self_of_filter_nil {α : Type} (p : α → Bool) (l : List α)
    (h : (l.filter p).length = 0) : l.filter (fun x => !p x) = l := by
  rw [List.filter_eq_self]
  intro x hx
  have hnil : l.filter p = [] := List.length_eq_zero.mp h
  cases hp : p x with
  | false => rfl
  | true =>
    have : x ∈ l.filter p := List.mem_filter.mpr ⟨hx, hp⟩
    rw [hnil] at this
    cases this

theorem length_filter_add_length_filter_not {α : Type} (p : α → Bool) (l : List α) :
    (l.filter p).length + (l.filter (fun x => !p x)).length = l.length := by
  induction l with
  | nil => rfl
  | cons x xs ih =>
    cases hp : p x <;> simp [List.filter_cons, hp] <;> omega

theorem scanDuplicates_isSome (toLowerCase : JsString → JsString) (movies : List Movie)
    (h : ∀ m ∈ movies, m.name ≠ none) (seenNames : List JsString) :
    ∃ r, cleanup.scanDuplicates toLowerCase movies seenNames = some r := by
  induction movies generalizing seenNames with
  | nil => exact ⟨_, rfl⟩
  | cons m ms ih =>
    have hm := h m (List.mem_cons_self _ _)
    have ih1 := ih (fun x hx => h x (List.mem_cons_of_mem _ hx))
    cases hn : m.name with
    | none => exact absurd hn hm
    | some n =>
      unfold cleanup.scanDuplicates
      rw [hn]
      simp only []
      split_ifs
      · obtain ⟨r, hr⟩ := ih1 seenNames
        rw [hr]
        exact ⟨_, rfl⟩
      · exact ih1 _

/-- C19: run by an admin and not as a dry run, the cleanup of old requests leaves in
`requests.json` exactly the requests that are pending or not older than the date thirty
days ago, in their order; it drops exactly the requests that are both not pending and
older, and reports their number.  The full cleanup does the same to the requests when
every movie has a name.  On the first of March a pending request of forty days and a
rejected request of ten days stay, and a rejected request of forty days is dropped. -/
theorem cleanup_drops_old_processed (toLowerCase : JsString → JsString)
    (parseDate : JsString → Option Int) (thirtyDaysAgo : Int) (movies : List Movie)
    (requests : List Request) :
    cleanup.execute toLowerCase parseDate thirtyDaysAgo true cleanup.CleanupType.oldRequests
        false movies requests =
      (cleanup.Reply.oldRequests
          (requests.filter (fun r =>
            decide (r.status ≠ some pending ∧ OlderThan parseDate thirtyDaysAgo r))).length,
        movies,
        requests.filter (fun r =>
          decide (r.status = some pending ∨ ¬ OlderThan parseDate thirtyDaysAgo r))) ∧
    (requests.filter (fun r =>
        decide (r.status ≠ some pending ∧ OlderThan parseDate thirtyDaysAgo r))).length +
      (requests.filter (fun r =>
        decide (r.status = some pending ∨ ¬ OlderThan parseDate thirtyDaysAgo r))).length
      = requests.length ∧
    ((∀ m ∈ movies, m.name ≠ none) →
      ∃ duplicates kept,
        cleanup.execute toLowerCase parseDate thirtyDaysAgo true cleanup.CleanupType.full
            false movies requests =
          (cleanup.Reply.full
              (requests.filter (fun r =>
                decide (r.status ≠ some pending ∧
                  OlderThan parseDate thirtyDaysAgo r))).length duplicates,
            kept,
            requests.filter (fun r =>
              decide (r.status = some pending ∨ ¬ OlderThan parseDate thirtyDaysAgo r)))) ∧
    (isoToMillis (js "2024-03-01T12:00:00.000Z") = some 1709294400000 ∧
      cleanup.execute asciiToLowerCase isoToMillis (1709294400000 - 30 * 86400000) true
          cleanup.CleanupType.oldRequests false [dune]
          [mkRequestAt "id-1" "Heat" pending "2024-01-21T12:00:00.000Z",
            mkRequestAt "id-2" "Alien" rejected "2024-02-20T12:00:00.000Z",
            mkRequestAt "id-3" "Dune" rejected "2024-01-21T12:00:00.000Z"] =
        (cleanup.Reply.oldRequests 1, [dune],
          [mkRequestAt "id-1" "Heat" pending "2024-01-21T12:00:00.000Z",
            mkRequestAt "id-2" "Alien" rejected "2024-02-20T12:00:00.000Z"])) := by
  refine ⟨?_, ?_, ?_, by decide, by decide⟩
  · unfold cleanup.execute
    simp only [Bool.not_true, Bool.false_eq_true, if_false, Bool.not_false, Bool.true_and]
    rw [← filter_isOld, ← filter_not_isOld]
    split_ifs with h
    · rfl
    · have hzero : (requests.filter (cleanup.isOld parseDate thirtyDaysAgo)).length = 0 := by
        simpa using h
      rw [filter_not_eq_self_of_filter_nil _ _ hzero]
  · rw [← filter_isOld, ← filter_not_isOld]
    exact length_filter_add_length_filter_not _ _
  · intro hnames
    obtain ⟨found, hfound⟩ := scanDuplicates_isSome toLowerCase movies hnames []
    refine ⟨found.2.length, cleanup.uniqueMovies toLowerCase movies found.1, ?_⟩
    unfold cleanup.execute
    simp only [Bool.not_true, Bool.false_eq_true, if_false, Bool.not_false, if_true, hfound]
    rw [← filter_isOld, ← filter_not_isOld]

/-- C20, counterexample: the record saved has an id and no `addedAt`; the record that
`getMovies` returns after `addMovie` has an `addedAt`, so it is not equal to the record
saved, though the store assigned no id. -/
theorem addMovie_adds_timestamp :
    duneSaved.id = some (JsId.str (js "693134")) ∧ duneSaved.addedAt = none ∧
    getMovies (some (addMovie (js "2024-02-01T00:00:00.000Z") (getMovies (some [alien]))
        duneSaved)) =
      [alien, { duneSaved with addedAt := some (js "2024-02-01T00:00:00.000Z") }] ∧
    getMovies (some (addMovie (js "2024-02-01T00:00:00.000Z") (getMovies (some [alien]))
        duneSaved)) ≠ [alien, duneSaved] := by
  decide

/-- C20, amended: after `addMovie(m)` the collection `getMovies` returns is the
collection it returned before, in order, followed by one record that is `m` with the
id the store assigned when `m` had none and the `addedAt` timestamp the store set when
`m` had none; every other field is that of `m`, and the record is `m` itself when `m`
had both. -/
theorem addMovie_round_trip (now : JsString) (file : Option (List Movie)) (m : Movie) :
    getMovies (some (addMovie now (getMovies file) m)) =
      getMovies file ++ [
        { m with
          id := if idMissing m.id then nextId ((getMovies file).map fun x => x.id) else m.id
          addedAt := if stringMissing m.addedAt then some now else m.addedAt }] ∧
    (idMissing m.id = false → stringMissing m.addedAt = false →
      getMovies (some (addMovie now (getMovies file) m)) = getMovies file ++ [m]) := by
  constructor
  · unfold addMovie getMovies
    simp only [Option.getD_some]
    congr 2
    split_ifs <;> rfl
  · intro hid hat
    unfold addMovie getMovies
    simp only [Option.getD_some, hid, hat, Bool.false_eq_true, if_false]

/-! ## Placement of the candidates matched off the name -/

theorem indexOfFrom_eq_neg_one_iff (t s : JsString) (i : Nat) :
    indexOfFrom t s i = -1 ↔ includes s t = false := by
  induction s generalizing i with
  | nil =>
    unfold indexOfFrom includes
    by_cases h : t.isPrefixOf [] = true
    · simp [h]
    · simp [h]
  | cons c s ih =>
    unfold indexOfFrom includes
    by_cases h : t.isPrefixOf (c :: s) = true
    · simp [h]
    · simp [h, ih]

theorem indexOf_eq_neg_one_iff (s t : JsString) :
    indexOf s t = -1 ↔ includes s t = false :=
  indexOfFrom_eq_neg_one_iff t s 0

theorem indexOf_of_startsWith (s t : JsString) (h : startsWith s t = true) :
    indexOf s t = 0 := by
  unfold startsWith at h
  unfold indexOf
  cases s with
  | nil => simp [indexOfFrom, h]
  | cons c s => simp [indexOfFrom, h]

theorem startsWith_self (s : JsString) : startsWith s s = true := by
  simp [startsWith]

theorem compareRelevance_offName (toLowerCase : JsString → JsString) (q : JsString)
    (a b : Movie) (h : compareRelevance toLowerCase q a b ≤ 0) :
    (MatchedOffName toLowerCase q b → ¬ NameContainsLater toLowerCase q a) ∧
    (MatchedOffName toLowerCase q a → ¬ NameStarts toLowerCase q b) := by
  have hex : ∀ m : Movie, (toLowerCase m.nameOrEmpty == q) = true →
      startsWith (toLowerCase m.nameOrEmpty) q = true := by
    intro m hm
    rw [beq_iff_eq] at hm
    rw [hm]
    exact startsWith_self q
  have hoff : ∀ m : Movie, MatchedOffName toLowerCase q m →
      indexOf (toLowerCase m.nameOrEmpty) q = -1 ∧
      startsWith (toLowerCase m.nameOrEmpty) q = false ∧
      (toLowerCase m.nameOrEmpty == q) = false := by
    intro m hm
    have hi := (indexOf_eq_neg_one_iff _ _).mpr hm
    have hs : startsWith (toLowerCase m.nameOrEmpty) q = false := by
      cases hst : startsWith (toLowerCase m.nameOrEmpty) q with
      | false => rfl
      | true =>
        have := indexOf_of_startsWith _ _ hst
        omega
    refine ⟨hi, hs, ?_⟩
    cases he : (toLowerCase m.nameOrEmpty == q) with
    | false => rfl
    | true =>
      have := hex m he
      rw [hs] at this
      cases this
  unfold compareRelevance at h
  dsimp only at h
  constructor
  · intro hb hlater
    obtain ⟨hbi, hbs, hbe⟩ := hoff b hb
    unfold NameContainsLater at hlater
    have has : startsWith (toLowerCase a.nameOrEmpty) q = false := by
      cases hst : startsWith (toLowerCase a.nameOrEmpty) q with
      | false => rfl
      | true =>
        have := indexOf_of_startsWith _ _ hst
        omega
    have hae : (toLowerCase a.nameOrEmpty == q) = false := by
      cases he : (toLowerCase a.nameOrEmpty == q) with
      | false => rfl
      | true =>
        have := hex a he
        rw [has] at this
        cases this
    rw [hae, hbe, has, hbs, hbi] at h
    simp at h
    split_ifs at h <;> omega
  · intro ha hb
    obtain ⟨hai, has, hae⟩ := hoff a ha
    unfold NameStarts at hb
    rw [hae, has, hb] at h
    cases hbe : (toLowerCase b.nameOrEmpty == q) <;> rw [hbe] at h <;> simp at h

/-- C29: in the list `searchMovies` returns, a record whose name does not contain the
query (it is a candidate through an alias or its TMDB title, and the index of the query
in its name is -1) stands before every record whose name contains the query at
position 1 or later, and after every record whose name starts with the query.  For
the query "alien", "Alienated" comes first, then "Xenomorph" with the alias "Alien",
then "The Alien Files". -/
theorem searchMovies_offName_placement (toLowerCase : JsString → JsString)
    (movies : List Movie) (searchTerm : JsString) :
    (searchMovies toLowerCase movies searchTerm).Pairwise (fun a b =>
      (MatchedOffName toLowerCase (trim (toLowerCase searchTerm)) b →
        ¬ NameContainsLater toLowerCase (trim (toLowerCase searchTerm)) a) ∧
      (MatchedOffName toLowerCase (trim (toLowerCase searchTerm)) a →
        ¬ NameStarts toLowerCase (trim (toLowerCase searchTerm)) b)) ∧
    searchMovies asciiToLowerCase [theAlienFiles, xenomorph, alienated] (js "alien") =
      [alienated, xenomorph, theAlienFiles] := by
  refine ⟨?_, by decide⟩
  by_cases h : searchTerm = []
  · subst h
    simp [searchMovies_of_empty]
  · rw [searchMovies_of_ne_nil _ _ _ h]
    have hs := jsSort_sorted (compareRelevance toLowerCase (trim (toLowerCase searchTerm)))
      (compareRelevance_total toLowerCase _) (compareRelevance_trans toLowerCase _)
      (movies.filter (isCandidate toLowerCase (trim (toLowerCase searchTerm))))
    exact hs.imp (fun hab => compareRelevance_offName toLowerCase _ _ _ hab)

/-! ## Generated ids -/

theorem mathMax_none_left (b : Option Int) : mathMax none b = none := by
  cases b <;> rfl

theorem foldl_mathMax_none (ids : List (Option JsId)) :
    ids.foldl (fun max i => mathMax max (idOrZero i)) none = none := by
  induction ids with
  | nil => rfl
  | cons i ids ih => simp only [List.foldl_cons, mathMax_none_left, ih]

theorem foldl_mathMax_nan (ids : List (Option JsId)) (acc : Option Int) (i : Option JsId)
    (hi : i ∈ ids) (hnan : idOrZero i = none) :
    ids.foldl (fun max i => mathMax max (idOrZero i)) acc = none := by
  induction ids generalizing acc with
  | nil => cases hi
  | cons j ids ih =>
    simp only [List.foldl_cons]
    rcases List.mem_cons.mp hi with h | h
    · subst h
      rw [hnan]
      have : mathMax acc none = none := by cases acc <;> rfl
      rw [this]
      exact foldl_mathMax_none ids
    · exact ih _ h

/-- With an id in the collection that is not the text of a number, `maxId + 1` is `NaN`,
whatever the other ids are. -/
theorem nextId_of_nan (ids : List (Option JsId)) (i : Option JsId) (hi : i ∈ ids)
    (hnan : idOrZero i = none) : nextId ids = none := by
  unfold nextId
  rw [foldl_mathMax_nan ids (some 0) i hi hnan]

theorem foldl_mathMax_num (ids : List (Option JsId)) (acc : Int)
    (hnum : ∀ i ∈ ids, ∃ n, i = some (JsId.num n)) :
    ∃ k, ids.foldl (fun max i => mathMax max (idOrZero i)) (some acc) = some k ∧ acc ≤ k ∧
      ∀ n, some (JsId.num n) ∈ ids → n ≤ k := by
  induction ids generalizing acc with
  | nil => exact ⟨acc, rfl, le_refl _, fun n hn => by cases hn⟩
  | cons j ids ih =>
    obtain ⟨n, hn⟩ := hnum j (List.mem_cons_self _ _)
    subst hn
    obtain ⟨k, hk, hle, hall⟩ := ih (max acc n) (fun i hi => hnum i (List.mem_cons_of_mem _ hi))
    refine ⟨k, ?_, le_trans (le_max_left _ _) hle, ?_⟩
    · simpa [List.foldl_cons, idOrZero, mathMax] using hk
    · intro m hm
      rcases List.mem_cons.mp hm with h | h
      · cases h
        exact le_trans (le_max_right _ _) hle
      · exact hall m h

/-- In a collection whose ids are all numbers the generated id is a number above every
one of them. -/
theorem nextId_of_numbers (ids : List (Option JsId))
    (hnum : ∀ i ∈ ids, ∃ n, i = some (JsId.num n)) :
    ∃ k, nextId ids = some (JsId.num k) ∧ 1 ≤ k ∧ ∀ n, some (JsId.num n) ∈ ids → n < k := by
  obtain ⟨k, hk, hle, hall⟩ := foldl_mathMax_num ids 0 hnum
  refine ⟨k + 1, ?_, by omega, fun n hn => ?_⟩
  · unfold nextId
    rw [hk]
  · have := hall n hn
    omega

/-- C21: in a collection that holds the id "custom_1700000000000", `addMovie` gives a
record without id the id `NaN`, which the file keeps as `null`, and not 1; a second
record added without id gets the same `null` id, so the ids it generates are not
distinct.  `addRequest` computes the id in the same way. -/
theorem addMovie_generates_nan_id :
    addMovie (js "2024-01-01T00:00:00.000Z") [customAlpha] betaNoId =
      [customAlpha, { betaNoId with id := none, addedAt := some (js "2024-01-01T00:00:00.000Z") }] ∧
    ((addMovie (js "2024-01-02T00:00:00.000Z")
        (addMovie (js "2024-01-01T00:00:00.000Z") [customAlpha] betaNoId)
        { name := some (js "Gamma") }).map fun m => m.id) =
      [some (JsId.str (js "custom_1700000000000")), none, none] ∧
    ((addRequest (js "2024-01-02T00:00:00.000Z")
        [mkRequest "3f2b6c1e-8d4a-4c57-9b1e-2a6f0c9d7e15" "Dune" pending]
        { movieName := js "Alien", requestedBy := js "user1", guildId := js "guild1",
          guildName := js "Guild" }).map fun r => r.id) =
      [some (JsId.str (js "3f2b6c1e-8d4a-4c57-9b1e-2a6f0c9d7e15")), none] ∧
    nextId [some (JsId.str (js "custom_1700000000000"))] = none ∧
    nextId [some (JsId.str (js "3f2b6c1e-8d4a-4c57-9b1e-2a6f0c9d7e15"))] = none ∧
    nextId [] = some (JsId.num 1) ∧
    nextId [some (JsId.num 4), some (JsId.num 9)] = some (JsId.num 10) := by
  decide

/-! ## The candidates of /getmovie -/

theorem matchesTerm_eq_isCandidate (toLowerCase : JsString → JsString) (q : JsString)
    (m : Movie) : getmovie.matchesTerm toLowerCase q m = isCandidate toLowerCase q m := rfl

theorem compareCandidates_eq_compareRelevance (toLowerCase : JsString → JsString)
    (q : JsString) (a b : Movie) :
    getmovie.compareCandidates toLowerCase q a b = compareRelevance toLowerCase q a b := rfl

/-- C28: for a query that is not empty, the list of candidates the handler of
`/getmovie` filters and sorts in place when the exact lookup finds nothing is the list
`searchMovies` returns for the query, element for element; so the movie `/getmovie`
shows then is the first element of that list. -/
theorem getmovie_candidates_eq_searchMovies (toLowerCase : JsString → JsString)
    (movies : List Movie) (requests : List Request)
    (query uuid userId now guildId guildName : JsString) (h : query ≠ []) :
    getmovie.candidates toLowerCase movies (toLowerCase query) =
      searchMovies toLowerCase movies query ∧
    (getMovie toLowerCase movies (toLowerCase query) = .ok none →
      ∀ m, (searchMovies toLowerCase movies query).head? = some m →
        getmovie.execute toLowerCase movies requests query uuid userId now guildId guildName =
          .ok (getmovie.Reply.movieFound m, requests)) := by
  have hc : getmovie.candidates toLowerCase movies (toLowerCase query) =
      searchMovies toLowerCase movies query := by
    rw [searchMovies_of_ne_nil _ _ _ h]
    unfold getmovie.candidates
    dsimp only
    have hf : getmovie.matchesTerm toLowerCase (trim (toLowerCase query)) =
        isCandidate toLowerCase (trim (toLowerCase query)) :=
      funext fun m => matchesTerm_eq_isCandidate toLowerCase _ m
    have hcmp : getmovie.compareCandidates toLowerCase (trim (toLowerCase query)) =
        compareRelevance toLowerCase (trim (toLowerCase query)) :=
      funext fun a => funext fun b => compareCandidates_eq_compareRelevance toLowerCase _ a b
    rw [hf, hcmp]
  refine ⟨hc, ?_⟩
  intro hnone m hm
  unfold getmovie.execute
  dsimp only
  rw [hnone, hc]
  dsimp only
  cases hl : searchMovies toLowerCase movies query with
  | nil => rw [hl] at hm; cases hm
  | cons x rest =>
    rw [hl] at hm
    cases hm
    rfl

theorem getmovie_candidates_eq_searchMovies_witness :
    js "ali" ≠ [] ∧
    getmovie.candidates asciiToLowerCase [alienated, alien] (asciiToLowerCase (js "ali")) =
      searchMovies asciiToLowerCase [alienated, alien] (js "ali") ∧
    searchMovies asciiToLowerCase [alienated, alien] (js "ali") = [alien, alienated] ∧
    getmovie.execute asciiToLowerCase [alienated, alien] [] (js "ali") (js "u1") (js "user1")
        (js "2024-01-01T00:00:00.000Z") (js "guild1") (js "Guild") =
      .ok (getmovie.Reply.movieFound alien, []) :=
  ⟨by decide,
   (getmovie_candidates_eq_searchMovies asciiToLowerCase [alienated, alien] [] (js "ali")
      (js "u1") (js "user1") (js "2024-01-01T00:00:00.000Z") (js "guild1") (js "Guild")
      (by decide)).1,
   by decide,
   (getmovie_candidates_eq_searchMovies asciiToLowerCase [alienated, alien] [] (js "ali")
      (js "u1") (js "user1") (js "2024-01-01T00:00:00.000Z") (js "guild1") (js "Guild")
      (by decide)).2 (by decide) alien (by decide)⟩

/-! ## The quality:link parsers -/

theorem split_ne_nil (sep : Nat) (s : JsString) : split sep s ≠ [] := by
  induction s with
  | nil => simp [split]
  | cons c s ih =>
    unfold split
    split_ifs
    · simp
    · cases h : split sep s with
      | nil => exact absurd h ih
      | cons piece pieces => simp

theorem split_append_sep (sep : Nat) (before after : JsString) (h : sep ∉ before) :
    split sep (before ++ sep :: after) = before :: split sep after := by
  induction before with
  | nil => simp [split]
  | cons c s ih =>
    have hc : c ≠ sep := fun hc => h (by simp [hc])
    have hs : sep ∉ s := fun hs => h (List.mem_cons_of_mem _ hs)
    simp only [List.cons_append]
    rw [split, if_neg hc, ih hs]

theorem joinWith_cons_cons (sep c : Nat) (piece : JsString) (pieces : List JsString) :
    joinWith sep ((c :: piece) :: pieces) = c :: joinWith sep (piece :: pieces) := by
  cases pieces with
  | nil => simp [joinWith]
  | cons t rest => simp [joinWith]

theorem joinWith_split (sep : Nat) (s : JsString) : joinWith sep (split sep s) = s := by
  induction s with
  | nil => simp [split, joinWith]
  | cons c s ih =>
    unfold split
    split_ifs with hc
    · cases h : split sep s with
      | nil => exact absurd h (split_ne_nil sep s)
      | cons piece pieces =>
        rw [h] at ih
        simp [joinWith, ih, hc]
    · cases h : split sep s with
      | nil => exact absurd h (split_ne_nil sep s)
      | cons piece pieces =>
        rw [h] at ih
        simp only
        rw [joinWith_cons_cons, ih]

theorem splitColonRestFrom_capture (acc s : JsString)
    (hline : ∀ c ∈ s, isLineTerminator c = false) :
    splitColonRestFrom true acc s = [acc ++ s, []] := by
  induction s generalizing acc with
  | nil => simp [splitColonRestFrom]
  | cons c s ih =>
    have hc : isLineTerminator c = false := hline c (List.mem_cons_self _ _)
    rw [splitColonRestFrom]
    simp only [hc, if_true, Bool.false_eq_true, if_false]
    rw [ih _ (fun d hd => hline d (List.mem_cons_of_mem _ hd))]
    simp

theorem splitColonRestFrom_first_colon (acc before after : JsString) (hcolon : 58 ∉ before)
    (hne : after ≠ []) (hline : ∀ c ∈ after, isLineTerminator c = false) :
    splitColonRestFrom false acc (before ++ 58 :: after) = [acc ++ before, after, []] := by
  induction before generalizing acc with
  | nil =>
    have hdot : dotMatchesHead after = true := by
      cases after with
      | nil => exact absurd rfl hne
      | cons d rest => simp [dotMatchesHead, hline d (List.mem_cons_self _ _)]
    simp only [List.nil_append, List.append_nil]
    rw [splitColonRestFrom]
    simp only [Bool.false_eq_true, if_false, beq_self_eq_true, hdot, Bool.and_self, if_true]
    rw [splitColonRestFrom_capture [] after hline]
    simp
  | cons c s ih =>
    have hc : (c == 58) = false := by
      rw [beq_eq_false_iff_ne]
      exact fun hc => hcolon (by simp [hc])
    have hs : 58 ∉ s := fun hs => hcolon (List.mem_cons_of_mem _ hs)
    simp only [List.cons_append]
    rw [splitColonRestFrom]
    simp only [Bool.false_eq_true, if_false, hc, Bool.false_and]
    rw [ih _ hs]
    simp

theorem savemovie_parsePart_eq (before after : JsString) (hcolon : 58 ∉ before)
    (hne : after ≠ []) (hline : ∀ c ∈ after, isLineTerminator c = false) :
    savemovie.parsePart (before ++ 58 :: after) = some (trim before, trim after) := by
  unfold savemovie.parsePart splitColonRest
  rw [splitColonRestFrom_first_colon [] before after hcolon hne hline]
  simp

theorem update_pieces (before after : JsString) (hcolon : 58 ∉ before) :
    ¬ (split 58 (before ++ 58 :: after)).length < 2 ∧
    (split 58 (before ++ 58 :: after)).headD [] = before ∧
    joinWith 58 ((split 58 (before ++ 58 :: after)).drop 1) = after := by
  rw [split_append_sep 58 before after hcolon]
  refine ⟨?_, rfl, ?_⟩
  · cases h : split 58 after with
    | nil => exact absurd h (split_ne_nil 58 after)
    | cons piece pieces => simp
  · simp [joinWith_split]

theorem update_parsePart_eq (validUrl : JsString → Bool) (before after : JsString)
    (hcolon : 58 ∉ before) :
    update_movie.parsePart validUrl (before ++ 58 :: after) =
      if trim before = [] then
        .error (update_movie.Reply.missingQuality (before ++ 58 :: after))
      else if trim after = [] then .error (update_movie.Reply.missingUrl (trim before))
      else if validUrl (update_movie.withScheme (trim after)) = true then
        .ok (trim before, update_movie.withScheme (trim after))
      else .error (update_movie.Reply.invalidUrl (trim before)) := by
  obtain ⟨hlen, hhead, hjoin⟩ := update_pieces before after hcolon
  unfold update_movie.parsePart
  dsimp only
  rw [if_neg hlen, hhead, hjoin]
  by_cases hq : trim before = []
  · simp [hq, truthy]
  · by_cases hl : trim after = []
    · simp [hq, hl, truthy]
    · simp [hq, hl, truthy]

/-- After a line terminator the group `(.+)` stops: the link `/savemovie` reads ends
there. -/
theorem savemovie_parsePart_line_break :
    savemovie.parsePart (js "1080p:https://x.com/a\nb") =
      some (js "1080p", js "https://x.com/a") ∧
    splitColonRest (js "1080p:https://x.com/a\nb") =
      [js "1080p", js "https://x.com/a", js "\nb"] := by
  decide

/-- C24: a watch-link segment is split at its first colon only.  For a segment
`before:after` in which `before` holds no colon, the parser of `/savemovie` reads the
label `before` trimmed and the link `after` trimmed, when `after` is not empty and is
text of one line (it holds no line terminator); the parser of `/updatemovie` reads the
same label and link for every `after`, rejects the segment when one of them is empty,
and stores the link as it is when it starts with `http://` or `https://`. -/
theorem watch_link_split_at_first_colon (validUrl : JsString → Bool)
    (before after : JsString) (hcolon : 58 ∉ before) (hne : after ≠ [])
    (hline : ∀ c ∈ after, isLineTerminator c = false) :
    savemovie.parsePart (before ++ 58 :: after) = some (trim before, trim after) ∧
    (trim ((split 58 (before ++ 58 :: after)).headD []) = trim before ∧
      trim (joinWith 58 ((split 58 (before ++ 58 :: after)).drop 1)) = trim after) ∧
    update_movie.parsePart validUrl (before ++ 58 :: after) =
      (if trim before = [] then
        .error (update_movie.Reply.missingQuality (before ++ 58 :: after))
      else if trim after = [] then .error (update_movie.Reply.missingUrl (trim before))
      else if validUrl (update_movie.withScheme (trim after)) = true then
        .ok (trim before, update_movie.withScheme (trim after))
      else .error (update_movie.Reply.invalidUrl (trim before))) ∧
    (startsWith (trim after) (js "http://") = true ∨
        startsWith (trim after) (js "https://") = true →
      update_movie.withScheme (trim after) = trim after) := by
  refine ⟨savemovie_parsePart_eq before after hcolon hne hline, ?_,
    update_parsePart_eq validUrl before after hcolon, ?_⟩
  · obtain ⟨_, hhead, hjoin⟩ := update_pieces before after hcolon
    rw [hhead, hjoin]
    exact ⟨rfl, rfl⟩
  · intro h
    unfold update_movie.withScheme
    rcases h with h | h <;> simp [h]

theorem watch_link_split_at_first_colon_witness :
    58 ∉ js "1080p" ∧ js "https://x.com/a:b" ≠ [] ∧
    (∀ c ∈ js "https://x.com/a:b", isLineTerminator c = false) ∧
    savemovie.parsePart (js "1080p:https://x.com/a:b") =
      some (js "1080p", js "https://x.com/a:b") ∧
    update_movie.parsePart (fun _ => true) (js "1080p:https://x.com/a:b") =
      .ok (js "1080p", js "https://x.com/a:b") ∧
    savemovie.parsePart (js "1080p" ++ 58 :: js "https://x.com/a:b") =
      some (trim (js "1080p"), trim (js "https://x.com/a:b")) :=
  ⟨by decide, by decide, by decide, by decide, by decide,
   (watch_link_split_at_first_colon (fun _ => true) (js "1080p") (js "https://x.com/a:b")
      (by decide) (by decide) (by decide)).1⟩

/-- C25: the parser of `/savemovie` does not reject a segment whose label or link is
empty after trimming.  For ":https://x.com/a" it reads the empty label, for "1080p: "
the empty link, and only "1080p:" is answered with `Invalid format`; with the first
text as its watch links the handler stores a record whose `watchLinks` has the empty
key.  The parser of `/updatemovie` rejects all three. -/
theorem savemovie_accepts_empty_halves :
    savemovie.parsePart (js ":https://x.com/a") = some ([], js "https://x.com/a") ∧
    savemovie.parsePart (js "1080p: ") = some (js "1080p", []) ∧
    savemovie.parsePart (js "1080p:") = none ∧
    savemovie.execute asciiToLowerCase (fun url => url) (fun _ => some duneLookup) true []
        (js "Dune") (js ":https://x.com/a") (js "english") none none false 3 1700000000000
        (js "2024-01-01T00:00:00.000Z") =
      (savemovie.Reply.saved,
        [{ id := some (JsId.str (js "438631"))
           name := some (js "Dune")
           aliases := some []
           languages := some [js "english"]
           watchLinks := some [([], js "https://x.com/a")]
           screenshotLinks := some []
           tmdbDetails := some
             { tmdb_id := some 438631
               release_date := some (js "2021-09-15")
               genres := some [] }
           addedAt := some (js "2024-01-01T00:00:00.000Z") }]) ∧
    update_movie.parsePart (fun _ => true) (js ":https://x.com/a") =
      .error (update_movie.Reply.missingQuality (js ":https://x.com/a")) ∧
    update_movie.parsePart (fun _ => true) (js "1080p: ") =
      .error (update_movie.Reply.missingUrl (js "1080p")) ∧
    update_movie.parsePart (fun _ => true) (js "1080p:") =
      .error (update_movie.Reply.missingUrl (js "1080p")) := by
  decide

/-! ## Normalisation of the languages -/

theorem trim_eq_rdropWhile (s : JsString) :
    trim s = (s.dropWhile isWhiteSpace).rdropWhile isWhiteSpace := rfl

theorem dropWhile_head_not {α : Type} (p : α → Bool) (l : List α) (a : α) (t : List α)
    (h : l.dropWhile p = a :: t) : p a = false := by
  induction l with
  | nil => cases h
  | cons x xs ih =>
    rw [List.dropWhile_cons] at h
    by_cases hx : p x = true
    · rw [if_pos hx] at h
      exact ih h
    · rw [if_neg hx] at h
      cases h
      simpa using hx

theorem trim_trim (s : JsString) : trim (trim s) = trim s := by
  have hd : (trim s).dropWhile isWhiteSpace = trim s := by
    obtain ⟨r, hr⟩ := List.rdropWhile_prefix isWhiteSpace (s.dropWhile isWhiteSpace)
    rw [← trim_eq_rdropWhile] at hr
    cases ht : trim s with
    | nil => rfl
    | cons a t =>
      rw [ht] at hr
      have ha : isWhiteSpace a = false :=
        dropWhile_head_not isWhiteSpace s a (t ++ r) (by rw [← hr]; rfl)
      rw [List.dropWhile_cons, ha]
      simp
  rw [trim_eq_rdropWhile (trim s), hd, trim_eq_rdropWhile]
  exact List.rdropWhile_idempotent _ _

theorem not_mem_trim (c : Nat) (s : JsString) (h : c ∉ s) : c ∉ trim s := by
  intro hc
  apply h
  have h1 : trim s <+: s.dropWhile isWhiteSpace := List.rdropWhile_prefix _ _
  exact (List.dropWhile_sublist isWhiteSpace).subset (h1.sublist.subset hc)

theorem not_mem_of_mem_split (sep : Nat) (s piece : JsString) (h : piece ∈ split sep s) :
    sep ∉ piece := by
  induction s generalizing piece with
  | nil =>
    simp only [split, List.mem_singleton] at h
    subst h
    simp
  | cons c s ih =>
    unfold split at h
    split_ifs at h with hc
    · rcases List.mem_cons.mp h with h | h
      · subst h; simp
      · exact ih piece h
    · cases hs : split sep s with
      | nil => exact absurd hs (split_ne_nil sep s)
      | cons p ps =>
        rw [hs] at h ih
        simp only [List.mem_cons] at h
        rcases h with h | h
        · subst h
          intro hmem
          rcases List.mem_cons.mp hmem with h1 | h1
          · exact hc h1.symm
          · exact ih p (List.mem_cons_self _ _) h1
        · exact ih piece (List.mem_cons_of_mem _ h)

theorem split_joinWith (sep : Nat) (l : List JsString) (hne : l ≠ [])
    (h : ∀ s ∈ l, sep ∉ s) : split sep (joinWith sep l) = l := by
  induction l with
  | nil => exact absurd rfl hne
  | cons s rest ih =>
    cases rest with
    | nil =>
      simp only [joinWith]
      exact split_of_not_mem sep s (h s (List.mem_cons_self _ _))
    | cons t rest =>
      simp only [joinWith]
      rw [split_append_sep sep s _ (h s (List.mem_cons_self _ _))]
      rw [ih (by simp) (fun x hx => h x (List.mem_cons_of_mem _ hx))]

theorem mem_newSetFrom (seen xs : List JsString) (x : JsString) :
    x ∈ newSetFrom seen xs ↔ x ∈ xs ∧ x ∉ seen := by
  induction xs generalizing seen with
  | nil => simp [newSetFrom]
  | cons y ys ih =>
    unfold newSetFrom
    by_cases hy : seen.contains y = true
    · rw [if_pos hy, ih]
      have hy2 : y ∈ seen := by simpa using hy
      constructor
      · rintro ⟨h1, h2⟩
        exact ⟨List.mem_cons_of_mem _ h1, h2⟩
      · rintro ⟨h1, h2⟩
        rcases List.mem_cons.mp h1 with h | h
        · subst h; exact absurd hy2 h2
        · exact ⟨h, h2⟩
    · rw [if_neg hy, List.mem_cons, ih]
      have hy2 : y ∉ seen := by simpa using hy
      constructor
      · rintro (h | ⟨h1, h2⟩)
        · subst h; exact ⟨List.mem_cons_self _ _, hy2⟩
        · exact ⟨List.mem_cons_of_mem _ h1, fun hs => h2 (List.mem_cons_of_mem _ hs)⟩
      · rintro ⟨h1, h2⟩
        by_cases hxy : x = y
        · exact Or.inl hxy
        · right
          rcases List.mem_cons.mp h1 with h | h
          · exact absurd h hxy
          · refine ⟨h, fun hs => ?_⟩
            rcases List.mem_cons.mp hs with h3 | h3
            · exact hxy h3
            · exact h2 h3

theorem mem_newSet (xs : List JsString) (x : JsString) : x ∈ newSet xs ↔ x ∈ xs := by
  unfold newSet
  rw [mem_newSetFrom]
  simp

theorem newSetFrom_of_nodup (seen xs : List JsString) (hn : xs.Nodup)
    (hs : ∀ x ∈ xs, x ∉ seen) : newSetFrom seen xs = xs := by
  induction xs generalizing seen with
  | nil => rfl
  | cons y ys ih =>
    have hy : ¬ seen.contains y = true := by
      simpa using hs y (List.mem_cons_self _ _)
    rw [newSetFrom, if_neg hy]
    rw [List.nodup_cons] at hn
    rw [ih (y :: seen) hn.2]
    intro x hx hmem
    rcases List.mem_cons.mp hmem with h | h
    · subst h; exact hn.1 hx
    · exact hs x (List.mem_cons_of_mem _ hx) h

theorem newSetFrom_firstOccurrence (p : JsString → Bool) (seen xs : List JsString) :
    (newSetFrom seen (xs.filter p)).Pairwise
      (fun a b => xs.indexOf a < xs.indexOf b) := by
  induction xs generalizing seen with
  | nil => simp [newSetFrom]
  | cons y ys ih =>
    have key : ∀ a : JsString, a ≠ y → (y :: ys).indexOf a = ys.indexOf a + 1 := by
      intro a ha
      have hya : (y == a) = false := by
        rw [beq_eq_false_iff_ne]
        exact Ne.symm ha
      rw [List.indexOf_cons, hya]
      rfl
    have key0 : (y :: ys).indexOf y = 0 := by
      rw [List.indexOf_cons]
      simp
    have step : ∀ seen2 : List JsString, (∀ a ∈ newSetFrom seen2 (ys.filter p), a ≠ y) →
        (newSetFrom seen2 (ys.filter p)).Pairwise
          (fun a b => (y :: ys).indexOf a < (y :: ys).indexOf b) := by
      intro seen2 hne
      refine (ih seen2).imp_of_mem ?_
      intro a b ha hb hab
      rw [key a (hne a ha), key b (hne b hb)]
      omega
    by_cases hp : p y = true
    · rw [List.filter_cons_of_pos hp, newSetFrom]
      by_cases hy : seen.contains y = true
      · rw [if_pos hy]
        apply step
        intro a ha hay
        have := ((mem_newSetFrom _ _ _).mp ha).2
        subst hay
        exact this (by simpa using hy)
      · rw [if_neg hy, List.pairwise_cons]
        have hne : ∀ a ∈ newSetFrom (y :: seen) (ys.filter p), a ≠ y := by
          intro a ha hay
          have := ((mem_newSetFrom _ _ _).mp ha).2
          exact this (by simp [hay])
        refine ⟨?_, step _ hne⟩
        intro b hb
        rw [key0, key b (hne b hb)]
        omega
    · have hp2 : ¬ p y = true := hp
      rw [List.filter_cons_of_neg hp2]
      apply step
      intro a ha hay
      have := ((mem_newSetFrom _ _ _).mp ha).1
      subst hay
      exact hp (List.mem_filter.mp this).2

theorem newSetFrom_nodup (seen xs : List JsString) : (newSetFrom seen xs).Nodup := by
  induction xs generalizing seen with
  | nil => simp [newSetFrom]
  | cons y ys ih =>
    unfold newSetFrom
    split_ifs with hy
    · exact ih seen
    · rw [List.nodup_cons]
      refine ⟨fun hmem => ?_, ih _⟩
      exact ((mem_newSetFrom _ _ _).mp hmem).2 (List.mem_cons_self _ _)

theorem isWhiteSpace_asciiLower (c : Nat) :
    isWhiteSpace (if 65 ≤ c ∧ c ≤ 90 then c + 32 else c) = isWhiteSpace c := by
  by_cases h : 65 ≤ c ∧ c ≤ 90
  · rw [if_pos h]
    have h1 : isWhiteSpace (c + 32) = false := by
      simp [isWhiteSpace]
      omega
    have h2 : isWhiteSpace c = false := by
      simp [isWhiteSpace]
      omega
    rw [h1, h2]
  · rw [if_neg h]

theorem trim_asciiToLowerCase (s : JsString) :
    trim (asciiToLowerCase s) = asciiToLowerCase (trim s) := by
  have hcomp : (isWhiteSpace ∘ fun c => if 65 ≤ c ∧ c ≤ 90 then c + 32 else c) =
      isWhiteSpace := funext fun c => isWhiteSpace_asciiLower c
  unfold trim asciiToLowerCase
  rw [List.dropWhile_map, hcomp, ← List.map_reverse, List.dropWhile_map, hcomp,
    List.map_reverse]

theorem asciiToLowerCase_laws : LowerCaseLaws asciiToLowerCase where
  empty := rfl
  idem := by
    intro s
    unfold asciiToLowerCase
    rw [List.map_map]
    apply List.map_congr_left
    intro c _
    simp only [Function.comp]
    split_ifs <;> omega
  trimmed := by
    intro s hs
    rw [trim_asciiToLowerCase, hs]
  comma := by
    intro s hs hmem
    unfold asciiToLowerCase at hmem
    obtain ⟨c, hc, hcc⟩ := List.mem_map.mp hmem
    split_ifs at hcc
    · omega
    · subst hcc
      exact hs hc

/-- C26: the list of languages `/savemovie` stores holds exactly the values that are
not empty among the comma-separated pieces of the text, each trimmed and lower-cased,
in the order of their first occurrence; it has no duplicate and no empty entry, no
entry has surrounding white space or is changed by lower-casing, and normalising the
list joined with commas gives the list again. -/
theorem parseLanguages_normal_form (toLowerCase : JsString → JsString)
    (hlaws : LowerCaseLaws toLowerCase) (rawLanguages : JsString) :
    (∀ x, x ∈ savemovie.parseLanguages toLowerCase rawLanguages ↔
      x ≠ [] ∧ ∃ piece ∈ split 44 rawLanguages, x = toLowerCase (trim piece)) ∧
    (savemovie.parseLanguages toLowerCase rawLanguages).Pairwise (fun a b =>
      ((split 44 rawLanguages).map fun piece => toLowerCase (trim piece)).indexOf a <
        ((split 44 rawLanguages).map fun piece => toLowerCase (trim piece)).indexOf b) ∧
    (savemovie.parseLanguages toLowerCase rawLanguages).Nodup ∧
    (∀ x ∈ savemovie.parseLanguages toLowerCase rawLanguages,
      x ≠ [] ∧ trim x = x ∧ toLowerCase x = x) ∧
    savemovie.parseLanguages toLowerCase
        (joinWith 44 (savemovie.parseLanguages toLowerCase rawLanguages)) =
      savemovie.parseLanguages toLowerCase rawLanguages := by
  have hmem : ∀ x, x ∈ savemovie.parseLanguages toLowerCase rawLanguages ↔
      x ≠ [] ∧ ∃ piece ∈ split 44 rawLanguages, x = toLowerCase (trim piece) := by
    intro x
    unfold savemovie.parseLanguages
    rw [mem_newSet, List.mem_filter, List.mem_map]
    constructor
    · rintro ⟨⟨piece, hp, rfl⟩, ht⟩
      refine ⟨?_, piece, hp, rfl⟩
      intro h
      rw [h] at ht
      cases ht
    · rintro ⟨hne, piece, hp, rfl⟩
      refine ⟨⟨piece, hp, rfl⟩, ?_⟩
      cases h : toLowerCase (trim piece) with
      | nil => exact absurd h hne
      | cons c t => rfl
  have hnodup : (savemovie.parseLanguages toLowerCase rawLanguages).Nodup :=
    newSetFrom_nodup _ _
  have hentry : ∀ x ∈ savemovie.parseLanguages toLowerCase rawLanguages,
      x ≠ [] ∧ trim x = x ∧ toLowerCase x = x ∧ 44 ∉ x := by
    intro x hx
    obtain ⟨hne, piece, hp, rfl⟩ := (hmem x).mp hx
    refine ⟨hne, hlaws.trimmed _ (trim_trim piece), hlaws.idem _, ?_⟩
    exact hlaws.comma _ (not_mem_trim 44 piece (not_mem_of_mem_split 44 _ piece hp))
  refine ⟨hmem, newSetFrom_firstOccurrence _ _ _, hnodup,
    fun x hx => ⟨(hentry x hx).1, (hentry x hx).2.1, (hentry x hx).2.2.1⟩, ?_⟩
  by_cases hnil : savemovie.parseLanguages toLowerCase rawLanguages = []
  · rw [hnil]
    have htrim : trim ([] : JsString) = [] := rfl
    simp [savemovie.parseLanguages, joinWith, split, htrim, hlaws.empty, truthy, newSet,
      newSetFrom]
  · generalize hl : savemovie.parseLanguages toLowerCase rawLanguages = l at *
    unfold savemovie.parseLanguages
    rw [split_joinWith 44 l hnil (fun x hx => (hentry x hx).2.2.2)]
    have hmap : (l.map fun lang => toLowerCase (trim lang)) = l := by
      conv_rhs => rw [← List.map_id l]
      apply List.map_congr_left
      intro x hx
      rw [(hentry x hx).2.1, (hentry x hx).2.2.1]
      rfl
    have hfilter : l.filter truthy = l := by
      rw [List.filter_eq_self]
      intro x hx
      cases hx2 : x with
      | nil => exact absurd hx2 (hentry x hx).1
      | cons c t => rfl
    rw [hmap, hfilter]
    exact newSetFrom_of_nodup [] l hnodup (fun x _ => by simp)

theorem parseLanguages_normal_form_witness :
    LowerCaseLaws asciiToLowerCase ∧
    savemovie.parseLanguages asciiToLowerCase (js " Hindi, english ,HINDI,,Tamil ") =
      [js "hindi", js "english", js "tamil"] ∧
    savemovie.parseLanguages asciiToLowerCase
        (joinWith 44 (savemovie.parseLanguages asciiToLowerCase
          (js " Hindi, english ,HINDI,,Tamil "))) =
      savemovie.parseLanguages asciiToLowerCase (js " Hindi, english ,HINDI,,Tamil ") :=
  ⟨asciiToLowerCase_laws, by decide,
   (parseLanguages_normal_form asciiToLowerCase asciiToLowerCase_laws
      (js " Hindi, english ,HINDI,,Tamil ")).2.2.2.2⟩

/-! ## Updates of a movie -/

theorem newSet_ne_nil (l : List JsString) (h : l ≠ []) : newSet l ≠ [] := by
  cases l with
  | nil => exact absurd rfl h
  | cons x xs =>
    intro hnil
    have : x ∈ newSet (x :: xs) := (mem_newSet _ _).mpr (List.mem_cons_self _ _)
    rw [hnil] at this
    cases this

theorem length_ne_zero_of {α : Type} (l : List α) (h : ¬ (l.length == 0) = true) : l ≠ [] := by
  intro hl
  subst hl
  exact h rfl

theorem keepsFields_refl (f : UpdatedFields) : KeepsFields f f :=
  ⟨rfl, fun h => h⟩

theorem keepsFields_trans (f g k : UpdatedFields) (h1 : KeepsFields f g)
    (h2 : KeepsFields g k) : KeepsFields f k :=
  ⟨h2.1.trans h1.1, fun h => h2.2 (h1.2 h)⟩

theorem replaceLanguages_keeps (toLowerCase : JsString → JsString)
    (rawLanguages : Option JsString) (f g : UpdatedFields)
    (h : update_movie.replaceLanguages toLowerCase rawLanguages f = .ok g) :
    KeepsFields f g := by
  unfold update_movie.replaceLanguages at h
  dsimp only at h
  split at h
  · cases h
    exact keepsFields_refl f
  · split_ifs at h with h1 h2
    cases h
    refine ⟨rfl, fun _ hl => ?_⟩
    simp only [Option.some.injEq] at hl
    exact newSet_ne_nil _ (length_ne_zero_of _ h2) hl

theorem changeLanguages_keeps (toLowerCase : JsString → JsString) (movieToUpdate : Movie)
    (rawAddLanguages rawRemoveLanguages : Option JsString) (f g : UpdatedFields)
    (h : update_movie.changeLanguages toLowerCase movieToUpdate rawAddLanguages
      rawRemoveLanguages f = .ok g) : KeepsFields f g := by
  unfold update_movie.changeLanguages at h
  dsimp only at h
  split_ifs at h with h0
  · cases h
    exact keepsFields_refl f
  · split at h
    · cases h
    · split at h
      · cases h
      · split_ifs at h with h2
        cases h
        refine ⟨rfl, fun _ hl => ?_⟩
        simp only [Option.some.injEq] at hl
        exact length_ne_zero_of _ h2 hl

theorem setPoster_keeps (validUrl : JsString → Bool) (posterUrl : Option JsString)
    (f g : UpdatedFields) (h : update_movie.setPoster validUrl posterUrl f = .ok g) :
    KeepsFields f g := by
  unfold update_movie.setPoster at h
  split at h
  · cases h
    exact keepsFields_refl f
  · split_ifs at h <;> cases h <;> exact ⟨rfl, fun hl => hl⟩

theorem setLinks_keeps (validUrl : JsString → Bool) (setWatchLinks : Option JsString)
    (f g : UpdatedFields) (h : update_movie.setLinks validUrl setWatchLinks f = .ok g) :
    KeepsFields f g := by
  unfold update_movie.setLinks at h
  dsimp only at h
  split at h
  · cases h
    exact keepsFields_refl f
  · split_ifs at h
    split at h
    · cases h
    · cases h
      exact ⟨rfl, fun hl => hl⟩

theorem setScreenshots_keeps (validUrl : JsString → Bool) (movieToUpdate : Movie)
    (add remove : List JsString) (f g : UpdatedFields)
    (h : update_movie.setScreenshots validUrl movieToUpdate add remove f = .ok g) :
    KeepsFields f g := by
  unfold update_movie.setScreenshots at h
  dsimp only at h
  split_ifs at h <;> cases h
  · exact ⟨rfl, fun hl => hl⟩
  · exact keepsFields_refl f

theorem setName_keeps (toLowerCase : JsString → JsString) (movies : List Movie)
    (movieToUpdate : Movie) (newName : Option JsString) (f g : UpdatedFields)
    (h : update_movie.setName toLowerCase movies movieToUpdate newName f = .ok g) :
    KeepsFields f g := by
  unfold update_movie.setName at h
  split at h
  · cases h
    exact keepsFields_refl f
  · split at h
    · cases h
    · split_ifs at h
      · split at h
        · cases h
        · split_ifs at h
          cases h
          exact ⟨rfl, fun hl => hl⟩
        · cases h
          exact ⟨rfl, fun hl => hl⟩
      · cases h
        exact keepsFields_refl f

theorem setAliases_keeps (movieToUpdate : Movie) (add remove : List JsString)
    (f : UpdatedFields) :
    KeepsFields f (update_movie.setAliases movieToUpdate add remove f) := by
  unfold update_movie.setAliases
  dsimp only
  split_ifs
  · exact ⟨rfl, fun hl => hl⟩
  · exact keepsFields_refl f

theorem bind_eq_ok {ε α β : Type} (x : Except ε α) (k : α → Except ε β) (b : β)
    (h : x.bind k = .ok b) : ∃ a, x = .ok a ∧ k a = .ok b := by
  cases x with
  | error e => cases h
  | ok a => exact ⟨a, rfl, h⟩

/-- The object `/updatemovie` hands to `updateMovie` has no key `id`, and its key
`languages`, when it has one, is not the empty list. -/
theorem collectFields_keeps (toLowerCase : JsString → JsString) (validUrl : JsString → Bool)
    (movies : List Movie) (movieToUpdate : Movie)
    (setWatchLinks rawLanguages rawAddLanguages rawRemoveLanguages posterUrl
      rawAddScreenshotLinks rawRemoveScreenshotLinks newName rawAddAliases
      rawRemoveAliases : Option JsString) (fields : UpdatedFields)
    (h : update_movie.collectFields toLowerCase validUrl movies movieToUpdate setWatchLinks
      rawLanguages rawAddLanguages rawRemoveLanguages posterUrl rawAddScreenshotLinks
      rawRemoveScreenshotLinks newName rawAddAliases rawRemoveAliases = .ok fields) :
    fields.id = none ∧ fields.languages ≠ some [] := by
  unfold update_movie.collectFields at h
  obtain ⟨f1, h1, h⟩ := bind_eq_ok _ _ _ h
  obtain ⟨f2, h2, h⟩ := bind_eq_ok _ _ _ h
  obtain ⟨f3, h3, h⟩ := bind_eq_ok _ _ _ h
  obtain ⟨f4, h4, h⟩ := bind_eq_ok _ _ _ h
  obtain ⟨f5, h5, h⟩ := bind_eq_ok _ _ _ h
  obtain ⟨f6, h6, h⟩ := bind_eq_ok _ _ _ h
  cases h
  have k := keepsFields_trans _ _ _ (replaceLanguages_keeps _ _ _ _ h1)
    (keepsFields_trans _ _ _ (changeLanguages_keeps _ _ _ _ _ _ h2)
    (keepsFields_trans _ _ _ (setPoster_keeps _ _ _ _ h3)
    (keepsFields_trans _ _ _ (setLinks_keeps _ _ _ _ h4)
    (keepsFields_trans _ _ _ (setScreenshots_keeps _ _ _ _ _ _ h5)
    (keepsFields_trans _ _ _ (setName_keeps _ _ _ _ _ _ h6)
      (setAliases_keeps movieToUpdate (update_movie.parseAliases toLowerCase rawAddAliases)
        (update_movie.parseAliases toLowerCase rawRemoveAliases) f6))))))
  exact ⟨k.1, k.2 (by simp)⟩

theorem map_modifyAt {α β : Type} (g : α → β) (f : α → α) (hf : ∀ x, g (f x) = g x)
    (l : List α) (i : Nat) : (modifyAt f l i).map g = l.map g := by
  induction l generalizing i with
  | nil => rfl
  | cons x xs ih =>
    cases i with
    | zero => simp [modifyAt, hf]
    | succ i => simp [modifyAt, ih]

theorem forall₂_modifyAt {α : Type} (R : α → α → Prop) (f : α → α) (hrefl : ∀ x, R x x)
    (hf : ∀ x, R x (f x)) (l : List α) (i : Nat) : List.Forall₂ R l (modifyAt f l i) := by
  induction l generalizing i with
  | nil => exact List.Forall₂.nil
  | cons x xs ih =>
    cases i with
    | zero => exact List.Forall₂.cons (hf x) (List.forall₂_same.mpr fun y _ => hrefl y)
    | succ i => exact List.Forall₂.cons (hrefl x) (ih i)

theorem updateMovie_ids (now : JsString) (movies : List Movie) (id : Option JsId)
    (updatedFields : UpdatedFields) (h : updatedFields.id = none) :
    ((updateMovie now movies id updatedFields).2.map fun m => m.id) =
      movies.map fun m => m.id := by
  unfold updateMovie
  dsimp only
  split
  · rfl
  · apply map_modifyAt
    intro x
    simp [mergeFields, h]

theorem updateMovie_languages (now : JsString) (movies : List Movie) (id : Option JsId)
    (updatedFields : UpdatedFields) (h : updatedFields.languages ≠ some []) :
    List.Forall₂ LanguagesKept movies (updateMovie now movies id updatedFields).2 := by
  unfold updateMovie
  dsimp only
  split
  · exact List.forall₂_same.mpr fun y _ => Or.inl rfl
  · apply forall₂_modifyAt
    · exact fun x => Or.inl rfl
    · intro x
      cases hl : updatedFields.languages with
      | none => exact Or.inl (by simp [mergeFields, hl])
      | some ls =>
        refine Or.inr ⟨ls, by simp [mergeFields, hl], fun hnil => ?_⟩
        subst hnil
        exact h hl

theorem updateMovie_false (now : JsString) (movies : List Movie) (id : Option JsId)
    (updatedFields : UpdatedFields) (h : (updateMovie now movies id updatedFields).1 = false) :
    (updateMovie now movies id updatedFields).2 = movies := by
  unfold updateMovie at h ⊢
  dsimp only at h ⊢
  split
  · rfl
  · rename_i index hidx
    rw [hidx] at h
    cases h

/-- An object of updated fields that has the key `id` does change the id. -/
theorem updateMovie_sets_id_key :
    ((updateMovie (js "2024-01-01T00:00:00.000Z") [alien, dune] (some (JsId.num 2))
        { id := some (some (JsId.num 7)) }).2.map fun m => m.id) =
      [some (JsId.num 7), some (JsId.num 2)] := by
  decide

/-- What `/updatemovie` leaves in `movies.json`: the collection as it was, or the one
`updateMovie` writes for the fields the handler collected. -/
theorem update_execute_shape (toLowerCase : JsString → JsString) (validUrl : JsString → Bool)
    (isAdmin : Bool) (movies : List Movie) (searchName : JsString)
    (setWatchLinks rawLanguages rawAddLanguages rawRemoveLanguages posterUrl
      rawAddScreenshotLinks rawRemoveScreenshotLinks newName rawAddAliases
      rawRemoveAliases : Option JsString) (now : JsString) :
    (update_movie.execute toLowerCase validUrl isAdmin movies searchName setWatchLinks
        rawLanguages rawAddLanguages rawRemoveLanguages posterUrl rawAddScreenshotLinks
        rawRemoveScreenshotLinks newName rawAddAliases rawRemoveAliases now).2 = movies ∨
    ∃ movieToUpdate fields,
      update_movie.collectFields toLowerCase validUrl movies movieToUpdate setWatchLinks
        rawLanguages rawAddLanguages rawRemoveLanguages posterUrl rawAddScreenshotLinks
        rawRemoveScreenshotLinks newName rawAddAliases rawRemoveAliases = .ok fields ∧
      (update_movie.execute toLowerCase validUrl isAdmin movies searchName setWatchLinks
        rawLanguages rawAddLanguages rawRemoveLanguages posterUrl rawAddScreenshotLinks
        rawRemoveScreenshotLinks newName rawAddAliases rawRemoveAliases now).2 =
        (updateMovie now movies movieToUpdate.id fields).2 := by
  unfold update_movie.execute
  split_ifs
  · exact Or.inl rfl
  · split
    · exact Or.inl rfl
    · exact Or.inl rfl
    · rename_i movieToUpdate _
      split
      · exact Or.inl rfl
      · rename_i fields hc
        split_ifs
        · exact Or.inl rfl
        · exact Or.inr ⟨movieToUpdate, fields, hc, rfl⟩

/-- An answer of `/updatemovie` other than the success message comes with the
collection unchanged. -/
theorem update_execute_rejected (toLowerCase : JsString → JsString)
    (validUrl : JsString → Bool) (isAdmin : Bool) (movies : List Movie) (searchName : JsString)
    (setWatchLinks rawLanguages rawAddLanguages rawRemoveLanguages posterUrl
      rawAddScreenshotLinks rawRemoveScreenshotLinks newName rawAddAliases
      rawRemoveAliases : Option JsString) (now : JsString)
    (h : (update_movie.execute toLowerCase validUrl isAdmin movies searchName setWatchLinks
        rawLanguages rawAddLanguages rawRemoveLanguages posterUrl rawAddScreenshotLinks
        rawRemoveScreenshotLinks newName rawAddAliases rawRemoveAliases now).1 ≠
          update_movie.Reply.updated) :
    (update_movie.execute toLowerCase validUrl isAdmin movies searchName setWatchLinks
        rawLanguages rawAddLanguages rawRemoveLanguages posterUrl rawAddScreenshotLinks
        rawRemoveScreenshotLinks newName rawAddAliases rawRemoveAliases now).2 = movies := by
  unfold update_movie.execute at h ⊢
  cases isAdmin with
  | false => rfl
  | true =>
    simp only [Bool.not_true, Bool.false_eq_true, if_false] at h ⊢
    split
    · rfl
    · rfl
    · rename_i movieToUpdate hm
      rw [hm] at h
      dsimp only at h
      split
      · rfl
      · rename_i fields hc
        rw [hc] at h
        dsimp only at h
        by_cases hk : update_movie.hasNoKeys fields = true
        · rw [if_pos hk]
        · rw [if_neg hk] at h ⊢
          dsimp only at h ⊢
          apply updateMovie_false
          cases hr : (updateMovie now movies movieToUpdate.id fields).1 with
          | false => rfl
          | true =>
            rw [hr] at h
            exact absurd rfl h

/-! ## Languages of a stored movie -/

theorem addMovie_shape (now : JsString) (movies : List Movie) (movie : Movie) :
    ∃ stored, addMovie now movies movie = movies ++ [stored] ∧
      stored.name = movie.name ∧ stored.languages = movie.languages ∧
      stored.watchLinks = movie.watchLinks := by
  unfold addMovie
  dsimp only
  split_ifs <;> exact ⟨_, rfl, rfl, rfl, rfl⟩

theorem saved_shape {ρ : Type} (r : ρ) (now : JsString) (movies : List Movie) (movie : Movie)
    (ls : List JsString) (hl : movie.languages = some ls) (hne : ls ≠ []) :
    (r, addMovie now movies movie).2 = movies ∨
    ∃ stored, (r, addMovie now movies movie).2 = movies ++ [stored] ∧
      stored.languages = some ls ∧ ls ≠ [] := by
  obtain ⟨stored, hs, _, hsl, _⟩ := addMovie_shape now movies movie
  exact Or.inr ⟨stored, hs, hsl.trans hl, hne⟩

/-- What `/savemovie` leaves in `movies.json`: the collection as it was, or the
collection with one more record, whose languages are the normalised list, which is
not empty. -/
theorem savemovie_execute_shape (toLowerCase : JsString → JsString)
    (shortenUrl : JsString → JsString) (searchAndGetDetails : Nat → Option TmdbResult)
    (isAdmin : Bool) (movies : List Movie) (name rawWatchLinks rawLanguages : JsString)
    (rawScreenshotLinks posterUrl : Option JsString) (forceSave : Bool) (retryAttempts : Nat)
    (nowMillis : Int) (now : JsString) :
    (savemovie.execute toLowerCase shortenUrl searchAndGetDetails isAdmin movies name
        rawWatchLinks rawLanguages rawScreenshotLinks posterUrl forceSave retryAttempts
        nowMillis now).2 = movies ∨
    ∃ stored,
      (savemovie.execute toLowerCase shortenUrl searchAndGetDetails isAdmin movies name
        rawWatchLinks rawLanguages rawScreenshotLinks posterUrl forceSave retryAttempts
        nowMillis now).2 = movies ++ [stored] ∧
      stored.languages = some (savemovie.parseLanguages toLowerCase rawLanguages) ∧
      savemovie.parseLanguages toLowerCase rawLanguages ≠ [] := by
  unfold savemovie.execute
  dsimp only
  by_cases hadmin : (!isAdmin) = true
  · rw [if_pos hadmin]
    exact Or.inl rfl
  rw [if_neg hadmin]
  by_cases hlang : ((savemovie.parseLanguages toLowerCase rawLanguages).length == 0) = true
  · rw [if_pos hlang]
    exact Or.inl rfl
  rw [if_neg hlang]
  by_cases hparts :
      (((split 44 rawWatchLinks).filter fun p => trim p != []).length == 0) = true
  · rw [if_pos hparts]
    exact Or.inl rfl
  rw [if_neg hparts]
  split
  · exact Or.inl rfl
  · split
    · exact Or.inl rfl
    · exact Or.inl rfl
    · by_cases htmdb :
          (((List.range retryAttempts).findSome? searchAndGetDetails).isNone && !forceSave) = true
      · rw [if_pos htmdb]
        exact Or.inl rfl
      · rw [if_neg htmdb]
        exact saved_shape _ now movies _ _ rfl (length_ne_zero_of _ hlang)

/-- C23: a stored movie never ends up without a language.  `/savemovie` stores nothing
when the languages text normalises to the empty list, and the record it stores
otherwise has the normalised list, which is not empty.  `/updatemovie` never hands an
empty list of languages to `updateMovie`: a replacement, addition or removal that
leaves no language ends the handler with an answer other than the success message, and
then the collection is unchanged; after any run every record has the languages it had
or a list that is not empty. -/
theorem stored_languages_not_empty (toLowerCase : JsString → JsString)
    (shortenUrl : JsString → JsString) (searchAndGetDetails : Nat → Option TmdbResult)
    (validUrl : JsString → Bool) (isAdmin : Bool) (movies : List Movie)
    (name rawWatchLinks languagesText : JsString)
    (rawScreenshotLinks savedPosterUrl : Option JsString) (forceSave : Bool)
    (retryAttempts : Nat) (nowMillis : Int) (now searchName : JsString)
    (setWatchLinks rawLanguages rawAddLanguages rawRemoveLanguages posterUrl
      rawAddScreenshotLinks rawRemoveScreenshotLinks newName rawAddAliases
      rawRemoveAliases : Option JsString) :
    (savemovie.parseLanguages toLowerCase languagesText = [] →
      (savemovie.execute toLowerCase shortenUrl searchAndGetDetails isAdmin movies name
        rawWatchLinks languagesText rawScreenshotLinks savedPosterUrl forceSave retryAttempts
        nowMillis now).2 = movies ∧
      (isAdmin = true →
        (savemovie.execute toLowerCase shortenUrl searchAndGetDetails isAdmin movies name
          rawWatchLinks languagesText rawScreenshotLinks savedPosterUrl forceSave
          retryAttempts nowMillis now).1 = savemovie.Reply.noLanguage)) ∧
    ((savemovie.execute toLowerCase shortenUrl searchAndGetDetails isAdmin movies name
        rawWatchLinks languagesText rawScreenshotLinks savedPosterUrl forceSave retryAttempts
        nowMillis now).2 = movies ∨
      ∃ stored ls,
        (savemovie.execute toLowerCase shortenUrl searchAndGetDetails isAdmin movies name
          rawWatchLinks languagesText rawScreenshotLinks savedPosterUrl forceSave
          retryAttempts nowMillis now).2 = movies ++ [stored] ∧
        stored.languages = some ls ∧ ls ≠ []) ∧
    (∀ movieToUpdate fields,
      update_movie.collectFields toLowerCase validUrl movies movieToUpdate setWatchLinks
        rawLanguages rawAddLanguages rawRemoveLanguages posterUrl rawAddScreenshotLinks
        rawRemoveScreenshotLinks newName rawAddAliases rawRemoveAliases = .ok fields →
      fields.languages ≠ some []) ∧
    ((update_movie.execute toLowerCase validUrl isAdmin movies searchName setWatchLinks
        rawLanguages rawAddLanguages rawRemoveLanguages posterUrl rawAddScreenshotLinks
        rawRemoveScreenshotLinks newName rawAddAliases rawRemoveAliases now).1 ≠
          update_movie.Reply.updated →
      (update_movie.execute toLowerCase validUrl isAdmin movies searchName setWatchLinks
        rawLanguages rawAddLanguages rawRemoveLanguages posterUrl rawAddScreenshotLinks
        rawRemoveScreenshotLinks newName rawAddAliases rawRemoveAliases now).2 = movies) ∧
    List.Forall₂ LanguagesKept movies
      (update_movie.execute toLowerCase validUrl isAdmin movies searchName setWatchLinks
        rawLanguages rawAddLanguages rawRemoveLanguages posterUrl rawAddScreenshotLinks
        rawRemoveScreenshotLinks newName rawAddAliases rawRemoveAliases now).2 ∧
    update_movie.execute asciiToLowerCase (fun _ => true) true [duneSciFi, alien] (js "dune")
        none none none (some (js "English")) none none none none none none
        (js "2024-01-01T00:00:00.000Z") =
      (update_movie.Reply.cannotRemoveAll, [duneSciFi, alien]) ∧
    update_movie.execute asciiToLowerCase (fun _ => true) true [duneSciFi, alien] (js "dune")
        none (some (js "Hindi, tamil")) none none none none none none none none
        (js "2024-01-01T00:00:00.000Z") =
      (update_movie.Reply.updated,
        [{ duneSciFi with
            languages := some [js "hindi", js "tamil"]
            updatedAt := some (js "2024-01-01T00:00:00.000Z") }, alien]) := by
  refine ⟨?_, ?_, ?_, ?_, ?_, by decide, by decide⟩
  · intro hnil
    constructor
    · rcases savemovie_execute_shape toLowerCase shortenUrl searchAndGetDetails isAdmin movies
        name rawWatchLinks languagesText rawScreenshotLinks savedPosterUrl forceSave
        retryAttempts nowMillis now with h | ⟨_, _, _, hne⟩
      · exact h
      · exact absurd hnil hne
    · intro hadmin
      subst hadmin
      unfold savemovie.execute
      simp [hnil]
  · rcases savemovie_execute_shape toLowerCase shortenUrl searchAndGetDetails isAdmin movies
      name rawWatchLinks languagesText rawScreenshotLinks savedPosterUrl forceSave
      retryAttempts nowMillis now with h | ⟨stored, hs, hl, hne⟩
    · exact Or.inl h
    · exact Or.inr ⟨stored, _, hs, hl, hne⟩
  · intro movieToUpdate fields h
    exact (collectFields_keeps _ _ _ _ _ _ _ _ _ _ _ _ _ _ _ h).2
  · exact update_execute_rejected _ _ _ _ _ _ _ _ _ _ _ _ _ _ _ _
  · rcases update_execute_shape toLowerCase validUrl isAdmin movies searchName setWatchLinks
      rawLanguages rawAddLanguages rawRemoveLanguages posterUrl rawAddScreenshotLinks
      rawRemoveScreenshotLinks newName rawAddAliases rawRemoveAliases now with
      h | ⟨movieToUpdate, fields, hc, h⟩
    · rw [h]
      exact List.forall₂_same.mpr fun y _ => Or.inl rfl
    · rw [h]
      exact updateMovie_languages now movies movieToUpdate.id fields
        (collectFields_keeps _ _ _ _ _ _ _ _ _ _ _ _ _ _ _ hc).2

/-- C22: the id of a movie is immutable under `/updatemovie`: whatever the options are,
every record of the collection the handler leaves has the id it had, at the same
position; `updateMovie` itself keeps every id for every target id and every object of
updated fields without the key `id`, and the handler never sets that key. -/
theorem updatemovie_keeps_ids (toLowerCase : JsString → JsString)
    (validUrl : JsString → Bool) (isAdmin : Bool) (movies : List Movie) (searchName : JsString)
    (setWatchLinks rawLanguages rawAddLanguages rawRemoveLanguages posterUrl
      rawAddScreenshotLinks rawRemoveScreenshotLinks newName rawAddAliases
      rawRemoveAliases : Option JsString) (now : JsString) :
    ((update_movie.execute toLowerCase validUrl isAdmin movies searchName setWatchLinks
        rawLanguages rawAddLanguages rawRemoveLanguages posterUrl rawAddScreenshotLinks
        rawRemoveScreenshotLinks newName rawAddAliases rawRemoveAliases now).2.map
          fun m => m.id) = movies.map (fun m => m.id) ∧
    (∀ movieToUpdate fields,
      update_movie.collectFields toLowerCase validUrl movies movieToUpdate setWatchLinks
        rawLanguages rawAddLanguages rawRemoveLanguages posterUrl rawAddScreenshotLinks
        rawRemoveScreenshotLinks newName rawAddAliases rawRemoveAliases = .ok fields →
      fields.id = none) ∧
    (∀ (id : Option JsId) (updatedFields : UpdatedFields), updatedFields.id = none →
      ((updateMovie now movies id updatedFields).2.map fun m => m.id) =
        movies.map fun m => m.id) ∧
    update_movie.execute asciiToLowerCase (fun _ => true) true [duneSciFi, alien] (js "dune")
        none none none none none none none (some (js "Dune: Part One")) none none
        (js "2024-01-01T00:00:00.000Z") =
      (update_movie.Reply.updated,
        [{ duneSciFi with
            name := some (js "Dune: Part One")
            updatedAt := some (js "2024-01-01T00:00:00.000Z") }, alien]) := by
  refine ⟨?_, ?_, ?_, by decide⟩
  · rcases update_execute_shape toLowerCase validUrl isAdmin movies searchName setWatchLinks
      rawLanguages rawAddLanguages rawRemoveLanguages posterUrl rawAddScreenshotLinks
      rawRemoveScreenshotLinks newName rawAddAliases rawRemoveAliases now with
      h | ⟨movieToUpdate, fields, hc, h⟩
    · rw [h]
    · rw [h]
      exact updateMovie_ids now movies movieToUpdate.id fields
        (collectFields_keeps _ _ _ _ _ _ _ _ _ _ _ _ _ _ _ hc).1
  · intro movieToUpdate fields h
    exact (collectFields_keeps _ _ _ _ _ _ _ _ _ _ _ _ _ _ _ h).1
  · intro id updatedFields h
    exact updateMovie_ids now movies id updatedFields h

/-! ## /searchmovie -/

/-- Every record `advancedSearch` returns passes the filter of each option supplied. -/
theorem advancedSearch_satisfies (toLowerCase : JsString → JsString)
    (getFullYear : JsString → Option Int) (searchOptions : searchmovie.SearchOptions)
    (movies : List Movie) (m : Movie)
    (h : m ∈ searchmovie.advancedSearch toLowerCase getFullYear searchOptions movies) :
    (∀ genre, truthyText searchOptions.genre = some genre →
      searchmovie.genreMatches toLowerCase genre m = true) ∧
    (∀ year, searchmovie.truthyNumber searchOptions.year = some year →
      searchmovie.yearMatches getFullYear year m = true) ∧
    (∀ minRating, searchmovie.truthyNumber searchOptions.minRating = some minRating →
      searchmovie.ratingMatches minRating m = true) ∧
    (∀ language, truthyText searchOptions.language = some language →
      searchmovie.languageMatches toLowerCase language m = true) := by
  unfold searchmovie.advancedSearch at h
  dsimp only at h
  cases h1 : truthyText searchOptions.genre <;>
  cases h2 : searchmovie.truthyNumber searchOptions.year <;>
  cases h3 : searchmovie.truthyNumber searchOptions.minRating <;>
  cases h4 : truthyText searchOptions.language <;>
  simp only [h1, h2, h3, h4, List.mem_filter] at h <;>
  simp_all

/-- With a title that is not empty the answer of `/searchmovie` is the list
`searchMovies` returns for the title, whatever the other options are. -/
theorem searchmovie_execute_of_title (toLowerCase : JsString → JsString)
    (getFullYear : JsString → Option Int) (movies : List Movie) (title : JsString)
    (genre : Option JsString) (year : Option Int) (minRating : Option ℚ)
    (language : Option JsString) (h : title ≠ []) :
    searchmovie.execute toLowerCase getFullYear movies (some title) genre year minRating
        language =
      searchmovie.Reply.results (searchMovies toLowerCase movies title) := by
  have ht : truthyText (some title) = some title := by
    cases title with
    | nil => exact absurd rfl h
    | cons c s => rfl
  unfold searchmovie.execute
  simp [ht]

/-- C27: with a title, `/searchmovie` returns what `searchMovies` returns for the title
and applies none of the other criteria.  For the title "dune" and the genre "comedy"
it returns the record of "Dune", whose genres are Science Fiction and Adventure, and
which `advancedSearch` leaves out for the same options. -/
theorem searchmovie_title_skips_filters :
    searchmovie.execute asciiToLowerCase (fun _ => none) [duneSciFi, alien]
        (some (js "dune")) (some (js "comedy")) none none none =
      searchmovie.Reply.results [duneSciFi] ∧
    searchmovie.genreMatches asciiToLowerCase (js "comedy") duneSciFi = false ∧
    searchmovie.advancedSearch asciiToLowerCase (fun _ => none)
        { title := some (js "dune"), genre := some (js "comedy") } [duneSciFi, alien] = [] ∧
    searchmovie.execute asciiToLowerCase (fun _ => none) [duneSciFi, alien]
        (some (js "dune")) none none none (some (js "hindi")) =
      searchmovie.Reply.results [duneSciFi] ∧
    searchmovie.languageMatches asciiToLowerCase (js "hindi") duneSciFi = false := by
  decide

/-! ## Names of stored movies -/

theorem jsFind_nameEquals_none (toLowerCase : JsString → JsString) (q : JsString)
    (movies : List Movie) (h : jsFind (nameEquals toLowerCase q) movies = .ok none) :
    ∀ m ∈ movies, toLowerCase m.nameOrEmpty ≠ toLowerCase q := by
  induction movies with
  | nil => intro m hm; cases hm
  | cons x xs ih =>
    unfold jsFind at h
    unfold nameEquals at h
    cases hn : x.name with
    | none => simp [hn] at h
    | some n =>
      simp only [hn] at h
      cases hb : (toLowerCase n == toLowerCase q) with
      | true => simp [hb] at h
      | false =>
        simp only [hb] at h
        intro m hm
        rcases List.mem_cons.mp hm with hm | hm
        · subst hm
          simp only [Movie.nameOrEmpty, hn, Option.getD_some]
          exact beq_eq_false_iff_ne.mp hb
        · exact ih h m hm

theorem getMovie_none_names (toLowerCase : JsString → JsString) (q : JsString)
    (movies : List Movie) (h : getMovie toLowerCase movies q = .ok none) :
    ∀ m ∈ movies, toLowerCase m.nameOrEmpty ≠ toLowerCase q := by
  apply jsFind_nameEquals_none
  unfold getMovie at h
  split at h
  · cases h
  · cases h
  · assumption

theorem addMovie_namesDistinct {ρ : Type} (toLowerCase : JsString → JsString) (r : ρ)
    (now : JsString) (movies : List Movie) (movie : Movie)
    (hdistinct : NamesDistinct toLowerCase movies)
    (hnew : ∀ a ∈ movies, toLowerCase a.nameOrEmpty ≠ toLowerCase movie.nameOrEmpty) :
    NamesDistinct toLowerCase (r, addMovie now movies movie).2 := by
  obtain ⟨stored, hs, hname, _, _⟩ := addMovie_shape now movies movie
  dsimp only
  rw [hs]
  unfold NamesDistinct at hdistinct ⊢
  rw [List.pairwise_append]
  refine ⟨hdistinct, List.pairwise_singleton _ _, ?_⟩
  intro a ha b hb
  rw [List.mem_singleton] at hb
  subst hb
  have := hnew a ha
  simpa [Movie.nameOrEmpty, hname] using this

/-- When `/savemovie` stores the name as typed (the lookup gave no title), a collection
without two records of the same name, ignoring case, stays one. -/
theorem savemovie_typed_name_keeps_distinct (toLowerCase : JsString → JsString)
    (shortenUrl : JsString → JsString) (searchAndGetDetails : Nat → Option TmdbResult)
    (isAdmin : Bool) (movies : List Movie) (name rawWatchLinks rawLanguages : JsString)
    (rawScreenshotLinks posterUrl : Option JsString) (forceSave : Bool) (retryAttempts : Nat)
    (nowMillis : Int) (now : JsString) (hdistinct : NamesDistinct toLowerCase movies)
    (htyped : orElseString
      (((List.range retryAttempts).findSome? searchAndGetDetails).bind fun d => d.title)
      (orElseString (((List.range retryAttempts).findSome? searchAndGetDetails).bind
        fun d => d.name) name) = name) :
    NamesDistinct toLowerCase
      (savemovie.execute toLowerCase shortenUrl searchAndGetDetails isAdmin movies name
        rawWatchLinks rawLanguages rawScreenshotLinks posterUrl forceSave retryAttempts
        nowMillis now).2 := by
  unfold savemovie.execute
  dsimp only
  by_cases hadmin : (!isAdmin) = true
  · rw [if_pos hadmin]
    exact hdistinct
  rw [if_neg hadmin]
  by_cases hlang : ((savemovie.parseLanguages toLowerCase rawLanguages).length == 0) = true
  · rw [if_pos hlang]
    exact hdistinct
  rw [if_neg hlang]
  by_cases hparts :
      (((split 44 rawWatchLinks).filter fun p => trim p != []).length == 0) = true
  · rw [if_pos hparts]
    exact hdistinct
  rw [if_neg hparts]
  split
  · exact hdistinct
  · split
    · exact hdistinct
    · exact hdistinct
    · rename_i hget
      by_cases htmdb :
          (((List.range retryAttempts).findSome? searchAndGetDetails).isNone && !forceSave) = true
      · rw [if_pos htmdb]
        exact hdistinct
      · rw [if_neg htmdb]
        apply addMovie_namesDistinct _ _ _ _ _ hdistinct
        intro a ha
        have := getMovie_none_names toLowerCase name movies hget a ha
        simpa [Movie.nameOrEmpty, htyped] using this

/-- C30: saving does not keep the names distinct.  The collection holds "Dune"; the
name typed is "dune 2021", which `getMovie` does not find, and the lookup answers with
the title "Dune": `/savemovie` stores a second record named "Dune". -/
theorem savemovie_duplicates_name :
    NamesDistinct asciiToLowerCase [duneSciFi] ∧
    getMovie asciiToLowerCase [duneSciFi] (js "dune 2021") = .ok none ∧
    (savemovie.execute asciiToLowerCase (fun url => url) (fun _ => some duneLookup) true
        [duneSciFi] (js "dune 2021") (js "1080p:https://x.com/dune") (js "english") none none
        false 3 1700000000000 (js "2024-01-01T00:00:00.000Z")).1 = savemovie.Reply.saved ∧
    ((savemovie.execute asciiToLowerCase (fun url => url) (fun _ => some duneLookup) true
        [duneSciFi] (js "dune 2021") (js "1080p:https://x.com/dune") (js "english") none none
        false 3 1700000000000 (js "2024-01-01T00:00:00.000Z")).2.map fun m => m.name) =
      [some (js "Dune"), some (js "Dune")] ∧
    ¬ NamesDistinct asciiToLowerCase
      (savemovie.execute asciiToLowerCase (fun url => url) (fun _ => some duneLookup) true
        [duneSciFi] (js "dune 2021") (js "1080p:https://x.com/dune") (js "english") none none
        false 3 1700000000000 (js "2024-01-01T00:00:00.000Z")).2 := by
  decide

end MovieBot
